import Mathlib

/-!
Statement dashboard: categorisation engine, transaction-table derivation and
event loop.

A shallow embedding of `analyzer.go`, `types.go` and, of `main.go`, the table
derivation (`updateTransactionsTable`), the event loop (`Update`) and
`initialModel`.

Conventions of the embedding.

* A Go `string` is modelled by the list of its runes (`List Char`).  Every
  string the program handles is decoded from the JSON input file, and the
  decoder delivers valid UTF-8, so ranging over runes, prefix tests and
  substring tests on the bytes and on the runes agree.  Where the program
  counts or cuts bytes (`len`, `truncate`) the UTF-8 bytes are made explicit,
  and a table cell is a list of bytes.
* Functions of Go's standard library and of the table widget that hide a
  table, machine floating point or code outside the program are parameters of
  the definitions that call them: `unicodeUpper` is the case table of
  `unicode.ToUpper` on non-ASCII runes; the structure `Lib` holds
  `strconv.ParseFloat`, `fmt.Sprintf("%.2f", _)`, the cursor rule of the
  widget's `SetRows` and the height of its viewport.  The `float64` values
  are an abstract type `V` with a zero, an addition of which no law is
  assumed, and a linear order that stands for the numeric order.  Go's `>` on
  `float64` is the function `Greater` of `Lib`: it is the numeric order except
  on NaN, where it is false, and a theorem that needs the two to agree on the
  amounts of a statement says so in a hypothesis.
* `sort.Slice` is its insertion sort for a slice of at most 12 elements; for
  a longer slice, which goes through pattern-defeating quicksort, the order
  of the elements that compare equal is left to `Lib` (see `sortSlice`).
* The table widget is outside the program; the part of its state that the
  program reads or writes is `TableModel`, and its `Update`, `MoveUp`,
  `MoveDown`, `Focus`, `Blur` follow the library: a table with focus moves its
  cursor by the rows asked for and keeps it within the rows.
* A run-time panic is the value `none`.
-/

namespace Statements

/-! ## Strings -/

/-- Go `strings.HasPrefix`. -/
def HasPrefix (s pre : List Char) : Bool := pre.isPrefixOf s

/-- Go `strings.TrimPrefix`. -/
def TrimPrefix (s pre : List Char) : List Char :=
  if HasPrefix s pre then s.drop pre.length else s

/-- Go `strings.Contains`: `sub` occurs at some position of `s`. -/
def Contains : List Char → List Char → Bool
  | [], sub => HasPrefix [] sub
  | c :: cs, sub => HasPrefix (c :: cs) sub || Contains cs sub

/-- The ASCII branch of `unicode.ToUpper`: `'a'..'z'` move down by 32. -/
def asciiUpper (r : Char) : Char :=
  if 97 ≤ r.toNat ∧ r.toNat ≤ 122 then Char.ofNat (r.toNat - 32) else r

/-- Go `unicode.ToUpper`: ASCII runes by arithmetic, every other rune by the
library's case table `unicodeUpper`. -/
def toUpperRune (unicodeUpper : Char → Char) (r : Char) : Char :=
  if r.toNat ≤ 127 then asciiUpper r else unicodeUpper r

/-- Go `strings.ToUpper`. -/
def ToUpper (unicodeUpper : Char → Char) (s : List Char) : List Char :=
  s.map (toUpperRune unicodeUpper)

/-- The regexp class `\d`: an ASCII decimal digit. -/
def isDigit (r : Char) : Bool := decide (48 ≤ r.toNat ∧ r.toNat ≤ 57)

/-! ## analyzer.go -/

def CategoryAll : List Char := "All".toList
def CategoryTransport : List Char := "Transport".toList
def CategoryFood : List Char := "Food".toList
def CategoryShopping : List Char := "Shopping".toList
def CategoryTravel : List Char := "Travel".toList
def CategoryUtilities : List Char := "Utilities".toList
def CategoryApplePay : List Char := "ApplePay".toList
def CategoryPayPal : List Char := "PayPal".toList
def CategoryForeignFee : List Char := "ForeignFee".toList
def CategoryOther : List Char := "Other".toList

/-- One iteration of the loop of `ToCDB`: the rune written for the rune read. -/
def ToCDBRune (r : Char) : Char :=
  let code := r.toNat
  if code = 12288 then Char.ofNat (code - 12256)
  else if code > 65280 ∧ code < 65375 then Char.ofNat (code - 65248)
  else r

/-- `ToCDB` converts full-width characters to half-width characters. -/
def ToCDB (str : List Char) : List Char := str.map ToCDBRune

/-- Drops at most `n` leading digits: the greedy `\d{0,n}`. -/
def dropDigits : Nat → List Char → List Char
  | 0, s => s
  | _ + 1, [] => []
  | n + 1, c :: cs => if isDigit c then dropDigits n cs else c :: cs

/-- The call `applePayRegex.ReplaceAllString(s, "")` for the anchored pattern
`^APE\d{0,4}`: the only possible match starts at the first rune. -/
def stripApplePayPrefix (s : List Char) : List Char :=
  if HasPrefix s "APE".toList then dropDigits 4 (s.drop 3) else s

/-- The LINE Pay marker. -/
def linePayPrefix : List Char := "連加*".toList

/-- The Jkopay marker. -/
def jkopayPrefix : List Char := "街口電支-".toList

/-- The foreign transaction fee marker. -/
def foreignFeePrefix : List Char := "國外交易手續費".toList

/-- `GetCleanDescription` removes payment provider prefixes from a description. -/
def GetCleanDescription (normalizedDesc : List Char) : List Char :=
  let cleanDesc := stripApplePayPrefix normalizedDesc
  let cleanDesc :=
    if HasPrefix cleanDesc linePayPrefix then TrimPrefix cleanDesc linePayPrefix else cleanDesc
  let cleanDesc :=
    if HasPrefix cleanDesc jkopayPrefix then TrimPrefix cleanDesc jkopayPrefix else cleanDesc
  cleanDesc

def transportPrefixes : List (List Char) :=
  ["LIME", "UBER", "UBR*", "FREENOW", "ZITY", "FLIXBUS", "FNM*", "FNM ", "TRENITALIA",
   "TRENORD", "TRAIN", "SCOOTER", "RAILWAY"].map String.toList

def foodPrefixes : List (List Char) :=
  ["CIBO", "PANIFICIO", "DELIVEROO", "CAFE", "CAFFE", "MACELLERIA",
   "ESSELUNGA", "MERCATO", "MERCADO", "RISTORANTE", "RESTAURANT", "OSTERIA", "GELATERIA",
   "GELATO", "GELATI", "PIZZA", "PIZZERIA",
   "BURGER", "CONAD", "CARREFOUR", "EATALY", "BAR", "TRATTORIA", "DM-",
   "GLOVO", "KFC", "MCDONALDS", "NESPRESSO", "PASTICCERIA",
   "PRETAMANGER", "FIVEGUYS", "AUTOGRILL", "STARBUCKS", "DRINK"].map String.toList

def shoppingPrefixes : List (List Char) :=
  ["AMAZON*", "WWW.AMAZON", "DECATHLON", "BRICOCENTER", "TIGROS", "TEMU.COM",
   "UNIQLO"].map String.toList

def travelPrefixes : List (List Char) :=
  ["AIRBNB", "ALBERGO", "AIRPORT", "EASYJET", "TRIP.COM", "EVAAIR", "RYANAIR", "FLYSCOOT",
   "GOTOGATE", "BOOKINGCOM", "HOTEL", "KKDAY", "KIWICOM"].map String.toList

def utilitiesPrefixes : List (List Char) :=
  ["APPLE.COM", "VODAFONE", "AWS", "AMAZONWEBSERVICES", "1PASSWORD", "POLITECNICO",
   "POSTEITALIA", "OPENAI", "POLISPORTIVA", "PORKBUN"].map String.toList

/-- `DetectDetailedCategory` detects the granular category of a description.
Each `for ... { if ... { return } }` loop of the source is the `any` of its
test over the tag list. -/
def DetectDetailedCategory (unicodeUpper : Char → Char) (normalizedDesc : List Char) :
    List Char :=
  let desc := ToUpper unicodeUpper normalizedDesc
  if transportPrefixes.any (fun p => HasPrefix desc p) then CategoryTransport
  else if foodPrefixes.any (fun p => Contains desc p) then CategoryFood
  else if shoppingPrefixes.any (fun p => Contains desc p) then CategoryShopping
  else if travelPrefixes.any (fun p => Contains desc p) then CategoryTravel
  else if utilitiesPrefixes.any (fun p => Contains desc p) then CategoryUtilities
  else CategoryOther

/-! ## types.go -/

/-- A single credit card transaction. -/
structure Transaction where
  Amount : List Char := []
  Description : List Char := []
  AmtCy : List Char := []
  TxnLoc : List Char := []
  TxnDate : List Char := []
  CyCnvDate : List Char := []
  PostingDate : List Char := []
  NtdAmount : List Char := []
  IsForeignTxn : Bool := false
  IsInstallmentTxn : Bool := false
  CardNo : List Char := []
  RelationShip : List Char := []
  NormalizedDescription : List Char := []
  ApplePayCardLast4 : List Char := []
  Category : List Char := []
deriving DecidableEq, Repr

/-- A monthly credit card statement. -/
structure Statement where
  NationalID : List Char := []
  PaymentKey : List Char := []
  CardType : List Char := []
  StmtMo : List Char := []
  StmtYr : List Char := []
  PmtDue : List Char := []
  CurTotAmt : List Char := []
  MinAmt : List Char := []
  StmtDate : List Char := []
  IntRate : List Char := []
  CreditLmt : List Char := []
  CashAdvLmt : List Char := []
  PreBal : List Char := []
  PreAdjAmt : List Char := []
  PreTotAmt : List Char := []
  CurIncExpense : List Char := []
  CurOthExpense : List Char := []
  PointCurPtBal : List Char := []
  PointPrebal : List Char := []
  PointCurIncPt : List Char := []
  PointCurUsePt : List Char := []
  Message : List Char := []
  Transactions : List Transaction := []
deriving DecidableEq, Repr

/-- Transactions grouped by payment provider. -/
structure CategorizedTransactions where
  ApplePay : List Transaction := []
  PayPal : List Transaction := []
  LinePay : List Transaction := []
  Jkopay : List Transaction := []
  ForeignFees : List Transaction := []
  Other : List Transaction := []
deriving DecidableEq, Repr

/-! ## analyzer.go: CategorizeTransactions -/

/-- The call `applePayRegex.FindStringSubmatch(s)` for the pattern `^APE(\d{4})`:
the whole match and the group when `s` starts with `APE` and four digits, and
no entry otherwise. -/
def applePayFindStringSubmatch (s : List Char) : List (List Char) :=
  let digits := (s.drop 3).take 4
  if HasPrefix s "APE".toList ∧ digits.length = 4 ∧ digits.all isDigit = true then
    ["APE".toList ++ digits, digits]
  else []

/-- The enrichment part of the loop body of `CategorizeTransactions`
(`normalizedDesc := ToCDB(...)` down to `tx.Category = detailedCategory`): the
transaction as it stands in the statement after the iteration. -/
def enrichTransaction (unicodeUpper : Char → Char) (tx : Transaction) : Transaction :=
  let normalizedDesc := ToCDB tx.Description
  let tx := { tx with NormalizedDescription := normalizedDesc }
  let tx :=
    if HasPrefix normalizedDesc "APE".toList then
      let found := applePayFindStringSubmatch normalizedDesc
      if found.length > 1 then { tx with ApplePayCardLast4 := found.getD 1 [] } else tx
    else tx
  let cleanDesc := GetCleanDescription normalizedDesc
  let detailedCategory := DetectDetailedCategory unicodeUpper cleanDesc
  { tx with Category := detailedCategory }

/-- The bucket part of the loop body of `CategorizeTransactions`: the copy
`*tx` is appended to the bucket selected by the normalized description. -/
def appendToBucket (categorized : CategorizedTransactions) (normalizedDesc : List Char)
    (tx : Transaction) : CategorizedTransactions :=
  if HasPrefix normalizedDesc "APE".toList then
    { categorized with ApplePay := categorized.ApplePay ++ [tx] }
  else if HasPrefix normalizedDesc "PAYPAL*".toList || HasPrefix normalizedDesc "PP*".toList then
    { categorized with PayPal := categorized.PayPal ++ [tx] }
  else if HasPrefix normalizedDesc linePayPrefix then
    { categorized with LinePay := categorized.LinePay ++ [tx] }
  else if HasPrefix normalizedDesc jkopayPrefix then
    { categorized with Jkopay := categorized.Jkopay ++ [tx] }
  else if HasPrefix normalizedDesc foreignFeePrefix then
    { categorized with ForeignFees := categorized.ForeignFees ++ [tx] }
  else
    { categorized with Other := categorized.Other ++ [tx] }

/-- The inner loop `for j := range statements[i].Transactions`: the
transactions as rewritten in place, and the accumulator. -/
def categorizeStatementTransactions (unicodeUpper : Char → Char) :
    List Transaction → CategorizedTransactions → List Transaction × CategorizedTransactions
  | [], categorized => ([], categorized)
  | tx :: rest, categorized =>
    let tx1 := enrichTransaction unicodeUpper tx
    let categorized1 := appendToBucket categorized (ToCDB tx.Description) tx1
    let r := categorizeStatementTransactions unicodeUpper rest categorized1
    (tx1 :: r.1, r.2)

/-- The outer loop `for i := range statements`. -/
def categorizeStatements (unicodeUpper : Char → Char) :
    List Statement → CategorizedTransactions → List Statement × CategorizedTransactions
  | [], categorized => ([], categorized)
  | stmt :: rest, categorized =>
    let r := categorizeStatementTransactions unicodeUpper stmt.Transactions categorized
    let rs := categorizeStatements unicodeUpper rest r.2
    ({ stmt with Transactions := r.1 } :: rs.1, rs.2)

/-- `CategorizeTransactions` categorizes all transactions from statements.  The
slice is rewritten in place, so the result is the pair of the statements as the
caller sees them afterwards and the returned grouping. -/
def CategorizeTransactions (unicodeUpper : Char → Char) (statements : List Statement) :
    List Statement × CategorizedTransactions :=
  categorizeStatements unicodeUpper statements
    { ApplePay := [], PayPal := [], LinePay := [], Jkopay := [], ForeignFees := [], Other := [] }

/-! ## main.go: library calls -/

/-- The UTF-8 encoding of one rune, as byte values. -/
def utf8EncodeRune (r : Char) : List Nat :=
  let v := r.toNat
  if v ≤ 127 then [v]
  else if v ≤ 2047 then [192 + v / 64, 128 + v % 64]
  else if v ≤ 65535 then [224 + v / 4096, 128 + (v / 64) % 64, 128 + v % 64]
  else [240 + v / 262144, 128 + (v / 4096) % 64, 128 + (v / 64) % 64, 128 + v % 64]

/-- The bytes of a string. -/
def utf8 (s : List Char) : List Nat := s.flatMap utf8EncodeRune

/-- Go `len(s)`: the number of bytes of a string. -/
def len (s : List Char) : Nat := (utf8 s).length

/-- Go `xs[i]` on a slice: a negative or too large index panics. -/
def index? {α : Type} (xs : List α) (i : Int) : Option α :=
  if i < 0 then none else xs[i.toNat]?

/-- Go `strings.Split(s, sep)` for a separator of one rune. -/
def Split (sep : Char) : List Char → List (List Char)
  | [] => [[]]
  | c :: cs =>
    if c = sep then [] :: Split sep cs
    else
      match Split sep cs with
      | [] => [[c]]
      | part :: parts => (c :: part) :: parts

/-- Go `unicode.IsSpace`. -/
def isSpace (r : Char) : Bool :=
  let v := r.toNat
  decide ((9 ≤ v ∧ v ≤ 13) ∨ v = 32 ∨ v = 133 ∨ v = 160 ∨ v = 5760 ∨ (8192 ≤ v ∧ v ≤ 8202) ∨
    v = 8232 ∨ v = 8233 ∨ v = 8239 ∨ v = 8287 ∨ v = 12288)

/-- Go `strings.TrimSpace`. -/
def TrimSpace (s : List Char) : List Char :=
  ((s.dropWhile isSpace).reverse.dropWhile isSpace).reverse

/-- The decimal digits of a natural number, most significant first; `fuel`
bounds the number of digits. -/
def decimalDigits : Nat → Nat → List Char
  | 0, _ => []
  | fuel + 1, n =>
    if n < 10 then [Char.ofNat (48 + n)]
    else decimalDigits fuel (n / 10) ++ [Char.ofNat (48 + n % 10)]

/-- Go `fmt.Sprintf("%d", n)` for a length `n`. -/
def SprintfD (n : Nat) : List Char := decimalDigits (n + 1) n

/-- The functions of the Go runtime and of the table widget whose code is not
part of the program.  `V` stands for the `float64` values. -/
structure Lib (V : Type) where
  /-- The call `strconv.ParseFloat(s, 64)`: the value returned and whether `err == nil`. -/
  ParseFloat : List Char → V × Bool
  /-- The call `fmt.Sprintf("%.2f", v)`. -/
  Sprintf2f : V → List Char
  /-- Go `a > b` on `float64`: false when one of the two is NaN. -/
  Greater : V → V → Bool
  /-- The rank that the quicksort of `sort.Slice`, run with `less` on a slice
  of more than 12 elements, gives the element at each index: elements that
  compare equal come out in the order of their ranks. -/
  QuickSortRank : (Transaction → Transaction → Bool) → List Transaction → Nat → Nat
  /-- The cursor of a table after `SetRows`, from the cursor before and the
  number of rows set. -/
  SetRowsCursor : Int → Nat → Int
  /-- The height of the viewport of a table of the height set: the height less
  the lines of the rendered header. -/
  ViewportHeight : Int → Int

/-- One insertion of Go's `insertionSortLessFunc`: `x` moves towards the front
while `less x` holds of the element before it.  The sorted prefix is held in
reverse, its last element first. -/
def insertLess {α : Type} (less : α → α → Bool) (x : α) : List α → List α
  | [] => [x]
  | y :: ys => if less x y then y :: insertLess less x ys else x :: y :: ys

/-- Go's `insertionSortLessFunc` on a whole slice: the elements are inserted
one after the other into the sorted prefix. -/
def insertionSort {α : Type} (less : α → α → Bool) (xs : List α) : List α :=
  (xs.foldl (fun sorted x => insertLess less x sorted) []).reverse

/-- The elements of a slice in the order of the ranks given to their indices,
elements of the same rank in the order of the slice. -/
def rankOrder {α : Type} (rank : Nat → Nat) (xs : List α) : List α :=
  (insertionSort (fun a b : Nat × α => decide (a.1 < b.1))
    (xs.enum.map (fun p => (rank p.1, p.2)))).map Prod.snd

/-- Go `sort.Slice(xs, less)`.  From Go 1.19 on a slice of at most 12 elements
is sorted by insertion.  A longer slice goes through pattern-defeating
quicksort, which for a `less` that orders the slice returns the elements in
the order of `less` with those that compare equal in an order of its own: the
stable sort of the slice taken in the order of the library's ranks. -/
def sortSlice {V : Type} (L : Lib V) (less : Transaction → Transaction → Bool)
    (xs : List Transaction) : List Transaction :=
  if xs.length ≤ 12 then insertionSort less xs
  else insertionSort less (rankOrder (L.QuickSortRank less xs) xs)

/-! ## main.go -/

def summaryView : Int := 0
def statementsView : Int := 1

def sortByDate : Int := 0
def sortByAmount : Int := 1
def sortByLocation : Int := 2
def sortByCategory : Int := 3

/-- A column of the table widget. -/
structure Column where
  Title : List Char
  Width : Int
deriving DecidableEq, Repr

/-- The state of a `table.Model` of the widget library that the program
reads or writes; a cell of a row is a byte string. -/
structure TableModel where
  cols : List Column := []
  rows : List (List (List Nat)) := []
  cursor : Int := 0
  focus : Bool := false
  height : Int := 0
deriving DecidableEq, Repr

/-- The widget's `SetRows`. -/
def TableModel.SetRows {V : Type} (L : Lib V) (t : TableModel) (r : List (List (List Nat))) :
    TableModel :=
  { t with rows := r, cursor := L.SetRowsCursor t.cursor r.length }

/-- The widget's `SetColumns`. -/
def TableModel.SetColumns (t : TableModel) (c : List Column) : TableModel :=
  { t with cols := c }

structure model where
  statements : List Statement := []
  categorized : CategorizedTransactions := {}
  currentView : Int := 0
  selectedStmtIdx : Int := 0
  sortBy : Int := 0
  categoryFilter : List Char := []
  statementsTable : TableModel := {}
  transactionsTable : TableModel := {}
  focusedTable : Int := 0
  width : Int := 0
  height : Int := 0
  ready : Bool := false
deriving DecidableEq, Repr

/-- `truncate`: the slice `s[:maxLen-3]` is taken on the bytes and panics on a
negative bound. -/
def truncate (s : List Char) (maxLen : Int) : Option (List Nat) :=
  if (len s : Int) ≤ maxLen then some (utf8 s)
  else if maxLen - 3 < 0 then none
  else some ((utf8 s).take (maxLen - 3).toNat ++ utf8 "...".toList)

/-- The comma loop of `formatAmount`: `i` is the byte offset of the rune and
`n` the byte length of the integer part. -/
def insertCommas (n : Nat) : Nat → List Char → List Char
  | _, [] => []
  | i, r :: rs =>
    (if 0 < i ∧ (n - i) % 3 = 0 then [','] else []) ++
      r :: insertCommas n (i + (utf8EncodeRune r).length) rs

/-- `formatAmount` formats a number with comma separators; `parts[1]` panics
when the printed number has no decimal point. -/
def formatAmount {V : Type} (L : Lib V) (amount : V) : Option (List Char) :=
  let str := L.Sprintf2f amount
  let parts := Split '.' str
  let intPart := parts.getD 0 []
  match parts[1]? with
  | none => none
  | some decPart =>
    let negative := HasPrefix intPart "-".toList
    let intPart := if negative then intPart.drop 1 else intPart
    let result := insertCommas (len intPart) 0 intPart
    let formatted := result ++ ".".toList ++ decPart
    some (if negative then "-".toList ++ formatted else formatted)

/-- `formatAmountString` parses a string and formats it with commas. -/
def formatAmountString {V : Type} (L : Lib V) (amountStr : List Char) : Option (List Char) :=
  let r := L.ParseFloat amountStr
  if r.2 = false then some amountStr else formatAmount L r.1

/-- `rightPadAmount` right-aligns an amount within a fixed width. -/
def rightPadAmount (amountStr : List Char) (width : Int) : List Char :=
  if (len amountStr : Int) ≥ width then amountStr
  else
    let padding := width - len amountStr
    List.replicate padding.toNat ' ' ++ amountStr

/-- Go `a < b` on byte strings: lexicographic on the bytes. -/
def bytesLess : List Nat → List Nat → Bool
  | _, [] => false
  | [], _ :: _ => true
  | a :: as, b :: bs => if a < b then true else if b < a then false else bytesLess as bs

/-- Go `a < b` on strings. -/
def stringLess (a b : List Char) : Bool := bytesLess (utf8 a) (utf8 b)

/-- The amount summed for a foreign-fee transaction: the parsed NTD amount,
or the parsed amount when that is zero. -/
def feeAmount {V : Type} [LinearOrder V] [Zero V] (L : Lib V) (tx : Transaction) : V :=
  let amt := (L.ParseFloat tx.NtdAmount).1
  if amt = 0 then (L.ParseFloat tx.Amount).1 else amt

/-- The three variables filled by the first loop of `updateTransactionsTable`. -/
structure FeeSplit (V : Type) where
  regularTxs : List Transaction
  foreignFeeTxs : List Transaction
  foreignFeeTotal : V

/-- The first loop of `updateTransactionsTable`: foreign fees are separated
from the other transactions and summed. -/
def splitForeignFees {V : Type} [LinearOrder V] [Zero V] [Add V] (L : Lib V)
    (txs : List Transaction) : FeeSplit V :=
  txs.foldl
    (fun acc tx =>
      let normalizedDesc := ToCDB tx.Description
      if HasPrefix normalizedDesc foreignFeePrefix then
        { acc with
          foreignFeeTxs := acc.foreignFeeTxs ++ [tx]
          foreignFeeTotal := acc.foreignFeeTotal + feeAmount L tx }
      else
        { acc with regularTxs := acc.regularTxs ++ [tx] })
    { regularTxs := [], foreignFeeTxs := [], foreignFeeTotal := 0 }

/-- The category filter of `updateTransactionsTable`. -/
def filterByCategory (categoryFilter : List Char) (regularTxs : List Transaction) :
    List Transaction :=
  if categoryFilter = CategoryAll then regularTxs
  else regularTxs.filter (fun tx => decide (tx.Category = categoryFilter))

/-- The `switch m.sortBy` of `updateTransactionsTable`. -/
def sortTransactions {V : Type} [LinearOrder V] (L : Lib V) (sortBy : Int)
    (transactions : List Transaction) : List Transaction :=
  if sortBy = sortByDate then
    sortSlice L (fun ti tj => stringLess ti.TxnDate tj.TxnDate) transactions
  else if sortBy = sortByAmount then
    sortSlice L
      (fun ti tj =>
        let amtI := (L.ParseFloat ti.NtdAmount).1
        let amtJ := (L.ParseFloat tj.NtdAmount).1
        L.Greater amtI amtJ)
      transactions
  else if sortBy = sortByLocation then
    sortSlice L (fun ti tj => stringLess ti.TxnLoc tj.TxnLoc) transactions
  else if sortBy = sortByCategory then
    sortSlice L (fun ti tj => stringLess ti.Category tj.Category) transactions
  else transactions

/-- The columns of the transactions table. -/
def txColumns (showCategoryColumn : Bool) : List Column :=
  if showCategoryColumn then
    [⟨"Date".toList, 10⟩, ⟨"Category".toList, 10⟩, ⟨"Amount (NTD)".toList, 13⟩,
     ⟨"Description".toList, 28⟩, ⟨"Amount".toList, 13⟩, ⟨"Curr".toList, 5⟩, ⟨"Loc".toList, 8⟩]
  else
    [⟨"Date".toList, 10⟩, ⟨"Amount (NTD)".toList, 13⟩, ⟨"Description".toList, 38⟩,
     ⟨"Amount".toList, 13⟩, ⟨"Curr".toList, 5⟩, ⟨"Loc".toList, 8⟩]

/-- The marker of an online banking payment, whose row is skipped. -/
def onlineBankingPayment : List Char := "網路銀行繳款".toList

/-- The row appended for one transaction by the loop `for _, tx := range transactions`. -/
def transactionRow {V : Type} (L : Lib V) (showCategoryColumn : Bool) (tx : Transaction) :
    Option (List (List Nat)) :=
  let originalAmt := if tx.Amount = [] then "0.00".toList else tx.Amount
  let ntdAmt := if tx.NtdAmount = [] then "0.00".toList else tx.NtdAmount
  let currency := if tx.AmtCy = [] ∨ TrimSpace tx.AmtCy = [] then "NTD".toList else tx.AmtCy
  let cleanDesc := GetCleanDescription tx.NormalizedDescription
  match formatAmountString L ntdAmt,
        truncate cleanDesc (if showCategoryColumn then 28 else 38),
        formatAmountString L originalAmt,
        truncate tx.TxnLoc 8 with
  | some ntdCell, some descCell, some amtCell, some locCell =>
    if showCategoryColumn then
      some [utf8 tx.TxnDate, utf8 tx.Category, utf8 (rightPadAmount ntdCell 13), descCell,
            utf8 (rightPadAmount amtCell 13), utf8 (TrimSpace currency), locCell]
    else
      some [utf8 tx.TxnDate, utf8 (rightPadAmount ntdCell 13), descCell,
            utf8 (rightPadAmount amtCell 13), utf8 (TrimSpace currency), locCell]
  | _, _, _, _ => none

/-- The loop `for _, tx := range transactions` that builds the table rows; an
online banking payment is skipped. -/
def transactionRows {V : Type} (L : Lib V) (showCategoryColumn : Bool) :
    List Transaction → Option (List (List (List Nat)))
  | [] => some []
  | tx :: rest =>
    if tx.NormalizedDescription = onlineBankingPayment then
      transactionRows L showCategoryColumn rest
    else
      match transactionRow L showCategoryColumn tx, transactionRows L showCategoryColumn rest with
      | some row, some rows => some (row :: rows)
      | _, _ => none

/-- The aggregated foreign fee row, added when there are fees and the filter is `All`. -/
def foreignFeeRows {V : Type} (L : Lib V) (categoryFilter : List Char)
    (showCategoryColumn : Bool) (stmt : Statement) (split : FeeSplit V) :
    Option (List (List (List Nat))) :=
  if split.foreignFeeTxs.length > 0 ∧ categoryFilter = CategoryAll then
    let feeDate :=
      match split.foreignFeeTxs with
      | first :: _ => if first.TxnDate ≠ [] then first.TxnDate else stmt.StmtDate
      | [] => stmt.StmtDate
    match formatAmount L split.foreignFeeTotal with
    | none => none
    | some total =>
      let label := "Foreign TX Fee (".toList ++ SprintfD split.foreignFeeTxs.length ++ ")".toList
      if showCategoryColumn then
        some [[utf8 feeDate, utf8 "Fee".toList, utf8 (rightPadAmount total 13), utf8 label,
               utf8 (rightPadAmount total 13), utf8 "NTD".toList, []]]
      else
        some [[utf8 feeDate, utf8 (rightPadAmount total 13), utf8 label,
               utf8 (rightPadAmount total 13), utf8 "NTD".toList, []]]
  else some []

/-- `updateTransactionsTable` rebuilds the transactions table based on the
selected statement and sort mode. -/
def updateTransactionsTable {V : Type} [LinearOrder V] [Zero V] [Add V] (L : Lib V)
    (m : model) : Option model :=
  if m.selectedStmtIdx ≥ m.statements.length then some m
  else
    match index? m.statements m.selectedStmtIdx with
    | none => none
    | some stmt =>
      let split := splitForeignFees L stmt.Transactions
      let filteredTxs := filterByCategory m.categoryFilter split.regularTxs
      let transactions := sortTransactions L m.sortBy filteredTxs
      let showCategoryColumn := decide (m.categoryFilter = CategoryAll)
      let table := (m.transactionsTable.SetRows L []).SetColumns (txColumns showCategoryColumn)
      match transactionRows L showCategoryColumn transactions,
            foreignFeeRows L m.categoryFilter showCategoryColumn stmt split with
      | some rows, some feeRows =>
        some { m with transactionsTable := table.SetRows L (rows ++ feeRows) }
      | _, _ => none

/-! ## An instance of the library for evaluation -/

/-- The value of a run of decimal digits; `none` when a rune is no digit. -/
def digitsValue : List Char → Nat → Option Nat
  | [], acc => some acc
  | c :: cs, acc => if isDigit c then digitsValue cs (acc * 10 + (c.toNat - 48)) else none

/-- Amounts with at most two decimals, held in hundredths: what
`strconv.ParseFloat` returns for an optional `-`, digits, and an optional
point with one or two digits.  Any other string is reported as a syntax
error with value zero. -/
def parseHundredths (s : List Char) : Int × Bool :=
  let negative := HasPrefix s "-".toList
  let body := if negative then s.drop 1 else s
  let value : Option Nat :=
    match Split '.' body with
    | [whole] => if whole = [] then none else (digitsValue whole 0).map (fun w => w * 100)
    | [whole, frac] =>
      if whole = [] then none
      else
        match digitsValue whole 0, digitsValue frac 0 with
        | some w, some f =>
          if frac.length = 1 then some (w * 100 + f * 10)
          else if frac.length = 2 then some (w * 100 + f)
          else none
        | _, _ => none
    | _ => none
  match value with
  | some v => (if negative then - (v : Int) else (v : Int), true)
  | none => (0, false)

/-- The call `fmt.Sprintf("%.2f", v)` on an amount held in hundredths. -/
def printHundredths (v : Int) : List Char :=
  let a := v.natAbs
  (if v < 0 then "-".toList else []) ++ SprintfD (a / 100) ++ ".".toList ++
    [Char.ofNat (48 + a % 100 / 10), Char.ofNat (48 + a % 10)]

/-- The library on amounts held in hundredths, none of which is NaN; the
quicksort leaves equal elements in the order of the slice; `SetRows` keeps the
cursor within the rows set. -/
def hundredthsLib : Lib Int where
  ParseFloat := parseHundredths
  Sprintf2f := printHundredths
  Greater := fun a b => decide (a > b)
  QuickSortRank := fun _ _ i => i
  SetRowsCursor := fun cursor n => if cursor > (n : Int) - 1 then (n : Int) - 1 else cursor
  ViewportHeight := fun h => h - 2

/-! ## main.go: the event loop -/

/-- A message of the event loop: a resize, a key press with the text of its
`String()`, or any other message. -/
inductive Msg where
  | WindowSizeMsg (Width Height : Int)
  | KeyMsg (text : List Char)
  | Other
deriving DecidableEq, Repr

/-- A command returned to the event loop: `nil` or `tea.Quit`. -/
inductive Cmd where
  | Nil
  | Quit
deriving DecidableEq, Repr

/-- The widget's `clamp`. -/
def clamp (v low high : Int) : Int := min (max v low) high

/-- The widget's `MoveUp`: the selection moves up by `n` rows and stays within
the rows. -/
def TableModel.MoveUp (t : TableModel) (n : Int) : TableModel :=
  { t with cursor := clamp (t.cursor - n) 0 ((t.rows.length : Int) - 1) }

/-- The widget's `MoveDown`: the selection moves down by `n` rows and stays
within the rows. -/
def TableModel.MoveDown (t : TableModel) (n : Int) : TableModel :=
  { t with cursor := clamp (t.cursor + n) 0 ((t.rows.length : Int) - 1) }

/-- The widget's `GotoTop`. -/
def TableModel.GotoTop (t : TableModel) : TableModel := t.MoveUp t.cursor

/-- The widget's `GotoBottom`. -/
def TableModel.GotoBottom (t : TableModel) : TableModel := t.MoveDown t.rows.length

/-- The widget's `Focus`. -/
def TableModel.Focus (t : TableModel) : TableModel := { t with focus := true }

/-- The widget's `Blur`. -/
def TableModel.Blur (t : TableModel) : TableModel := { t with focus := false }

/-- The widget's `SetHeight`. -/
def TableModel.SetHeight (t : TableModel) (h : Int) : TableModel := { t with height := h }

/-- The widget's `Update` with its default key map: a table without focus
ignores the message; a key moves the selection. -/
def TableModel.Update {V : Type} (L : Lib V) (t : TableModel) (msg : Msg) : TableModel :=
  if t.focus = false then t
  else
    match msg with
    | Msg.KeyMsg k =>
      if k = "up".toList ∨ k = "k".toList then t.MoveUp 1
      else if k = "down".toList ∨ k = "j".toList then t.MoveDown 1
      else if k = "b".toList ∨ k = "pgup".toList then t.MoveUp (L.ViewportHeight t.height)
      else if k = "f".toList ∨ k = "pgdown".toList ∨ k = " ".toList then
        t.MoveDown (L.ViewportHeight t.height)
      else if k = "u".toList ∨ k = "ctrl+u".toList then
        t.MoveUp (Int.tdiv (L.ViewportHeight t.height) 2)
      else if k = "d".toList ∨ k = "ctrl+d".toList then
        t.MoveDown (Int.tdiv (L.ViewportHeight t.height) 2)
      else if k = "home".toList ∨ k = "g".toList then t.GotoTop
      else if k = "end".toList ∨ k = "G".toList then t.GotoBottom
      else t
    | _ => t

/-- The synthetic message `tea.KeyMsg{Type: tea.KeyUp}`. -/
def keyUp : Msg := Msg.KeyMsg "up".toList

/-- The synthetic message `tea.KeyMsg{Type: tea.KeyDown}`. -/
def keyDown : Msg := Msg.KeyMsg "down".toList

/-- A loop `for i := 0; i < n; i++ { t, cmd = t.Update(msg) }`. -/
def repeatUpdate {V : Type} (L : Lib V) (n : Int) (msg : Msg) (t : TableModel) : TableModel :=
  Nat.iterate (fun t => t.Update L msg) n.toNat t

/-- The end of `Update`, below the key switch: in the statements view the
message goes to the focused table, and the transactions table is rebuilt when
the cursor of the statements table has moved. -/
def updateTables {V : Type} [LinearOrder V] [Zero V] [Add V] (L : Lib V) (m : model)
    (msg : Msg) : Option (model × Cmd) :=
  if m.currentView = statementsView then
    if m.focusedTable = 0 then
      let prevCursor := m.statementsTable.cursor
      let m := { m with statementsTable := m.statementsTable.Update L msg }
      if m.statementsTable.cursor ≠ prevCursor then
        (updateTransactionsTable L { m with selectedStmtIdx := m.statementsTable.cursor }).map
          (fun m => (m, Cmd.Nil))
      else some (m, Cmd.Nil)
    else
      some ({ m with transactionsTable := m.transactionsTable.Update L msg }, Cmd.Nil)
  else some (m, Cmd.Nil)

/-- A filter key of `Update`: in the statements view the filter is set and the
transactions table is rebuilt. -/
def setFilter {V : Type} [LinearOrder V] [Zero V] [Add V] (L : Lib V) (m : model)
    (category : List Char) : Option (model × Cmd) :=
  if m.currentView = statementsView then
    (updateTransactionsTable L { m with categoryFilter := category }).map
      (fun m => (m, Cmd.Nil))
  else some (m, Cmd.Nil)

/-- A navigation key of `Update` on the statements table: the table after the
loop of synthetic moves becomes the statements table, the selected statement
follows its cursor and the transactions table is rebuilt. -/
def moveStatements {V : Type} [LinearOrder V] [Zero V] [Add V] (L : Lib V) (m : model)
    (t : TableModel) : Option (model × Cmd) :=
  (updateTransactionsTable L { m with statementsTable := t, selectedStmtIdx := t.cursor }).map
    (fun m => (m, Cmd.Nil))

/-- The case `tea.KeyMsg` of `Update`. -/
def updateKey {V : Type} [LinearOrder V] [Zero V] [Add V] (L : Lib V) (m : model)
    (k : List Char) : Option (model × Cmd) :=
  if k = "ctrl+c".toList ∨ k = "q".toList then some (m, Cmd.Quit)
  else if k = "tab".toList then
    if m.currentView = summaryView then
      some ({ m with
        currentView := statementsView
        focusedTable := 0
        statementsTable := m.statementsTable.Focus
        transactionsTable := m.transactionsTable.Blur }, Cmd.Nil)
    else some ({ m with currentView := summaryView }, Cmd.Nil)
  else if k = "left".toList ∨ k = "h".toList then
    if m.currentView = statementsView ∧ m.focusedTable = 1 then
      some ({ m with
        focusedTable := 0
        statementsTable := m.statementsTable.Focus
        transactionsTable := m.transactionsTable.Blur }, Cmd.Nil)
    else updateTables L m (Msg.KeyMsg k)
  else if k = "right".toList ∨ k = "l".toList then
    if m.currentView = statementsView ∧ m.focusedTable = 0 then
      some ({ m with
        focusedTable := 1
        statementsTable := m.statementsTable.Blur
        transactionsTable := m.transactionsTable.Focus }, Cmd.Nil)
    else updateTables L m (Msg.KeyMsg k)
  else if k = "s".toList then
    if m.currentView = statementsView then
      (updateTransactionsTable L { m with sortBy := Int.tmod (m.sortBy + 1) 4 }).map
        (fun m => (m, Cmd.Nil))
    else some (m, Cmd.Nil)
  else if k = "1".toList then setFilter L m CategoryAll
  else if k = "2".toList then setFilter L m CategoryFood
  else if k = "3".toList then setFilter L m CategoryTransport
  else if k = "4".toList then setFilter L m CategoryShopping
  else if k = "5".toList then setFilter L m CategoryTravel
  else if k = "6".toList then setFilter L m CategoryUtilities
  else if k = "7".toList then setFilter L m CategoryOther
  else if k = "up".toList ∨ k = "k".toList then
    if m.currentView = statementsView then
      if m.focusedTable = 0 then
        if m.statementsTable.cursor = 0 then
          let lastIdx : Int := (m.statements.length : Int) - 1
          moveStatements L m (repeatUpdate L lastIdx keyDown m.statementsTable)
        else updateTables L m (Msg.KeyMsg k)
      else
        if m.transactionsTable.cursor = 0 then
          let rowCount : Int := m.transactionsTable.rows.length
          if rowCount > 0 then
            some ({ m with
              transactionsTable :=
                repeatUpdate L (rowCount - 1) keyDown m.transactionsTable }, Cmd.Nil)
          else some (m, Cmd.Nil)
        else updateTables L m (Msg.KeyMsg k)
    else updateTables L m (Msg.KeyMsg k)
  else if k = "down".toList ∨ k = "j".toList then
    if m.currentView = statementsView then
      if m.focusedTable = 0 then
        let lastIdx : Int := (m.statements.length : Int) - 1
        if m.statementsTable.cursor = lastIdx then
          moveStatements L m (repeatUpdate L lastIdx keyUp m.statementsTable)
        else updateTables L m (Msg.KeyMsg k)
      else
        let rowCount : Int := m.transactionsTable.rows.length
        if rowCount > 0 ∧ m.transactionsTable.cursor = rowCount - 1 then
          some ({ m with
            transactionsTable :=
              repeatUpdate L (rowCount - 1) keyUp m.transactionsTable }, Cmd.Nil)
        else updateTables L m (Msg.KeyMsg k)
    else updateTables L m (Msg.KeyMsg k)
  else if k = "home".toList then
    if m.currentView = statementsView then
      if m.focusedTable = 0 then
        moveStatements L m (repeatUpdate L m.statementsTable.cursor keyUp m.statementsTable)
      else
        some ({ m with
          transactionsTable :=
            repeatUpdate L m.transactionsTable.cursor keyUp m.transactionsTable }, Cmd.Nil)
    else updateTables L m (Msg.KeyMsg k)
  else if k = "end".toList then
    if m.currentView = statementsView then
      if m.focusedTable = 0 then
        let lastIdx : Int := (m.statements.length : Int) - 1
        moveStatements L m
          (repeatUpdate L (lastIdx - m.statementsTable.cursor) keyDown m.statementsTable)
      else
        let rowCount : Int := m.transactionsTable.rows.length
        some ({ m with
          transactionsTable :=
            repeatUpdate L (rowCount - 1 - m.transactionsTable.cursor) keyDown
              m.transactionsTable }, Cmd.Nil)
    else updateTables L m (Msg.KeyMsg k)
  else if k = "pgup".toList then
    if m.currentView = statementsView then
      let pageSize : Int := 10
      if m.focusedTable = 0 then
        let cursor := m.statementsTable.cursor
        let steps := if cursor < pageSize then cursor else pageSize
        moveStatements L m (repeatUpdate L steps keyUp m.statementsTable)
      else
        let cursor := m.transactionsTable.cursor
        let steps := if cursor < pageSize then cursor else pageSize
        some ({ m with
          transactionsTable := repeatUpdate L steps keyUp m.transactionsTable }, Cmd.Nil)
    else updateTables L m (Msg.KeyMsg k)
  else if k = "pgdown".toList then
    if m.currentView = statementsView then
      let pageSize : Int := 10
      if m.focusedTable = 0 then
        let lastIdx : Int := (m.statements.length : Int) - 1
        let remaining := lastIdx - m.statementsTable.cursor
        let steps := if remaining < pageSize then remaining else pageSize
        moveStatements L m (repeatUpdate L steps keyDown m.statementsTable)
      else
        let rowCount : Int := m.transactionsTable.rows.length
        let remaining := rowCount - 1 - m.transactionsTable.cursor
        let steps := if remaining < pageSize then remaining else pageSize
        some ({ m with
          transactionsTable := repeatUpdate L steps keyDown m.transactionsTable }, Cmd.Nil)
    else updateTables L m (Msg.KeyMsg k)
  else updateTables L m (Msg.KeyMsg k)

/-- `Update`: the model and the command returned for a message. -/
def Update {V : Type} [LinearOrder V] [Zero V] [Add V] (L : Lib V) (m : model) (msg : Msg) :
    Option (model × Cmd) :=
  match msg with
  | Msg.WindowSizeMsg w h =>
    let tableHeight : Int := if h - 10 < 5 then 5 else h - 10
    some ({ m with
      width := w
      height := h
      ready := true
      statementsTable := m.statementsTable.SetHeight tableHeight
      transactionsTable := m.transactionsTable.SetHeight tableHeight }, Cmd.Nil)
  | Msg.KeyMsg k => updateKey L m k
  | Msg.Other => updateTables L m Msg.Other

/-- The rows of the statements table built by the first loop of
`initialModel`, one for each statement. -/
def statementRows {V : Type} (L : Lib V) : List Statement → Option (List (List (List Nat)))
  | [] => some []
  | stmt :: rest =>
    match formatAmountString L stmt.CurTotAmt, statementRows L rest with
    | some formattedAmt, some rows =>
      some ([utf8 (stmt.StmtYr ++ "/".toList ++ stmt.StmtMo),
             utf8 (rightPadAmount ("NT$".toList ++ formattedAmt) 18)] :: rows)
    | _, _ => none

/-- The columns of the statements table. -/
def stmtColumns : List Column := [⟨"Date".toList, 12⟩, ⟨"Amount".toList, 18⟩]

/-- `initialModel`: the two tables are created with the cursor on the first
row, the statements table with focus; the transactions table is filled for the
first statement when there is one. -/
def initialModel {V : Type} [LinearOrder V] [Zero V] [Add V] (L : Lib V)
    (statements : List Statement) (categorized : CategorizedTransactions) : Option model :=
  match statementRows L statements with
  | none => none
  | some stmtRows =>
    let stmtTable : TableModel :=
      { cols := stmtColumns, rows := stmtRows, cursor := 0, focus := true, height := 10 }
    let txTable : TableModel :=
      { cols := txColumns true, rows := [], cursor := 0, focus := false, height := 10 }
    let m : model :=
      { statements := statements
        categorized := categorized
        currentView := summaryView
        selectedStmtIdx := 0
        sortBy := sortByDate
        categoryFilter := CategoryAll
        statementsTable := stmtTable
        transactionsTable := txTable
        focusedTable := 0
        width := 0
        height := 0
        ready := false }
    if statements.length > 0 then updateTransactionsTable L m else some m

/-- The model after a sequence of messages, each handled by `Update`. -/
def runUpdates {V : Type} [LinearOrder V] [Zero V] [Add V] (L : Lib V) :
    model → List Msg → Option model
  | m, [] => some m
  | m, msg :: rest =>
    match Update L m msg with
    | some r => runUpdates L r.1 rest
    | none => none

/-- The state of the program started on the statements and their grouping,
after a sequence of messages. -/
def reach {V : Type} [LinearOrder V] [Zero V] [Add V] (L : Lib V)
    (statements : List Statement) (categorized : CategorizedTransactions) (msgs : List Msg) :
    Option model :=
  (initialModel L statements categorized).bind (fun m => runUpdates L m msgs)

/-! ## Definitions used to state the properties -/

/-- The grouping in the words of the specification: each bucket holds, in
order, the transactions of `all` whose normalized description passes the
bucket test. -/
def bucketsByPrefix (all : List Transaction) : CategorizedTransactions where
  ApplePay := all.filter (fun t => HasPrefix t.NormalizedDescription "APE".toList)
  PayPal := all.filter (fun t =>
    HasPrefix t.NormalizedDescription "PAYPAL*".toList ||
      HasPrefix t.NormalizedDescription "PP*".toList)
  LinePay := all.filter (fun t => HasPrefix t.NormalizedDescription linePayPrefix)
  Jkopay := all.filter (fun t => HasPrefix t.NormalizedDescription jkopayPrefix)
  ForeignFees := all.filter (fun t => HasPrefix t.NormalizedDescription foreignFeePrefix)
  Other := all.filter (fun t =>
    !(HasPrefix t.NormalizedDescription "APE".toList ||
      HasPrefix t.NormalizedDescription "PAYPAL*".toList ||
      HasPrefix t.NormalizedDescription "PP*".toList ||
      HasPrefix t.NormalizedDescription linePayPrefix ||
      HasPrefix t.NormalizedDescription jkopayPrefix ||
      HasPrefix t.NormalizedDescription foreignFeePrefix))

/-- Bucket by bucket concatenation of two groupings. -/
def CategorizedTransactions.append (a b : CategorizedTransactions) : CategorizedTransactions where
  ApplePay := a.ApplePay ++ b.ApplePay
  PayPal := a.PayPal ++ b.PayPal
  LinePay := a.LinePay ++ b.LinePay
  Jkopay := a.Jkopay ++ b.Jkopay
  ForeignFees := a.ForeignFees ++ b.ForeignFees
  Other := a.Other ++ b.Other

/-- All transactions of a list of statements, in statement order and then in
transaction order. -/
def allTransactions (statements : List Statement) : List Transaction :=
  (statements.map Statement.Transactions).flatten

/-- A statement after the pass: its transactions are enriched in place. -/
def enrichStatement (uc : Char → Char) (stmt : Statement) : Statement :=
  { stmt with Transactions := stmt.Transactions.map (enrichTransaction uc) }


/-- The six buckets of a grouping, one after the other. -/
def allBuckets (c : CategorizedTransactions) : List Transaction :=
  c.ApplePay ++ c.PayPal ++ c.LinePay ++ c.Jkopay ++ c.ForeignFees ++ c.Other

/-! ## Inputs at which the theorems are evaluated -/

/-- One statement with an Apple Pay transaction that carries a card number and
one that does not. -/
def applePayStatements : List Statement :=
  [{ Transactions := [{ Description := "APE5678STORE".toList },
                      { Description := "APESTORE".toList }] }]

/-- Two transactions with the same description, the first with a card number
already present on input. -/
def sameDescriptionStatements : List Statement :=
  [{ Transactions := [{ Description := "STORE".toList, ApplePayCardLast4 := "9999".toList },
                      { Description := "STORE".toList }] }]

/-- The slice that `updateTransactionsTable` sorts: the transactions of the
statement that are no foreign fee and pass the category filter, in statement
order. -/
def sortedCandidates (categoryFilter : List Char) (stmt : Statement) : List Transaction :=
  filterByCategory categoryFilter
    (stmt.Transactions.filter (fun tx => !HasPrefix (ToCDB tx.Description) foreignFeePrefix))

/-- The transactions that get a row of their own, in statement order: the
sorted slice without the online banking payments. -/
def displayedCandidates (categoryFilter : List Char) (stmt : Statement) : List Transaction :=
  (sortedCandidates categoryFilter stmt).filter
    (fun tx => decide (tx.NormalizedDescription ≠ onlineBankingPayment))

/-- The effective amount of a transaction in the words of the specification:
the parsed NTD amount, or the parsed foreign-currency amount when the NTD
amount parses to zero or fails to parse. -/
def effectiveAmount {V : Type} [LinearOrder V] [Zero V] (L : Lib V) (tx : Transaction) : V :=
  let ntd := L.ParseFloat tx.NtdAmount
  if ntd.2 = false ∨ ntd.1 = 0 then (L.ParseFloat tx.Amount).1 else ntd.1

/-- A transaction of 10 NTD, as enriched by `CategorizeTransactions`. -/
def txTen : Transaction :=
  { Description := "TEN".toList, NtdAmount := "10".toList,
    NormalizedDescription := "TEN".toList, Category := CategoryOther }

/-- A transaction of 100 NTD, as enriched by `CategorizeTransactions`. -/
def txHundred : Transaction :=
  { Description := "HUNDRED".toList, NtdAmount := "100".toList,
    NormalizedDescription := "HUNDRED".toList, Category := CategoryOther }

/-- A transaction of 50 NTD, as enriched by `CategorizeTransactions`. -/
def txFifty : Transaction :=
  { Description := "FIFTY".toList, NtdAmount := "50".toList,
    NormalizedDescription := "FIFTY".toList, Category := CategoryOther }

/-- A transaction whose NTD amount is zero and whose foreign amount is 30, as
enriched by `CategorizeTransactions`. -/
def txZeroThirty : Transaction :=
  { Description := "ZERO".toList, NtdAmount := "0".toList, Amount := "30".toList,
    NormalizedDescription := "ZERO".toList, Category := CategoryOther }

/-- The statement of NTD amounts 10 and 0, the latter with foreign amount 30. -/
def stmtTenZero : Statement := { Transactions := [txTen, txZeroThirty] }

/-- The statement of NTD amounts 50 and 100. -/
def stmtFiftyHundred : Statement := { Transactions := [txFifty, txHundred] }

/-- One statement with an Apple Pay purchase at a coffee shop and a PayPal
purchase. -/
def endToEndStatements : List Statement :=
  [{ Transactions := [{ Description := "APE1234 STARBUCKS".toList, Amount := "100".toList },
                      { Description := "PAYPAL*SHOP".toList, Amount := "200".toList }] }]

/-- The foreign-fee transactions of a statement, in statement order: those
whose normalized description starts with the foreign fee marker. -/
def feeTransactions (stmt : Statement) : List Transaction :=
  stmt.Transactions.filter (fun tx => HasPrefix (ToCDB tx.Description) foreignFeePrefix)

/-- The transactions of the selected statement that `updateTransactionsTable`
turns into rows, in the order of their rows: the sorted slice, sorted, without
the online banking payments. -/
def shownTransactions {V : Type} [LinearOrder V] (L : Lib V) (m : model) (stmt : Statement) :
    List Transaction :=
  (sortTransactions L m.sortBy (sortedCandidates m.categoryFilter stmt)).filter
    (fun tx => decide (tx.NormalizedDescription ≠ onlineBankingPayment))

/-- A statement of two foreign-fee transactions of 30.00 and 20.00 NTD, as
enriched by `CategorizeTransactions`. -/
def stmtTwoFees : Statement :=
  { StmtDate := "2024/02/01".toList
    Transactions :=
      [{ Description := "國外交易手續費".toList, NtdAmount := "30.00".toList,
         TxnDate := "2024/01/15".toList,
         NormalizedDescription := "國外交易手續費".toList, Category := CategoryOther },
       { Description := "國外交易手續費".toList, NtdAmount := "20.00".toList,
         TxnDate := "2024/01/20".toList,
         NormalizedDescription := "國外交易手續費".toList, Category := CategoryOther }] }

/-- A model in sort mode Date with the given filter on the statement `stmt`. -/
def filterModel (categoryFilter : List Char) (stmt : Statement) : model :=
  { statements := [stmt], categoryFilter := categoryFilter }

/-- A coffee shop purchase, as enriched by `CategorizeTransactions`. -/
def txCoffee : Transaction :=
  { Description := "STARBUCKS".toList, NtdAmount := "100".toList,
    TxnDate := "2024/01/03".toList, TxnLoc := "TW".toList,
    NormalizedDescription := "STARBUCKS".toList, Category := CategoryFood }

/-- A ride, as enriched by `CategorizeTransactions`. -/
def txRide : Transaction :=
  { Description := "UBER TRIP".toList, NtdAmount := "50".toList,
    TxnDate := "2024/01/02".toList, TxnLoc := "IT".toList,
    NormalizedDescription := "UBER TRIP".toList, Category := CategoryTransport }

/-- An online banking payment, as enriched by `CategorizeTransactions`. -/
def txPayment : Transaction :=
  { Description := "網路銀行繳款".toList, NtdAmount := "-500".toList,
    TxnDate := "2024/01/01".toList, TxnLoc := "TW".toList,
    NormalizedDescription := "網路銀行繳款".toList, Category := CategoryOther }

/-- A transaction whose description starts with the online banking payment
marker and goes on, as enriched by `CategorizeTransactions`. -/
def txPaymentLonger : Transaction :=
  { Description := "網路銀行繳款X".toList, NtdAmount := "7".toList,
    TxnDate := "2024/01/04".toList, TxnLoc := "US".toList,
    NormalizedDescription := "網路銀行繳款X".toList, Category := CategoryOther }

/-- A foreign transaction fee, as enriched by `CategorizeTransactions`. -/
def txFee : Transaction :=
  { Description := "國外交易手續費".toList, NtdAmount := "3".toList,
    TxnDate := "2024/01/05".toList,
    NormalizedDescription := "國外交易手續費".toList, Category := CategoryOther }

/-- A statement with one transaction of each kind. -/
def stmtMixed : Statement :=
  { StmtDate := "2024/02/01".toList
    Transactions := [txCoffee, txRide, txPayment, txPaymentLonger, txFee] }

/-- A model on the statement `stmt` with the given sort mode and filter. -/
def sortModel (sortBy : Int) (categoryFilter : List Char) (stmt : Statement) : model :=
  { statements := [stmt], sortBy := sortBy, categoryFilter := categoryFilter }

/-- A table with focus, three rows and the cursor on the given row. -/
def threeRowTable (cursor : Int) : TableModel :=
  { rows := [[[49]], [[50]], [[51]]], cursor := cursor, focus := true }

/-- A model in the statements view on three statements, with the statements
panel focused and its cursor, like the selected statement, on the given row. -/
def statementsPanelModel (cursor : Int) : model :=
  { statements := [stmtTenZero, stmtMixed, stmtTwoFees]
    currentView := statementsView
    selectedStmtIdx := cursor
    categoryFilter := CategoryAll
    statementsTable := threeRowTable cursor
    focusedTable := 0 }

/-- A model in the statements view with the transactions panel focused, three
rows in it and its cursor on the given row. -/
def transactionsPanelModel (cursor : Int) : model :=
  { statements := [stmtTenZero, stmtMixed, stmtTwoFees]
    currentView := statementsView
    categoryFilter := CategoryAll
    statementsTable := { rows := [[[49]], [[50]], [[51]]] }
    transactionsTable := threeRowTable cursor
    focusedTable := 1 }

/-- The library on amounts held in hundredths with a `SetRows` that leaves the
cursor where it is. -/
def keepCursorLib : Lib Int :=
  { hundredthsLib with SetRowsCursor := fun cursor _ => cursor }

/-- Three statements, the first with four rows to show. -/
def threeStatements : List Statement := [stmtMixed, stmtTenZero, stmtTwoFees]

/-- A key press. -/
def key (text : String) : Msg := Msg.KeyMsg text.toList

/-- A table with focus, thirteen rows and the cursor on the given row. -/
def thirteenRowTable (cursor : Int) : TableModel :=
  { rows := List.replicate 13 [[49]], cursor := cursor, focus := true }

/-- A model in the statements view on thirteen statements, with the statements
panel focused and its cursor, like the selected statement, on the given row. -/
def longStatementsPanelModel (cursor : Int) : model :=
  { statements := List.replicate 13 stmtTenZero
    currentView := statementsView
    selectedStmtIdx := cursor
    categoryFilter := CategoryAll
    statementsTable := thirteenRowTable cursor
    focusedTable := 0 }

/-- A model in the statements view with the transactions panel focused,
thirteen rows in it and its cursor on the given row. -/
def longTransactionsPanelModel (cursor : Int) : model :=
  { statements := [stmtTenZero]
    currentView := statementsView
    categoryFilter := CategoryAll
    statementsTable := { rows := [[[49]]] }
    transactionsTable := thirteenRowTable cursor
    focusedTable := 1 }

/-- A table after moves of its selection: the rows are the same, and the
cursor is where it was or where a clamp to the rows left it. -/
def tableMoved (t t1 : TableModel) : Prop :=
  t1.rows = t.rows ∧
    (t1.cursor = t.cursor ∨ ∃ x, t1.cursor = clamp x 0 ((t.rows.length : Int) - 1))

/-- What one message can do to the statements, the sort mode, the statements
table and the selected statement: the statements stay, the sort mode stays or
advances, the statements table is moved, and either its cursor and the selected
statement stay, or the selected statement follows the cursor and the model is
what `updateTransactionsTable` returns for it. -/
def stepped {V : Type} [LinearOrder V] [Zero V] [Add V] (L : Lib V) (m m1 : model) : Prop :=
  m1.statements = m.statements ∧ m1.categorized = m.categorized ∧
  (m1.sortBy = m.sortBy ∨ m1.sortBy = Int.tmod (m.sortBy + 1) 4) ∧
  tableMoved m.statementsTable m1.statementsTable ∧
  ((m1.statementsTable.cursor = m.statementsTable.cursor ∧
      m1.selectedStmtIdx = m.selectedStmtIdx) ∨
    (m1.selectedStmtIdx = m1.statementsTable.cursor ∧
      updateTransactionsTable L
        { m with
          statementsTable := m1.statementsTable
          selectedStmtIdx := m1.statementsTable.cursor } = some m1))

/-- The panel the model holds for focused is the statements panel or the
transactions panel, and its table has the widget's focus. -/
def focusAgrees (m : model) : Prop :=
  (m.focusedTable = 0 ∨ m.focusedTable = 1) ∧
  (m.focusedTable = 0 → m.statementsTable.focus = true) ∧
  (m.focusedTable = 1 → m.transactionsTable.focus = true)

/-- The library on amounts held in hundredths together with +Inf and NaN:
`strconv.ParseFloat` returns NaN without an error for "NaN" and +Inf with a
range error for "1e999"; `fmt.Sprintf("%.2f", _)` prints them as "NaN" and
"+Inf"; Go's `>` is false when one side is NaN.  NaN is the least element of
the order and absorbs the addition, +Inf the greatest of the others. -/
def nonFiniteLib : Lib (WithBot (WithTop Int)) where
  ParseFloat := fun s =>
    if s = "NaN".toList then (⊥, true)
    else if s = "1e999".toList then (((⊤ : WithTop Int) : WithBot (WithTop Int)), false)
    else ((((parseHundredths s).1 : WithTop Int) : WithBot (WithTop Int)),
      (parseHundredths s).2)
  Sprintf2f := fun v =>
    match v with
    | none => "NaN".toList
    | some none => "+Inf".toList
    | some (some x) => printHundredths x
  Greater := fun a b => decide (a ≠ ⊥ ∧ b ≠ ⊥ ∧ a > b)
  QuickSortRank := fun _ _ i => i
  SetRowsCursor := fun cursor n => if cursor > (n : Int) - 1 then (n : Int) - 1 else cursor
  ViewportHeight := fun h => h - 2

/-- A foreign transaction fee whose NTD amount is out of the range of
`float64` and whose foreign amount is 30.00, as enriched by
`CategorizeTransactions`. -/
def txFeeRange : Transaction :=
  { Description := "國外交易手續費".toList, NtdAmount := "1e999".toList,
    Amount := "30.00".toList, TxnDate := "2024/01/15".toList,
    NormalizedDescription := "國外交易手續費".toList, Category := CategoryOther }

/-- The statement of that one fee. -/
def stmtFeeRange : Statement :=
  { StmtDate := "2024/02/01".toList, Transactions := [txFeeRange] }

/-- A description `s` taken apart as the three removals of
`GetCleanDescription` take it apart: `a`, the Apple Pay prefix, is "APE" with
the longest run of at most four digits that follows it when `s` starts with
"APE", and nothing otherwise; `l` is the LINE Pay marker when what follows `a`
starts with it, and nothing otherwise; `j` is the Jkopay marker when what
follows `l` starts with it, and nothing otherwise; `r` is what is left. -/
def StripsInSequence (s a l j r : List Char) : Prop :=
  s = a ++ (l ++ (j ++ r)) ∧
  ("APE".toList <+: s →
    ∃ ds, a = "APE".toList ++ ds ∧ ds.length ≤ 4 ∧ (∀ c ∈ ds, isDigit c = true) ∧
      (ds.length = 4 ∨ ∀ c ∈ (l ++ (j ++ r)).head?, isDigit c = false)) ∧
  (¬ ("APE".toList <+: s) → a = []) ∧
  (linePayPrefix <+: l ++ (j ++ r) → l = linePayPrefix) ∧
  (¬ (linePayPrefix <+: l ++ (j ++ r)) → l = []) ∧
  (jkopayPrefix <+: j ++ r → j = jkopayPrefix) ∧
  (¬ (jkopayPrefix <+: j ++ r) → j = [])

/-- The amount string, when it parses, prints with a decimal point: its value
is no NaN and no ±Inf. -/
def printsDecimal {V : Type} (L : Lib V) (s : List Char) : Prop :=
  (L.ParseFloat s).2 = true → '.' ∈ L.Sprintf2f (L.ParseFloat s).1

/-- The two amounts in the row of a transaction print with a decimal point. -/
def rowPrints {V : Type} (L : Lib V) (tx : Transaction) : Prop :=
  printsDecimal L (if tx.NtdAmount = [] then "0.00".toList else tx.NtdAmount) ∧
  printsDecimal L (if tx.Amount = [] then "0.00".toList else tx.Amount)

/-! ## Lemmas on strings -/

theorem toNat_ofNat_small (n : Nat) (h : n < 55296) : (Char.ofNat n).toNat = n := by
  have hv : n.isValidChar := Or.inl h
  simp [Char.ofNat, hv, Char.ofNatAux, Char.toNat, UInt32.toNat, BitVec.toNat_ofNatLt]

theorem HasPrefix_eq_append (s pre : List Char) (h : HasPrefix s pre = true) :
    s = pre ++ s.drop pre.length := by
  unfold HasPrefix at h
  obtain ⟨t, rfl⟩ := List.isPrefixOf_iff_prefix.mp h
  simp

theorem HasPrefix_append (pre rest : List Char) : HasPrefix (pre ++ rest) pre = true := by
  unfold HasPrefix
  exact List.isPrefixOf_iff_prefix.mpr (List.prefix_append pre rest)

theorem dropDigits_decompose (n : Nat) (s : List Char) :
    ∃ ds, s = ds ++ dropDigits n s ∧ ds.length ≤ n ∧ ds.all isDigit = true := by
  induction n generalizing s with
  | zero => exact ⟨[], by simp [dropDigits]⟩
  | succ n ih =>
    cases s with
    | nil => exact ⟨[], by simp [dropDigits]⟩
    | cons c cs =>
      by_cases hc : isDigit c = true
      · obtain ⟨ds, h1, h2, h3⟩ := ih cs
        refine ⟨c :: ds, ?_, ?_, ?_⟩
        · simp only [dropDigits, hc, if_true, List.cons_append]
          exact congrArg (List.cons c) h1
        · simpa using h2
        · simp [hc, h3]
      · exact ⟨[], by simp [dropDigits, hc]⟩

theorem ToCDBRune_idem (r : Char) : ToCDBRune (ToCDBRune r) = ToCDBRune r := by
  unfold ToCDBRune
  simp only
  by_cases h1 : r.toNat = 12288
  · simp only [h1, if_true]
    rw [toNat_ofNat_small _ (by norm_num)]
    norm_num
  · simp only [h1, if_false]
    by_cases h2 : r.toNat > 65280 ∧ r.toNat < 65375
    · simp only [h2, and_self, if_true]
      have hlt : r.toNat - 65248 < 55296 := by omega
      rw [toNat_ofNat_small _ hlt]
      have h3 : ¬ (r.toNat - 65248 = 12288) := by omega
      have h4 : ¬ (r.toNat - 65248 > 65280 ∧ r.toNat - 65248 < 65375) := by omega
      simp only [h3, h4, if_false]
    · simp only [h2, if_false, h1]

theorem HasPrefix_cons_cons (c a : Char) (cs p : List Char) :
    HasPrefix (c :: cs) (a :: p) = (a == c && HasPrefix cs p) := by
  simp [HasPrefix, List.isPrefixOf]

theorem HasPrefix_nil_cons (a : Char) (p : List Char) : HasPrefix [] (a :: p) = false := by
  simp [HasPrefix, List.isPrefixOf]

theorem HasPrefix_exclusive {s : List Char} {a b : Char} {p q : List Char} (hab : a ≠ b)
    (h : HasPrefix s (a :: p) = true) : HasPrefix s (b :: q) = false := by
  cases s with
  | nil => simp [HasPrefix_nil_cons] at h
  | cons c cs =>
    rw [HasPrefix_cons_cons] at h ⊢
    simp only [Bool.and_eq_true, beq_iff_eq] at h
    have : ¬ (b = c) := by
      rw [← h.1]
      exact fun hh => hab hh.symm
    simp [this]

theorem enrichTransaction_NormalizedDescription (uc : Char → Char) (tx : Transaction) :
    (enrichTransaction uc tx).NormalizedDescription = ToCDB tx.Description := by
  unfold enrichTransaction
  simp only []
  split_ifs <;> rfl

theorem enrichTransaction_Category (uc : Char → Char) (tx : Transaction) :
    (enrichTransaction uc tx).Category =
      DetectDetailedCategory uc (GetCleanDescription (ToCDB tx.Description)) := by
  unfold enrichTransaction
  simp only []

theorem appendToBucket_eq (c : CategorizedTransactions) (t : Transaction) :
    appendToBucket c t.NormalizedDescription t = c.append (bucketsByPrefix [t]) := by
  have eA : "APE".toList = 'A' :: "PE".toList := rfl
  have eP : "PAYPAL*".toList = 'P' :: "AYPAL*".toList := rfl
  have eP2 : "PP*".toList = 'P' :: "P*".toList := rfl
  have eL : linePayPrefix = '連' :: "加*".toList := rfl
  have eJ : jkopayPrefix = '街' :: "口電支-".toList := rfl
  have eF : foreignFeePrefix = '國' :: "外交易手續費".toList := rfl
  have xAP : HasPrefix t.NormalizedDescription "APE".toList = true →
      HasPrefix t.NormalizedDescription "PAYPAL*".toList = false := by
    rw [eA, eP]; exact HasPrefix_exclusive (by decide)
  have xAP2 : HasPrefix t.NormalizedDescription "APE".toList = true →
      HasPrefix t.NormalizedDescription "PP*".toList = false := by
    rw [eA, eP2]; exact HasPrefix_exclusive (by decide)
  have xAL : HasPrefix t.NormalizedDescription "APE".toList = true →
      HasPrefix t.NormalizedDescription linePayPrefix = false := by
    rw [eA, eL]; exact HasPrefix_exclusive (by decide)
  have xAJ : HasPrefix t.NormalizedDescription "APE".toList = true →
      HasPrefix t.NormalizedDescription jkopayPrefix = false := by
    rw [eA, eJ]; exact HasPrefix_exclusive (by decide)
  have xAF : HasPrefix t.NormalizedDescription "APE".toList = true →
      HasPrefix t.NormalizedDescription foreignFeePrefix = false := by
    rw [eA, eF]; exact HasPrefix_exclusive (by decide)
  have xPL : HasPrefix t.NormalizedDescription "PAYPAL*".toList = true →
      HasPrefix t.NormalizedDescription linePayPrefix = false := by
    rw [eP, eL]; exact HasPrefix_exclusive (by decide)
  have xPJ : HasPrefix t.NormalizedDescription "PAYPAL*".toList = true →
      HasPrefix t.NormalizedDescription jkopayPrefix = false := by
    rw [eP, eJ]; exact HasPrefix_exclusive (by decide)
  have xPF : HasPrefix t.NormalizedDescription "PAYPAL*".toList = true →
      HasPrefix t.NormalizedDescription foreignFeePrefix = false := by
    rw [eP, eF]; exact HasPrefix_exclusive (by decide)
  have xP2L : HasPrefix t.NormalizedDescription "PP*".toList = true →
      HasPrefix t.NormalizedDescription linePayPrefix = false := by
    rw [eP2, eL]; exact HasPrefix_exclusive (by decide)
  have xP2J : HasPrefix t.NormalizedDescription "PP*".toList = true →
      HasPrefix t.NormalizedDescription jkopayPrefix = false := by
    rw [eP2, eJ]; exact HasPrefix_exclusive (by decide)
  have xP2F : HasPrefix t.NormalizedDescription "PP*".toList = true →
      HasPrefix t.NormalizedDescription foreignFeePrefix = false := by
    rw [eP2, eF]; exact HasPrefix_exclusive (by decide)
  have xLJ : HasPrefix t.NormalizedDescription linePayPrefix = true →
      HasPrefix t.NormalizedDescription jkopayPrefix = false := by
    rw [eL, eJ]; exact HasPrefix_exclusive (by decide)
  have xLF : HasPrefix t.NormalizedDescription linePayPrefix = true →
      HasPrefix t.NormalizedDescription foreignFeePrefix = false := by
    rw [eL, eF]; exact HasPrefix_exclusive (by decide)
  have xJF : HasPrefix t.NormalizedDescription jkopayPrefix = true →
      HasPrefix t.NormalizedDescription foreignFeePrefix = false := by
    rw [eJ, eF]; exact HasPrefix_exclusive (by decide)
  clear eA eP eP2 eL eJ eF
  unfold appendToBucket bucketsByPrefix CategorizedTransactions.append
  simp only [List.filter_cons, List.filter_nil]
  generalize HasPrefix t.NormalizedDescription "APE".toList = bA at *
  generalize HasPrefix t.NormalizedDescription "PAYPAL*".toList = bP at *
  generalize HasPrefix t.NormalizedDescription "PP*".toList = bP2 at *
  generalize HasPrefix t.NormalizedDescription linePayPrefix = bL at *
  generalize HasPrefix t.NormalizedDescription jkopayPrefix = bJ at *
  generalize HasPrefix t.NormalizedDescription foreignFeePrefix = bF at *
  cases bA <;> cases bP <;> cases bP2 <;> cases bL <;> cases bJ <;> cases bF <;>
    first
    | exact absurd (xAP rfl) (by decide)
    | exact absurd (xAP2 rfl) (by decide)
    | exact absurd (xAL rfl) (by decide)
    | exact absurd (xAJ rfl) (by decide)
    | exact absurd (xAF rfl) (by decide)
    | exact absurd (xPL rfl) (by decide)
    | exact absurd (xPJ rfl) (by decide)
    | exact absurd (xPF rfl) (by decide)
    | exact absurd (xP2L rfl) (by decide)
    | exact absurd (xP2J rfl) (by decide)
    | exact absurd (xP2F rfl) (by decide)
    | exact absurd (xLJ rfl) (by decide)
    | exact absurd (xLF rfl) (by decide)
    | exact absurd (xJF rfl) (by decide)
    | simp


theorem bucketsByPrefix_append (l1 l2 : List Transaction) :
    bucketsByPrefix (l1 ++ l2) = (bucketsByPrefix l1).append (bucketsByPrefix l2) := by
  simp [bucketsByPrefix, CategorizedTransactions.append]

theorem CategorizedTransactions.append_assoc (a b c : CategorizedTransactions) :
    (a.append b).append c = a.append (b.append c) := by
  simp [CategorizedTransactions.append]

theorem categorizeStatementTransactions_eq (uc : Char → Char) (txs : List Transaction)
    (c : CategorizedTransactions) :
    categorizeStatementTransactions uc txs c =
      (txs.map (enrichTransaction uc), c.append (bucketsByPrefix (txs.map (enrichTransaction uc)))) := by
  induction txs generalizing c with
  | nil => simp [categorizeStatementTransactions, bucketsByPrefix, CategorizedTransactions.append]
  | cons tx rest ih =>
    simp only [categorizeStatementTransactions, List.map_cons]
    rw [ih, ← enrichTransaction_NormalizedDescription uc tx, appendToBucket_eq,
      CategorizedTransactions.append_assoc, ← bucketsByPrefix_append]
    rfl

theorem allTransactions_map_enrich (uc : Char → Char) (stmts : List Statement) :
    allTransactions (stmts.map (enrichStatement uc)) =
      (allTransactions stmts).map (enrichTransaction uc) := by
  induction stmts with
  | nil => rfl
  | cons s rest ih =>
    simp only [allTransactions, List.map_cons, List.flatten_cons, List.map_append] at ih ⊢
    rw [ih]
    rfl

theorem categorizeStatements_eq (uc : Char → Char) (stmts : List Statement)
    (c : CategorizedTransactions) :
    categorizeStatements uc stmts c =
      (stmts.map (enrichStatement uc),
        c.append (bucketsByPrefix ((allTransactions stmts).map (enrichTransaction uc)))) := by
  induction stmts generalizing c with
  | nil =>
    simp [categorizeStatements, allTransactions, bucketsByPrefix, CategorizedTransactions.append]
  | cons s rest ih =>
    simp only [categorizeStatements, List.map_cons, categorizeStatementTransactions_eq]
    rw [ih, CategorizedTransactions.append_assoc, ← bucketsByPrefix_append]
    simp [allTransactions, enrichStatement]

theorem CategorizeTransactions_eq (uc : Char → Char) (stmts : List Statement) :
    CategorizeTransactions uc stmts =
      (stmts.map (enrichStatement uc),
        bucketsByPrefix ((allTransactions stmts).map (enrichTransaction uc))) := by
  unfold CategorizeTransactions
  rw [categorizeStatements_eq]
  simp [CategorizedTransactions.append]

/-- The digits dropped are the longest run of at most `n` digits. -/
theorem dropDigits_decompose_max (n : Nat) (s : List Char) :
    ∃ ds, s = ds ++ dropDigits n s ∧ ds.length ≤ n ∧ (∀ c ∈ ds, isDigit c = true) ∧
      (ds.length = n ∨ ∀ c ∈ (dropDigits n s).head?, isDigit c = false) := by
  induction n generalizing s with
  | zero => exact ⟨[], rfl, le_refl _, fun _ h => absurd h (List.not_mem_nil _), Or.inl rfl⟩
  | succ n ih =>
    cases s with
    | nil =>
      refine ⟨[], rfl, Nat.zero_le _, fun _ h => absurd h (List.not_mem_nil _), Or.inr ?_⟩
      intro c hc
      simp [dropDigits] at hc
    | cons c cs =>
      by_cases hc : isDigit c = true
      · obtain ⟨ds, h1, h2, h3, h4⟩ := ih cs
        have hdrop : dropDigits (n + 1) (c :: cs) = dropDigits n cs := by
          simp only [dropDigits, hc, if_true]
        refine ⟨c :: ds, ?_, ?_, ?_, ?_⟩
        · rw [hdrop, List.cons_append, ← h1]
        · simp only [List.length_cons]
          omega
        · intro d hd
          rcases List.mem_cons.mp hd with hd | hd
          · rw [hd]; exact hc
          · exact h3 d hd
        · rcases h4 with h4 | h4
          · left
            simp only [List.length_cons, h4]
          · right
            rw [hdrop]
            exact h4
      · have hdrop : dropDigits (n + 1) (c :: cs) = c :: cs := by
          simp only [dropDigits, hc, Bool.false_eq_true, if_false]
        refine ⟨[], by rw [hdrop]; rfl, Nat.zero_le _,
          fun _ h => absurd h (List.not_mem_nil _), Or.inr ?_⟩
        intro d hd
        rw [hdrop] at hd
        simp only [List.head?_cons, Option.mem_def, Option.some.injEq] at hd
        rw [← hd]
        simpa using hc

/-- A longest run of at most `n` digits is what `dropDigits n` drops. -/
theorem dropDigits_append (n : Nat) (ds t : List Char) (hlen : ds.length ≤ n)
    (hdig : ∀ c ∈ ds, isDigit c = true)
    (hmax : ds.length = n ∨ ∀ c ∈ t.head?, isDigit c = false) :
    dropDigits n (ds ++ t) = t := by
  induction ds generalizing n with
  | nil =>
    cases n with
    | zero => rfl
    | succ k =>
      rcases hmax with hmax | hmax
      · simp at hmax
      · cases t with
        | nil => rfl
        | cons c cs =>
          have hc : isDigit c = false := hmax c (by simp)
          simp only [List.nil_append, dropDigits, hc, Bool.false_eq_true, if_false]
  | cons d ds ih =>
    cases n with
    | zero => simp at hlen
    | succ k =>
      have hd : isDigit d = true := hdig d (List.mem_cons_self d ds)
      simp only [List.cons_append, dropDigits, hd, if_true]
      apply ih k (by simpa using hlen) (fun c hc => hdig c (List.mem_cons_of_mem d hc))
      rcases hmax with hmax | hmax
      · left
        simpa using hmax
      · exact Or.inr hmax

/-- One removal of a marker: the marker is removed when the string starts
with it. -/
theorem trimStage_eq (x pre l y : List Char) (hx : x = l ++ y)
    (h1 : pre <+: x → l = pre) (h2 : ¬ (pre <+: x) → l = []) :
    (if HasPrefix x pre then TrimPrefix x pre else x) = y := by
  by_cases hp : HasPrefix x pre = true
  · have hl := h1 (List.isPrefixOf_iff_prefix.mp hp)
    rw [if_pos hp]
    unfold TrimPrefix
    rw [if_pos hp, hx, hl, List.drop_left]
  · have hl := h2 (fun h => hp (List.isPrefixOf_iff_prefix.mpr h))
    rw [if_neg hp, hx, hl, List.nil_append]

/-- What one removal of a marker takes away. -/
theorem trimStage_decompose (x pre : List Char) :
    ∃ l, x = l ++ (if HasPrefix x pre then TrimPrefix x pre else x) ∧
      (pre <+: x → l = pre) ∧ (¬ (pre <+: x) → l = []) := by
  by_cases hp : HasPrefix x pre = true
  · refine ⟨pre, ?_, fun _ => rfl,
      fun h => absurd (List.isPrefixOf_iff_prefix.mp hp) h⟩
    rw [if_pos hp]
    unfold TrimPrefix
    rw [if_pos hp]
    exact HasPrefix_eq_append x pre hp
  · refine ⟨[], ?_, fun h => absurd (List.isPrefixOf_iff_prefix.mpr h) hp, fun _ => rfl⟩
    rw [if_neg hp, List.nil_append]

/-! ## Lemmas on the table derivation -/

theorem Split_ne_nil (sep : Char) (s : List Char) : Split sep s ≠ [] := by
  induction s with
  | nil => simp [Split]
  | cons c cs ih =>
    unfold Split
    split_ifs
    · simp
    · split <;> simp

theorem Split_of_mem (sep : Char) (s : List Char) (h : sep ∈ s) :
    ∃ p q rest, Split sep s = p :: q :: rest := by
  induction s with
  | nil => simp at h
  | cons c cs ih =>
    unfold Split
    by_cases hc : c = sep
    · rw [if_pos hc]
      cases hs : Split sep cs with
      | nil => exact absurd hs (Split_ne_nil sep cs)
      | cons q rest => exact ⟨[], q, rest, rfl⟩
    · rw [if_neg hc]
      have hmem : sep ∈ cs := by
        rcases List.mem_cons.mp h with h1 | h1
        · exact absurd h1.symm hc
        · exact h1
      obtain ⟨p, q, rest, hs⟩ := ih hmem
      rw [hs]
      exact ⟨c :: p, q, rest, rfl⟩

theorem formatAmount_isSome {V : Type} (L : Lib V) (v : V) (h : '.' ∈ L.Sprintf2f v) :
    ∃ r, formatAmount L v = some r := by
  obtain ⟨p, q, rest, hs⟩ := Split_of_mem '.' (L.Sprintf2f v) h
  have h1 : (p :: q :: rest)[1]? = some q := by simp
  unfold formatAmount
  simp only [hs, h1]
  exact ⟨_, rfl⟩

theorem formatAmountString_isSome {V : Type} (L : Lib V) (s : List Char)
    (h : ∀ v, '.' ∈ L.Sprintf2f v) : ∃ r, formatAmountString L s = some r := by
  unfold formatAmountString
  simp only []
  split_ifs
  · exact ⟨_, rfl⟩
  · exact formatAmount_isSome L _ (h _)

theorem truncate_isSome (s : List Char) (maxLen : Int) (h : 3 ≤ maxLen) :
    ∃ r, truncate s maxLen = some r := by
  unfold truncate
  split_ifs
  · exact ⟨_, rfl⟩
  · omega
  · exact ⟨_, rfl⟩

theorem transactionRow_isSome {V : Type} (L : Lib V) (showCategoryColumn : Bool)
    (tx : Transaction) (h : ∀ v, '.' ∈ L.Sprintf2f v) :
    ∃ r, transactionRow L showCategoryColumn tx = some r := by
  unfold transactionRow
  simp only []
  obtain ⟨a, ha⟩ := formatAmountString_isSome L
    (if tx.NtdAmount = [] then "0.00".toList else tx.NtdAmount) h
  obtain ⟨b, hb⟩ := truncate_isSome (GetCleanDescription tx.NormalizedDescription)
    (if showCategoryColumn then 28 else 38) (by split_ifs <;> norm_num)
  obtain ⟨c, hc⟩ := formatAmountString_isSome L
    (if tx.Amount = [] then "0.00".toList else tx.Amount) h
  obtain ⟨d, hd⟩ := truncate_isSome tx.TxnLoc 8 (by norm_num)
  rw [ha, hb, hc, hd]
  simp only []
  split_ifs <;> exact ⟨_, rfl⟩

theorem transactionRows_spec {V : Type} (L : Lib V) (showCategoryColumn : Bool)
    (txs : List Transaction) (h : ∀ v, '.' ∈ L.Sprintf2f v) :
    ∃ rows, transactionRows L showCategoryColumn txs = some rows ∧
      List.Forall₂ (fun tx row => transactionRow L showCategoryColumn tx = some row)
        (txs.filter (fun tx => decide (tx.NormalizedDescription ≠ onlineBankingPayment))) rows := by
  induction txs with
  | nil => exact ⟨[], rfl, by simp⟩
  | cons tx rest ih =>
    obtain ⟨rows, hrows, hall⟩ := ih
    unfold transactionRows
    by_cases hskip : tx.NormalizedDescription = onlineBankingPayment
    · rw [if_pos hskip]
      refine ⟨rows, hrows, ?_⟩
      simpa [List.filter_cons, hskip] using hall
    · rw [if_neg hskip]
      obtain ⟨row, hrow⟩ := transactionRow_isSome L showCategoryColumn tx h
      rw [hrow, hrows]
      refine ⟨row :: rows, rfl, ?_⟩
      simp only [List.filter_cons, hskip, ne_eq, not_false_eq_true, decide_True, if_true]
      exact List.Forall₂.cons hrow hall

theorem foreignFeeRows_spec {V : Type} (L : Lib V) (categoryFilter : List Char)
    (showCategoryColumn : Bool) (stmt : Statement) (split : FeeSplit V)
    (h : ∀ v, '.' ∈ L.Sprintf2f v) :
    ∃ feeRows, foreignFeeRows L categoryFilter showCategoryColumn stmt split = some feeRows ∧
      feeRows.length ≤ 1 := by
  unfold foreignFeeRows
  obtain ⟨total, ht⟩ := formatAmount_isSome L split.foreignFeeTotal (h _)
  split_ifs
  · simp only [ht]
    exact ⟨_, rfl, by simp⟩
  · simp only [ht]
    exact ⟨_, rfl, by simp⟩
  · exact ⟨[], rfl, by simp⟩

theorem splitForeignFees_regularTxs {V : Type} [LinearOrder V] [Zero V] [Add V] (L : Lib V)
    (txs : List Transaction) :
    (splitForeignFees L txs).regularTxs =
      txs.filter (fun tx => !HasPrefix (ToCDB tx.Description) foreignFeePrefix) := by
  have key : ∀ (acc : FeeSplit V),
      (txs.foldl
        (fun acc tx =>
          let normalizedDesc := ToCDB tx.Description
          if HasPrefix normalizedDesc foreignFeePrefix then
            { acc with
              foreignFeeTxs := acc.foreignFeeTxs ++ [tx]
              foreignFeeTotal := acc.foreignFeeTotal + feeAmount L tx }
          else
            { acc with regularTxs := acc.regularTxs ++ [tx] }) acc).regularTxs =
        acc.regularTxs ++
          txs.filter (fun tx => !HasPrefix (ToCDB tx.Description) foreignFeePrefix) := by
    induction txs with
    | nil => intro acc; simp
    | cons tx rest ih =>
      intro acc
      rw [List.foldl_cons, ih]
      by_cases hf : HasPrefix (ToCDB tx.Description) foreignFeePrefix = true
      · simp [hf, List.filter_cons]
      · simp [hf, List.filter_cons]
  unfold splitForeignFees
  rw [key]
  rfl

theorem index?_lt {α : Type} (xs : List α) (i : Int) (x : α) (h : index? xs i = some x) :
    0 ≤ i ∧ i < xs.length := by
  unfold index? at h
  split_ifs at h with hneg
  have hlt := (List.getElem?_eq_some.mp h).1
  omega

theorem insertLess_perm {α : Type} (less : α → α → Bool) (x : α) (l : List α) :
    (insertLess less x l).Perm (x :: l) := by
  induction l with
  | nil => exact List.Perm.refl _
  | cons y ys ih =>
    unfold insertLess
    split_ifs
    · exact (List.Perm.cons y ih).trans (List.Perm.swap x y ys)
    · exact List.Perm.refl _

theorem insertionSort_perm {α : Type} (less : α → α → Bool) (xs : List α) :
    (insertionSort less xs).Perm xs := by
  have key : ∀ acc : List α,
      (xs.foldl (fun sorted x => insertLess less x sorted) acc).Perm (xs.reverse ++ acc) := by
    induction xs with
    | nil => intro acc; exact List.Perm.refl _
    | cons x rest ih =>
      intro acc
      rw [List.foldl_cons]
      refine (ih _).trans ?_
      rw [List.reverse_cons, List.append_assoc]
      exact List.Perm.append_left _ (insertLess_perm less x acc)
  unfold insertionSort
  refine (List.reverse_perm _).trans ((key []).trans ?_)
  rw [List.append_nil]
  exact List.reverse_perm xs

theorem rankOrder_perm {α : Type} (rank : Nat → Nat) (xs : List α) :
    (rankOrder rank xs).Perm xs := by
  unfold rankOrder
  have h := (insertionSort_perm (fun a b : Nat × α => decide (a.1 < b.1))
    (xs.enum.map (fun p => (rank p.1, p.2)))).map Prod.snd
  refine h.trans ?_
  rw [List.map_map]
  have hcomp : (Prod.snd ∘ fun p : Nat × α => (rank p.1, p.2)) = Prod.snd := rfl
  rw [hcomp, List.enum_map_snd]

/-- What `sort.Slice` returns is the insertion sort of a rearrangement of the
slice, which is the slice itself when it has at most 12 elements. -/
theorem sortSlice_eq {V : Type} (L : Lib V) (less : Transaction → Transaction → Bool)
    (xs : List Transaction) :
    ∃ ys, ys.Perm xs ∧ sortSlice L less xs = insertionSort less ys ∧
      (xs.length ≤ 12 → ys = xs) := by
  unfold sortSlice
  split_ifs with h
  · exact ⟨xs, List.Perm.refl _, rfl, fun _ => rfl⟩
  · exact ⟨_, rankOrder_perm _ xs, rfl, fun h1 => absurd h1 h⟩

theorem sortSlice_perm {V : Type} (L : Lib V) (less : Transaction → Transaction → Bool)
    (xs : List Transaction) : (sortSlice L less xs).Perm xs := by
  obtain ⟨ys, hperm, heq, _⟩ := sortSlice_eq L less xs
  rw [heq]
  exact (insertionSort_perm less ys).trans hperm

/-- C1, as stated, fails: "UBER BAR DECATHLON" contains the Food tag "BAR" and
the Shopping tag "DECATHLON" after upper-casing, and `DetectDetailedCategory`
returns Transport, because the Transport prefixes are tested before the Food
tags. -/
theorem DetectDetailedCategory_food_shopping_counterexample :
    (∀ unicodeUpper : Char → Char,
      (∃ t ∈ foodPrefixes, Contains (ToUpper unicodeUpper "UBER BAR DECATHLON".toList) t = true) ∧
      (∃ t ∈ shoppingPrefixes,
        Contains (ToUpper unicodeUpper "UBER BAR DECATHLON".toList) t = true) ∧
      DetectDetailedCategory unicodeUpper "UBER BAR DECATHLON".toList = CategoryTransport) ∧
    CategoryTransport ≠ CategoryFood := by
  refine ⟨fun unicodeUpper => ⟨⟨"BAR".toList, by decide, rfl⟩, ⟨"DECATHLON".toList, by decide, rfl⟩, rfl⟩,
    by decide⟩

/-- C1, amended: a description that after upper-casing starts with no
Transport prefix and contains at least one Food tag and at least one Shopping
tag is categorised as Food. -/
theorem DetectDetailedCategory_food_before_shopping (unicodeUpper : Char → Char)
    (d : List Char)
    (hT : ∀ t ∈ transportPrefixes, HasPrefix (ToUpper unicodeUpper d) t = false)
    (hF : ∃ t ∈ foodPrefixes, Contains (ToUpper unicodeUpper d) t = true)
    (_hS : ∃ t ∈ shoppingPrefixes, Contains (ToUpper unicodeUpper d) t = true) :
    DetectDetailedCategory unicodeUpper d = CategoryFood := by
  have h1 : transportPrefixes.any (fun p => HasPrefix (ToUpper unicodeUpper d) p) = false := by
    rw [List.any_eq_false]
    intro t ht
    simp [hT t ht]
  have h2 : foodPrefixes.any (fun p => Contains (ToUpper unicodeUpper d) p) = true := by
    rw [List.any_eq_true]
    exact hF
  unfold DetectDetailedCategory
  simp only [h1, h2, if_true, Bool.false_eq_true, if_false]

/-- C1, the instance of the claim: "BAR DECATHLON" starts with no Transport
prefix, contains "BAR" and "DECATHLON", and is categorised as Food. -/
theorem DetectDetailedCategory_bar_decathlon :
    (∀ t ∈ transportPrefixes, HasPrefix (ToUpper (fun c => c) "BAR DECATHLON".toList) t = false) ∧
    DetectDetailedCategory (fun c => c) "BAR DECATHLON".toList = CategoryFood :=
  ⟨by decide,
   DetectDetailedCategory_food_before_shopping (fun c => c) "BAR DECATHLON".toList (by decide)
     ⟨"BAR".toList, by decide, by decide⟩ ⟨"DECATHLON".toList, by decide, by decide⟩⟩

/-- C2, as stated, fails: on "APE連加*X" the Apple Pay prefix is stripped and
then the LINE Pay marker is stripped as well; the result is "X", not "連加*X". -/
theorem GetCleanDescription_one_prefix_counterexample :
    GetCleanDescription "APE連加*X".toList = "X".toList ∧
    GetCleanDescription "APE連加*X".toList ≠ "連加*X".toList ∧
    GetCleanDescription "連加*街口電支-X".toList = "X".toList := by
  decide

/-- C2, amended: `GetCleanDescription` strips the provider prefixes one after
the other, each at most once and each whenever it is there: the description is
an Apple Pay prefix ("APE" and the longest run of at most four digits after
it) when it starts with "APE", then the LINE Pay marker when what remains
starts with it, then the Jkopay marker when what remains starts with it, then
the result; and the result is the only string of which this holds.  So
"APE連加*街口電支-" followed by any `rest` is cleaned to `rest`, and
"APE1234連加*X" to "X". -/
theorem GetCleanDescription_strips_in_sequence (s rest : List Char) :
    (∃ a l j, StripsInSequence s a l j (GetCleanDescription s)) ∧
    (∀ a l j r, StripsInSequence s a l j r → r = GetCleanDescription s) ∧
    GetCleanDescription ("APE".toList ++ linePayPrefix ++ jkopayPrefix ++ rest) = rest ∧
    GetCleanDescription ("APE".toList ++ jkopayPrefix ++ rest) = rest ∧
    GetCleanDescription (linePayPrefix ++ jkopayPrefix ++ rest) = rest ∧
    GetCleanDescription ("APE".toList ++ linePayPrefix ++ rest) =
      (if HasPrefix rest jkopayPrefix then rest.drop jkopayPrefix.length else rest) ∧
    GetCleanDescription "APE1234連加*X".toList = "X".toList ∧
    GetCleanDescription "APE12345".toList = "5".toList ∧
    GetCleanDescription "連加*APE1X".toList = "APE1X".toList := by
  refine ⟨?_, ?_, ?_, ?_, ?_, ?_, by decide, by decide, by decide⟩
  · -- the removals, one after the other
    have hA : ∃ a, s = a ++ stripApplePayPrefix s ∧
        ("APE".toList <+: s →
          ∃ ds, a = "APE".toList ++ ds ∧ ds.length ≤ 4 ∧ (∀ c ∈ ds, isDigit c = true) ∧
            (ds.length = 4 ∨ ∀ c ∈ (stripApplePayPrefix s).head?, isDigit c = false)) ∧
        (¬ ("APE".toList <+: s) → a = []) := by
      unfold stripApplePayPrefix
      by_cases h : HasPrefix s "APE".toList = true
      · obtain ⟨ds, h1, h2, h3, h4⟩ := dropDigits_decompose_max 4 (s.drop 3)
        rw [if_pos h]
        refine ⟨"APE".toList ++ ds, ?_, fun _ => ⟨ds, rfl, h2, h3, h4⟩,
          fun hn => absurd (List.isPrefixOf_iff_prefix.mp h) hn⟩
        have hs := HasPrefix_eq_append s "APE".toList h
        rw [List.append_assoc, ← h1]
        exact hs
      · rw [if_neg h]
        exact ⟨[], rfl, fun hp => absurd (List.isPrefixOf_iff_prefix.mpr hp) h, fun _ => rfl⟩
    obtain ⟨a, ha, ha1, ha2⟩ := hA
    obtain ⟨l, hl, hl1, hl2⟩ := trimStage_decompose (stripApplePayPrefix s) linePayPrefix
    obtain ⟨j, hj, hj1, hj2⟩ := trimStage_decompose
      (if HasPrefix (stripApplePayPrefix s) linePayPrefix then
        TrimPrefix (stripApplePayPrefix s) linePayPrefix else stripApplePayPrefix s) jkopayPrefix
    have hres : GetCleanDescription s =
        (if HasPrefix (if HasPrefix (stripApplePayPrefix s) linePayPrefix then
            TrimPrefix (stripApplePayPrefix s) linePayPrefix else stripApplePayPrefix s)
            jkopayPrefix then
          TrimPrefix (if HasPrefix (stripApplePayPrefix s) linePayPrefix then
            TrimPrefix (stripApplePayPrefix s) linePayPrefix else stripApplePayPrefix s)
            jkopayPrefix
        else (if HasPrefix (stripApplePayPrefix s) linePayPrefix then
            TrimPrefix (stripApplePayPrefix s) linePayPrefix else stripApplePayPrefix s)) := rfl
    refine ⟨a, l, j, ?_, ?_, ha2, ?_, ?_, ?_, ?_⟩
    · rw [hres, ← hj, ← hl]
      exact ha
    · intro hp
      obtain ⟨ds, h1, h2, h3, h4⟩ := ha1 hp
      refine ⟨ds, h1, h2, h3, ?_⟩
      rw [hres, ← hj, ← hl]
      exact h4
    · rw [hres, ← hj, ← hl]
      exact hl1
    · rw [hres, ← hj, ← hl]
      exact hl2
    · rw [hres, ← hj]
      exact hj1
    · rw [hres, ← hj]
      exact hj2
  · -- the result is the only one
    intro a l j r h
    obtain ⟨hs, hA1, hA2, hL1, hL2, hJ1, hJ2⟩ := h
    have hstrip : stripApplePayPrefix s = l ++ (j ++ r) := by
      unfold stripApplePayPrefix
      by_cases hp : HasPrefix s "APE".toList = true
      · obtain ⟨ds, ha, hlen, hdig, hmax⟩ := hA1 (List.isPrefixOf_iff_prefix.mp hp)
        rw [if_pos hp]
        have hdrop : s.drop 3 = ds ++ (l ++ (j ++ r)) := by
          rw [hs, ha, List.append_assoc]
          exact List.drop_left "APE".toList _
        rw [hdrop]
        exact dropDigits_append 4 ds _ hlen hdig hmax
      · rw [if_neg hp, hs, hA2 (fun h => hp (List.isPrefixOf_iff_prefix.mpr h)),
          List.nil_append]
    have hline := trimStage_eq (l ++ (j ++ r)) linePayPrefix l (j ++ r) rfl hL1 hL2
    have hjko := trimStage_eq (j ++ r) jkopayPrefix j r rfl hJ1 hJ2
    unfold GetCleanDescription
    simp only []
    rw [hstrip, hline, hjko]
  · simp [GetCleanDescription, stripApplePayPrefix, HasPrefix, TrimPrefix, linePayPrefix,
      jkopayPrefix, dropDigits, isDigit]
  · simp [GetCleanDescription, stripApplePayPrefix, HasPrefix, TrimPrefix, linePayPrefix,
      jkopayPrefix, dropDigits, isDigit]
  · simp [GetCleanDescription, stripApplePayPrefix, HasPrefix, TrimPrefix, linePayPrefix,
      jkopayPrefix, dropDigits, isDigit]
  · simp only [GetCleanDescription, stripApplePayPrefix, HasPrefix, TrimPrefix, linePayPrefix,
      jkopayPrefix, dropDigits, isDigit]
    simp
    intro h
    simp [h]

/-- C3, as stated, fails: `GetCleanDescription "APE1234 SOMESTORE"` is not
"SOMESTORE"; the space after the digits is kept. -/
theorem GetCleanDescription_ape1234_counterexample :
    GetCleanDescription "APE1234 SOMESTORE".toList ≠ "SOMESTORE".toList := by
  decide

/-- C3, amended: `GetCleanDescription "APE1234 SOMESTORE"` returns
" SOMESTORE", with the leading space; whatever follows "APE1234 ", only
"APE1234" is removed unless a provider marker follows the space, which none
does. -/
theorem GetCleanDescription_ape1234 (rest : List Char) :
    GetCleanDescription "APE1234 SOMESTORE".toList = " SOMESTORE".toList ∧
    GetCleanDescription ("APE1234 ".toList ++ rest) = ' ' :: rest := by
  constructor
  · decide
  · simp [GetCleanDescription, stripApplePayPrefix, HasPrefix, TrimPrefix, linePayPrefix,
      jkopayPrefix, dropDigits, isDigit]


theorem allBuckets_appendToBucket (c : CategorizedTransactions) (nd : List Char)
    (t : Transaction) : (allBuckets (appendToBucket c nd t)).Perm (t :: allBuckets c) := by
  rw [List.perm_iff_count]
  intro a
  unfold appendToBucket allBuckets
  split_ifs <;> simp only [List.count_append, List.count_cons, List.count_nil] <;> omega

theorem allBuckets_bucketsByPrefix (l : List Transaction) :
    (allBuckets (bucketsByPrefix l)).Perm l := by
  induction l using List.reverseRecOn with
  | nil => simp [allBuckets, bucketsByPrefix]
  | append_singleton l t ih =>
    rw [bucketsByPrefix_append, ← appendToBucket_eq]
    refine (allBuckets_appendToBucket _ _ _).trans ?_
    refine (List.Perm.cons t ih).trans ?_
    exact (List.perm_append_singleton t l).symm

/-- C8: `CategorizeTransactions` places each transaction in exactly one of the
six buckets: the six buckets together are a rearrangement of the enriched
transactions (every occurrence is in the buckets as often as in the
statements), and the bucket lengths sum to the total number of transactions. -/
theorem CategorizeTransactions_one_bucket (unicodeUpper : Char → Char)
    (statements : List Statement) :
    (allBuckets (CategorizeTransactions unicodeUpper statements).2).Perm
        (allTransactions (CategorizeTransactions unicodeUpper statements).1) ∧
    (CategorizeTransactions unicodeUpper statements).2.ApplePay.length +
      (CategorizeTransactions unicodeUpper statements).2.PayPal.length +
      (CategorizeTransactions unicodeUpper statements).2.LinePay.length +
      (CategorizeTransactions unicodeUpper statements).2.Jkopay.length +
      (CategorizeTransactions unicodeUpper statements).2.ForeignFees.length +
      (CategorizeTransactions unicodeUpper statements).2.Other.length =
        (statements.map (fun s => s.Transactions.length)).sum := by
  have hperm : (allBuckets (CategorizeTransactions unicodeUpper statements).2).Perm
      (allTransactions (CategorizeTransactions unicodeUpper statements).1) := by
    rw [CategorizeTransactions_eq, allTransactions_map_enrich]
    exact allBuckets_bucketsByPrefix _
  refine ⟨hperm, ?_⟩
  have hlen := hperm.length_eq
  rw [CategorizeTransactions_eq] at hlen ⊢
  simp only [allBuckets, List.length_append, allTransactions_map_enrich, List.length_map] at hlen
  rw [hlen]
  simp [allTransactions, List.length_flatten]
  rfl

/-- C9: each bucket returned by `CategorizeTransactions` is the list of the
enriched transactions, in statement order and then transaction order, filtered
by the bucket test on the normalized description: ApplePay starts with "APE",
PayPal starts with "PAYPAL*" or "PP*", LinePay starts with "連加*", Jkopay
starts with "街口電支-", ForeignFees starts with "國外交易手續費", Other none of
these.  The enriched transactions are the input transactions, each enriched, in
the same order, and the normalized description of each is `ToCDB` of its
description. -/
theorem CategorizeTransactions_buckets (unicodeUpper : Char → Char)
    (statements : List Statement) :
    (CategorizeTransactions unicodeUpper statements).2.ApplePay =
      (allTransactions (CategorizeTransactions unicodeUpper statements).1).filter
        (fun t => HasPrefix t.NormalizedDescription "APE".toList) ∧
    (CategorizeTransactions unicodeUpper statements).2.PayPal =
      (allTransactions (CategorizeTransactions unicodeUpper statements).1).filter
        (fun t => HasPrefix t.NormalizedDescription "PAYPAL*".toList ||
          HasPrefix t.NormalizedDescription "PP*".toList) ∧
    (CategorizeTransactions unicodeUpper statements).2.LinePay =
      (allTransactions (CategorizeTransactions unicodeUpper statements).1).filter
        (fun t => HasPrefix t.NormalizedDescription "連加*".toList) ∧
    (CategorizeTransactions unicodeUpper statements).2.Jkopay =
      (allTransactions (CategorizeTransactions unicodeUpper statements).1).filter
        (fun t => HasPrefix t.NormalizedDescription "街口電支-".toList) ∧
    (CategorizeTransactions unicodeUpper statements).2.ForeignFees =
      (allTransactions (CategorizeTransactions unicodeUpper statements).1).filter
        (fun t => HasPrefix t.NormalizedDescription "國外交易手續費".toList) ∧
    (CategorizeTransactions unicodeUpper statements).2.Other =
      (allTransactions (CategorizeTransactions unicodeUpper statements).1).filter
        (fun t => !(HasPrefix t.NormalizedDescription "APE".toList ||
          HasPrefix t.NormalizedDescription "PAYPAL*".toList ||
          HasPrefix t.NormalizedDescription "PP*".toList ||
          HasPrefix t.NormalizedDescription "連加*".toList ||
          HasPrefix t.NormalizedDescription "街口電支-".toList ||
          HasPrefix t.NormalizedDescription "國外交易手續費".toList)) ∧
    allTransactions (CategorizeTransactions unicodeUpper statements).1 =
      (allTransactions statements).map (enrichTransaction unicodeUpper) ∧
    ∀ tx, (enrichTransaction unicodeUpper tx).NormalizedDescription = ToCDB tx.Description := by
  rw [CategorizeTransactions_eq, allTransactions_map_enrich]
  exact ⟨rfl, rfl, rfl, rfl, rfl, rfl, rfl, enrichTransaction_NormalizedDescription unicodeUpper⟩

theorem CategorizeTransactions_getElem? (uc : Char → Char) (statements : List Statement)
    (i j : Nat) (stmt : Statement) (tx : Transaction) (hi : statements[i]? = some stmt)
    (hj : stmt.Transactions[j]? = some tx) :
    (CategorizeTransactions uc statements).1[i]? = some (enrichStatement uc stmt) ∧
    (enrichStatement uc stmt).Transactions[j]? = some (enrichTransaction uc tx) := by
  rw [CategorizeTransactions_eq]
  constructor
  · simp [List.getElem?_map, hi]
  · simp [enrichStatement, List.getElem?_map, hj]

theorem enrichTransaction_last4_match (uc : Char → Char) (tx : Transaction)
    (ds rest : List Char) (h : ToCDB tx.Description = "APE".toList ++ ds ++ rest)
    (hlen : ds.length = 4) (hdig : ds.all isDigit = true) :
    (enrichTransaction uc tx).ApplePayCardLast4 = ds := by
  have hp : HasPrefix (ToCDB tx.Description) "APE".toList = true := by
    rw [h, List.append_assoc]
    exact HasPrefix_append _ _
  have hd : ((ToCDB tx.Description).drop 3).take 4 = ds := by
    rw [h, List.append_assoc]
    have : ("APE".toList ++ (ds ++ rest)).drop 3 = ds ++ rest := rfl
    rw [this, ← hlen, List.take_left]
  have hf : applePayFindStringSubmatch (ToCDB tx.Description) = ["APE".toList ++ ds, ds] := by
    unfold applePayFindStringSubmatch
    simp only [hd]
    rw [if_pos ⟨hp, hlen, hdig⟩]
  unfold enrichTransaction
  simp only [hf]
  rw [if_pos hp]
  rfl

theorem enrichTransaction_last4_nomatch (uc : Char → Char) (tx : Transaction)
    (h : ¬ ∃ ds rest, ToCDB tx.Description = "APE".toList ++ ds ++ rest ∧ ds.length = 4 ∧
      ds.all isDigit = true) :
    (enrichTransaction uc tx).ApplePayCardLast4 = tx.ApplePayCardLast4 := by
  have hf : HasPrefix (ToCDB tx.Description) "APE".toList = true →
      applePayFindStringSubmatch (ToCDB tx.Description) = [] := by
    intro hp
    unfold applePayFindStringSubmatch
    simp only []
    rw [if_neg]
    rintro ⟨_, hlen, hdig⟩
    apply h
    refine ⟨((ToCDB tx.Description).drop 3).take 4, ((ToCDB tx.Description).drop 3).drop 4, ?_,
      hlen, hdig⟩
    rw [List.append_assoc, List.take_append_drop]
    exact HasPrefix_eq_append _ _ hp
  unfold enrichTransaction
  simp only []
  by_cases hp : HasPrefix (ToCDB tx.Description) "APE".toList = true
  · rw [if_pos hp, hf hp]
    rfl
  · rw [if_neg hp]

/-- C10: for a transaction whose derived fields are empty on input, after
`CategorizeTransactions` the transaction at the same place has
`ApplePayCardLast4` equal to the four runes that follow "APE" when its
normalized description is "APE", four decimal digits, and a rest, and empty
when the normalized description is not of that form. -/
theorem CategorizeTransactions_ApplePayCardLast4 (unicodeUpper : Char → Char)
    (statements : List Statement) (i j : Nat) (stmt : Statement) (tx : Transaction)
    (hi : statements[i]? = some stmt) (hj : stmt.Transactions[j]? = some tx)
    (hempty : tx.NormalizedDescription = [] ∧ tx.ApplePayCardLast4 = [] ∧ tx.Category = []) :
    ∃ stmt1 tx1,
      (CategorizeTransactions unicodeUpper statements).1[i]? = some stmt1 ∧
      stmt1.Transactions[j]? = some tx1 ∧
      tx1.NormalizedDescription = ToCDB tx.Description ∧
      (∀ ds rest, tx1.NormalizedDescription = "APE".toList ++ ds ++ rest → ds.length = 4 →
        ds.all isDigit = true → tx1.ApplePayCardLast4 = ds) ∧
      ((¬ ∃ ds rest, tx1.NormalizedDescription = "APE".toList ++ ds ++ rest ∧ ds.length = 4 ∧
        ds.all isDigit = true) → tx1.ApplePayCardLast4 = []) := by
  obtain ⟨h1, h2⟩ := CategorizeTransactions_getElem? unicodeUpper statements i j stmt tx hi hj
  refine ⟨_, _, h1, h2, enrichTransaction_NormalizedDescription unicodeUpper tx, ?_, ?_⟩
  · intro ds rest h hlen hdig
    rw [enrichTransaction_NormalizedDescription] at h
    exact enrichTransaction_last4_match unicodeUpper tx ds rest h hlen hdig
  · intro h
    rw [enrichTransaction_NormalizedDescription] at h
    rw [enrichTransaction_last4_nomatch unicodeUpper tx h]
    exact hempty.2.1

/-- C10, at the inputs of the claim: "APE5678STORE" gives "5678" and "APESTORE"
gives the empty string. -/
theorem CategorizeTransactions_ApplePayCardLast4_witness :
    (∃ stmt1 tx1,
      (CategorizeTransactions (fun c => c) applePayStatements).1[0]? = some stmt1 ∧
      stmt1.Transactions[0]? = some tx1 ∧
      tx1.NormalizedDescription = "APE5678STORE".toList ∧
      tx1.ApplePayCardLast4 = "5678".toList) ∧
    (CategorizeTransactions (fun c => c) applePayStatements).1.map
        (fun s => s.Transactions.map (fun t => t.ApplePayCardLast4)) =
      [["5678".toList, []]] := by
  refine ⟨?_, by decide⟩
  obtain ⟨stmt1, tx1, h1, h2, h3, h4, _⟩ :=
    CategorizeTransactions_ApplePayCardLast4 (fun c => c) applePayStatements 0 0
      { Transactions := [{ Description := "APE5678STORE".toList },
                         { Description := "APESTORE".toList }] }
      { Description := "APE5678STORE".toList } rfl rfl ⟨rfl, rfl, rfl⟩
  have h3a : tx1.NormalizedDescription = "APE5678STORE".toList := by rw [h3]; decide
  refine ⟨stmt1, tx1, h1, h2, h3a, ?_⟩
  exact h4 "5678".toList "STORE".toList (by rw [h3a]; rfl) rfl (by decide)

/-- C5, as stated, fails: two input transactions with the same description
"STORE", the first with `ApplePayCardLast4` "9999" on input, have different
`ApplePayCardLast4` after `CategorizeTransactions`: the field is written only
when the description carries four digits after "APE". -/
theorem CategorizeTransactions_derived_counterexample :
    sameDescriptionStatements.map (fun s => s.Transactions.map (fun t => t.Description)) =
      [["STORE".toList, "STORE".toList]] ∧
    (CategorizeTransactions (fun c => c) sameDescriptionStatements).1.map
        (fun s => s.Transactions.map (fun t => t.ApplePayCardLast4)) =
      [["9999".toList, []]] := by
  decide

/-- C5, amended: for two input transactions with equal `Description`, whatever
their other fields, `NormalizedDescription` and `Category` are equal after
`CategorizeTransactions`; `ApplePayCardLast4` is equal after it when it was
equal before (in particular when it is empty on input in both), and also
whenever the normalized description is "APE" followed by four digits. -/
theorem CategorizeTransactions_derived_from_description (unicodeUpper : Char → Char)
    (statements1 statements2 : List Statement) (i1 j1 i2 j2 : Nat) (stmt1 stmt2 : Statement)
    (tx1 tx2 : Transaction)
    (hi1 : statements1[i1]? = some stmt1) (hj1 : stmt1.Transactions[j1]? = some tx1)
    (hi2 : statements2[i2]? = some stmt2) (hj2 : stmt2.Transactions[j2]? = some tx2)
    (hdesc : tx1.Description = tx2.Description) :
    ∃ s1 t1 s2 t2,
      (CategorizeTransactions unicodeUpper statements1).1[i1]? = some s1 ∧
      s1.Transactions[j1]? = some t1 ∧
      (CategorizeTransactions unicodeUpper statements2).1[i2]? = some s2 ∧
      s2.Transactions[j2]? = some t2 ∧
      t1.NormalizedDescription = t2.NormalizedDescription ∧
      t1.Category = t2.Category ∧
      (tx1.ApplePayCardLast4 = tx2.ApplePayCardLast4 →
        t1.ApplePayCardLast4 = t2.ApplePayCardLast4) ∧
      ((∃ ds rest, t1.NormalizedDescription = "APE".toList ++ ds ++ rest ∧ ds.length = 4 ∧
          ds.all isDigit = true) →
        t1.ApplePayCardLast4 = t2.ApplePayCardLast4) := by
  obtain ⟨h1, h2⟩ := CategorizeTransactions_getElem? unicodeUpper statements1 i1 j1 stmt1 tx1 hi1 hj1
  obtain ⟨h3, h4⟩ := CategorizeTransactions_getElem? unicodeUpper statements2 i2 j2 stmt2 tx2 hi2 hj2
  refine ⟨_, _, _, _, h1, h2, h3, h4, ?_, ?_, ?_, ?_⟩
  · rw [enrichTransaction_NormalizedDescription, enrichTransaction_NormalizedDescription, hdesc]
  · rw [enrichTransaction_Category, enrichTransaction_Category, hdesc]
  · intro hlast
    by_cases hm : ∃ ds rest, ToCDB tx1.Description = "APE".toList ++ ds ++ rest ∧ ds.length = 4 ∧
        ds.all isDigit = true
    · obtain ⟨ds, rest, h, hlen, hdig⟩ := hm
      rw [enrichTransaction_last4_match unicodeUpper tx1 ds rest h hlen hdig,
        enrichTransaction_last4_match unicodeUpper tx2 ds rest (hdesc ▸ h) hlen hdig]
    · rw [enrichTransaction_last4_nomatch unicodeUpper tx1 hm,
        enrichTransaction_last4_nomatch unicodeUpper tx2 (hdesc ▸ hm), hlast]
  · rintro ⟨ds, rest, h, hlen, hdig⟩
    rw [enrichTransaction_NormalizedDescription] at h
    rw [enrichTransaction_last4_match unicodeUpper tx1 ds rest h hlen hdig,
      enrichTransaction_last4_match unicodeUpper tx2 ds rest (hdesc ▸ h) hlen hdig]

/-- C5, amended, at an input: the two transactions "STORE" of
`sameDescriptionStatements` get the same normalized description and category. -/
theorem CategorizeTransactions_derived_from_description_witness :
    ∃ s1 t1 s2 t2,
      (CategorizeTransactions (fun c => c) sameDescriptionStatements).1[0]? = some s1 ∧
      s1.Transactions[0]? = some t1 ∧
      (CategorizeTransactions (fun c => c) sameDescriptionStatements).1[0]? = some s2 ∧
      s2.Transactions[1]? = some t2 ∧
      t1.NormalizedDescription = t2.NormalizedDescription ∧
      t1.Category = t2.Category := by
  obtain ⟨s1, t1, s2, t2, h1, h2, h3, h4, h5, h6, _⟩ :=
    CategorizeTransactions_derived_from_description (fun c => c) sameDescriptionStatements
      sameDescriptionStatements 0 0 0 1
      { Transactions := [{ Description := "STORE".toList, ApplePayCardLast4 := "9999".toList },
                         { Description := "STORE".toList }] }
      { Transactions := [{ Description := "STORE".toList, ApplePayCardLast4 := "9999".toList },
                         { Description := "STORE".toList }] }
      { Description := "STORE".toList, ApplePayCardLast4 := "9999".toList }
      { Description := "STORE".toList } rfl rfl rfl rfl rfl
  exact ⟨s1, t1, s2, t2, h1, h2, h3, h4, h5, h6⟩

/-- C7: width normalization is idempotent, `ToCDB (ToCDB s) = ToCDB s` for every string. -/
theorem ToCDB_idempotent (s : List Char) : ToCDB (ToCDB s) = ToCDB s := by
  unfold ToCDB
  rw [List.map_map]
  apply List.map_congr_left
  intro r _
  exact ToCDBRune_idem r


/-- The index guard of `updateTransactionsTable`: with `selectedStmtIdx` at or
above the number of statements the model is returned unchanged, so the rows
displayed before are retained. -/
theorem updateTransactionsTable_guard {V : Type} [LinearOrder V] [Zero V] [Add V]
    (L : Lib V) (m : model) (h : m.selectedStmtIdx ≥ m.statements.length) :
    updateTransactionsTable L m = some m := by
  unfold updateTransactionsTable
  rw [if_pos h]

/-- C6, at the failing input: started on an empty list of statements, after
"tab" the statements panel is focused with no row, its cursor and the selected
index at 0; a "down" key makes the table widget clamp its cursor to -1, the
cursor has changed, `selectedStmtIdx` becomes -1, and `updateTransactionsTable`
panics, as it does for every model with a negative index: the guard tests
`selectedStmtIdx >= len(statements)` only, and indexing the statements fails. -/
theorem updateTransactionsTable_negative_index_panics :
    (reach hundredthsLib [] {} [key "tab"]).map
        (fun m => (m.currentView, m.focusedTable, m.statements.length,
          m.statementsTable.rows.length, m.statementsTable.cursor, m.selectedStmtIdx)) =
      some (statementsView, 0, 0, 0, 0, 0) ∧
    (reach hundredthsLib [] {} [key "tab"]).map
        (fun m => (m.statementsTable.Update hundredthsLib (key "down")).cursor) = some (-1) ∧
    reach hundredthsLib [] {} [key "tab", key "down"] = none ∧
    (∀ (L : Lib Int) (m : model), m.selectedStmtIdx < 0 →
      updateTransactionsTable L m = none) ∧
    (∀ (L : Lib Int) (m : model), m.selectedStmtIdx ≥ m.statements.length →
      updateTransactionsTable L m = some m) := by
  refine ⟨by decide, by decide, by decide, ?_, ?_⟩
  · intro L m h
    unfold updateTransactionsTable
    rw [if_neg (by omega)]
    unfold index?
    rw [if_pos h]
  · intro L m h
    exact updateTransactionsTable_guard L m h

/-! ## Enrichment: idempotence, categories, normalization -/

theorem enrichTransaction_eq (uc : Char → Char) (tx : Transaction) :
    enrichTransaction uc tx =
      { tx with
        NormalizedDescription := ToCDB tx.Description
        ApplePayCardLast4 :=
          if HasPrefix (ToCDB tx.Description) "APE".toList = true ∧
              (applePayFindStringSubmatch (ToCDB tx.Description)).length > 1 then
            (applePayFindStringSubmatch (ToCDB tx.Description)).getD 1 []
          else tx.ApplePayCardLast4
        Category := DetectDetailedCategory uc (GetCleanDescription (ToCDB tx.Description)) } := by
  unfold enrichTransaction
  simp only []
  by_cases hp : HasPrefix (ToCDB tx.Description) "APE".toList = true
  · by_cases hf : (applePayFindStringSubmatch (ToCDB tx.Description)).length > 1
    · rw [if_pos hp, if_pos hf, if_pos ⟨hp, hf⟩]
    · rw [if_pos hp, if_neg hf, if_neg (fun h => hf h.2)]
  · rw [if_neg hp, if_neg (fun h => hp h.1)]

theorem enrichTransaction_idem (uc : Char → Char) (tx : Transaction) :
    enrichTransaction uc (enrichTransaction uc tx) = enrichTransaction uc tx := by
  rw [enrichTransaction_eq uc (enrichTransaction uc tx), enrichTransaction_eq uc tx]
  simp only []
  split_ifs <;> rfl

theorem enrichStatement_idem (uc : Char → Char) (stmt : Statement) :
    enrichStatement uc (enrichStatement uc stmt) = enrichStatement uc stmt := by
  unfold enrichStatement
  simp only [List.map_map]
  congr 1
  apply List.map_congr_left
  intro tx _
  exact enrichTransaction_idem uc tx

/-- C11: enrichment is idempotent: `CategorizeTransactions` run on the
statements it has enriched leaves every statement, hence every field of every
transaction, as it is, and returns the same six buckets as the first run. -/
theorem CategorizeTransactions_idempotent (unicodeUpper : Char → Char)
    (statements : List Statement) :
    (CategorizeTransactions unicodeUpper (CategorizeTransactions unicodeUpper statements).1).1 =
      (CategorizeTransactions unicodeUpper statements).1 ∧
    (CategorizeTransactions unicodeUpper (CategorizeTransactions unicodeUpper statements).1).2 =
      (CategorizeTransactions unicodeUpper statements).2 := by
  have h1 : (statements.map (enrichStatement unicodeUpper)).map (enrichStatement unicodeUpper) =
      statements.map (enrichStatement unicodeUpper) := by
    rw [List.map_map]
    apply List.map_congr_left
    intro s _
    exact enrichStatement_idem unicodeUpper s
  have h2 : ((allTransactions statements).map (enrichTransaction unicodeUpper)).map
      (enrichTransaction unicodeUpper) =
      (allTransactions statements).map (enrichTransaction unicodeUpper) := by
    rw [List.map_map]
    apply List.map_congr_left
    intro t _
    exact enrichTransaction_idem unicodeUpper t
  rw [CategorizeTransactions_eq unicodeUpper statements]
  simp only []
  rw [CategorizeTransactions_eq, allTransactions_map_enrich, h1, h2]
  exact ⟨rfl, rfl⟩

theorem DetectDetailedCategory_mem (uc : Char → Char) (d : List Char) :
    DetectDetailedCategory uc d ∈
      [CategoryTransport, CategoryFood, CategoryShopping, CategoryTravel, CategoryUtilities,
       CategoryOther] := by
  unfold DetectDetailedCategory
  simp only []
  split_ifs <;> simp

/-- C14: for every description, `DetectDetailedCategory` returns one of
Transport, Food, Shopping, Travel, Utilities, Other, which are six different
values; it returns none of All, ApplePay, PayPal, ForeignFee; and no
transaction carries one of those four as its `Category` after
`CategorizeTransactions`. -/
theorem DetectDetailedCategory_closed (unicodeUpper : Char → Char) (d : List Char)
    (statements : List Statement) :
    DetectDetailedCategory unicodeUpper d ∈
      [CategoryTransport, CategoryFood, CategoryShopping, CategoryTravel, CategoryUtilities,
       CategoryOther] ∧
    [CategoryTransport, CategoryFood, CategoryShopping, CategoryTravel, CategoryUtilities,
       CategoryOther].Nodup ∧
    DetectDetailedCategory unicodeUpper d ∉
      [CategoryAll, CategoryApplePay, CategoryPayPal, CategoryForeignFee] ∧
    (∀ t ∈ allTransactions (CategorizeTransactions unicodeUpper statements).1,
      t.Category ∈ [CategoryTransport, CategoryFood, CategoryShopping, CategoryTravel,
        CategoryUtilities, CategoryOther] ∧
      t.Category ∉ [CategoryAll, CategoryApplePay, CategoryPayPal, CategoryForeignFee]) ∧
    (∀ t ∈ allBuckets (CategorizeTransactions unicodeUpper statements).2,
      t.Category ∈ [CategoryTransport, CategoryFood, CategoryShopping, CategoryTravel,
        CategoryUtilities, CategoryOther] ∧
      t.Category ∉ [CategoryAll, CategoryApplePay, CategoryPayPal, CategoryForeignFee]) := by
  have hdisj : ∀ c ∈ [CategoryTransport, CategoryFood, CategoryShopping, CategoryTravel,
      CategoryUtilities, CategoryOther],
      c ∉ [CategoryAll, CategoryApplePay, CategoryPayPal, CategoryForeignFee] := by
    decide
  have hall : ∀ t ∈ allTransactions (CategorizeTransactions unicodeUpper statements).1,
      t.Category ∈ [CategoryTransport, CategoryFood, CategoryShopping, CategoryTravel,
        CategoryUtilities, CategoryOther] := by
    intro t ht
    rw [CategorizeTransactions_eq, allTransactions_map_enrich] at ht
    obtain ⟨tx, _, rfl⟩ := List.mem_map.mp ht
    rw [enrichTransaction_Category]
    exact DetectDetailedCategory_mem unicodeUpper _
  refine ⟨DetectDetailedCategory_mem unicodeUpper d, by decide,
    hdisj _ (DetectDetailedCategory_mem unicodeUpper d), ?_, ?_⟩
  · intro t ht
    exact ⟨hall t ht, hdisj _ (hall t ht)⟩
  · intro t ht
    have hperm := allBuckets_bucketsByPrefix
      ((allTransactions statements).map (enrichTransaction unicodeUpper))
    have ht2 : t ∈ allTransactions (CategorizeTransactions unicodeUpper statements).1 := by
      rw [CategorizeTransactions_eq] at ht ⊢
      rw [allTransactions_map_enrich]
      exact hperm.subset ht
    exact ⟨hall t ht2, hdisj _ (hall t ht2)⟩

theorem dropDigits_length (n : Nat) (s : List Char) : (dropDigits n s).length ≤ s.length := by
  obtain ⟨ds, h, _, _⟩ := dropDigits_decompose n s
  have := congrArg List.length h
  rw [List.length_append] at this
  omega

theorem stripApplePayPrefix_length (s : List Char) :
    (stripApplePayPrefix s).length ≤ s.length ∧
    (HasPrefix s "APE".toList = true → (stripApplePayPrefix s).length < s.length) ∧
    (HasPrefix s "APE".toList = false → stripApplePayPrefix s = s) := by
  unfold stripApplePayPrefix
  by_cases h : HasPrefix s "APE".toList = true
  · rw [if_pos h]
    have h1 := dropDigits_length 4 (s.drop 3)
    have h2 := congrArg List.length (HasPrefix_eq_append s "APE".toList h)
    rw [List.length_append] at h2
    have h3 : "APE".toList.length = 3 := rfl
    have h4 : (s.drop "APE".toList.length).length = (s.drop 3).length := by rw [h3]
    refine ⟨by omega, fun _ => by omega, fun hf => ?_⟩
    rw [h] at hf
    exact absurd hf (by decide)
  · rw [if_neg h]
    exact ⟨le_refl _, fun hp => absurd hp h, fun _ => rfl⟩

theorem trimStage_length (s pre : List Char) (hpre : 0 < pre.length) :
    (if HasPrefix s pre then TrimPrefix s pre else s).length ≤ s.length ∧
    (HasPrefix s pre = true → (if HasPrefix s pre then TrimPrefix s pre else s).length < s.length) ∧
    (HasPrefix s pre = false → (if HasPrefix s pre then TrimPrefix s pre else s) = s) := by
  by_cases h : HasPrefix s pre = true
  · have h2 := congrArg List.length (HasPrefix_eq_append s pre h)
    rw [List.length_append] at h2
    simp only [h, if_true, TrimPrefix]
    refine ⟨by omega, fun _ => by omega, fun hf => absurd hf (by decide)⟩
  · have hf : HasPrefix s pre = false := by simpa using h
    rw [hf]
    simp

/-- C15: `GetCleanDescription` returns its input unchanged if and only if the
input starts with none of "APE", "連加*", "街口電支-"; in particular "APE" followed
by no digit is stripped: "APE SOMESTORE" gives " SOMESTORE". -/
theorem GetCleanDescription_unchanged_iff (s : List Char) :
    (GetCleanDescription s = s ↔
      (HasPrefix s "APE".toList = false ∧ HasPrefix s "連加*".toList = false ∧
        HasPrefix s "街口電支-".toList = false)) ∧
    GetCleanDescription "APE SOMESTORE".toList = " SOMESTORE".toList := by
  refine ⟨?_, by decide⟩
  have hA := stripApplePayPrefix_length s
  have hL := trimStage_length (stripApplePayPrefix s) linePayPrefix (by decide)
  have hJ := trimStage_length
    (if HasPrefix (stripApplePayPrefix s) linePayPrefix then
      TrimPrefix (stripApplePayPrefix s) linePayPrefix else stripApplePayPrefix s)
    jkopayPrefix (by decide)
  have hdef : GetCleanDescription s =
      (if HasPrefix (if HasPrefix (stripApplePayPrefix s) linePayPrefix then
          TrimPrefix (stripApplePayPrefix s) linePayPrefix else stripApplePayPrefix s)
          jkopayPrefix then
        TrimPrefix (if HasPrefix (stripApplePayPrefix s) linePayPrefix then
          TrimPrefix (stripApplePayPrefix s) linePayPrefix else stripApplePayPrefix s)
          jkopayPrefix
      else (if HasPrefix (stripApplePayPrefix s) linePayPrefix then
          TrimPrefix (stripApplePayPrefix s) linePayPrefix else stripApplePayPrefix s)) := rfl
  have eL : "連加*".toList = linePayPrefix := rfl
  have eJ : "街口電支-".toList = jkopayPrefix := rfl
  rw [eL, eJ]
  constructor
  · intro hsame
    have hlen : (GetCleanDescription s).length = s.length := by rw [hsame]
    rw [hdef] at hlen
    have h1 : HasPrefix s "APE".toList = false := by
      by_contra hne
      have := hA.2.1 (by simpa using hne)
      omega
    have e1 : stripApplePayPrefix s = s := hA.2.2 h1
    rw [e1] at hL hJ hlen
    have h2 : HasPrefix s linePayPrefix = false := by
      by_contra hne
      have := hL.2.1 (by simpa using hne)
      omega
    have e2 := hL.2.2 h2
    rw [e2] at hJ hlen
    have h3 : HasPrefix s jkopayPrefix = false := by
      by_contra hne
      have := hJ.2.1 (by simpa using hne)
      omega
    exact ⟨h1, h2, h3⟩
  · rintro ⟨h1, h2, h3⟩
    have e1 : stripApplePayPrefix s = s := hA.2.2 h1
    rw [hdef, e1]
    simp only [h2, h3, Bool.false_eq_true, if_false]

theorem ToCDBRune_spec (c : Char) :
    (c.toNat = 12288 → (ToCDBRune c).toNat = 32) ∧
    (65281 ≤ c.toNat ∧ c.toNat ≤ 65374 →
      (ToCDBRune c).toNat = c.toNat - 65248 ∧ 33 ≤ (ToCDBRune c).toNat ∧
        (ToCDBRune c).toNat ≤ 126) ∧
    (c.toNat ≠ 12288 ∧ ¬ (65281 ≤ c.toNat ∧ c.toNat ≤ 65374) → ToCDBRune c = c) := by
  unfold ToCDBRune
  simp only []
  refine ⟨?_, ?_, ?_⟩
  · intro h
    rw [if_pos h, h, toNat_ofNat_small _ (by norm_num)]
  · rintro ⟨h1, h2⟩
    have hne : ¬ c.toNat = 12288 := by omega
    have hr : c.toNat > 65280 ∧ c.toNat < 65375 := by omega
    rw [if_neg hne, if_pos hr, toNat_ofNat_small _ (by omega)]
    omega
  · rintro ⟨h1, h2⟩
    have hr : ¬ (c.toNat > 65280 ∧ c.toNat < 65375) := by omega
    rw [if_neg h1, if_neg hr]

/-- C16: for every string `s`, `ToCDB s` has as many runes as `s`, and its rune
at each place is the image of the rune of `s` at that place: U+3000 goes to
U+0020, a code point `c` in U+FF01..U+FF5E goes to `c - 65248`, which lies in
U+0021..U+007E, and every other rune stays. -/
theorem ToCDB_runewise (s : List Char) :
    (ToCDB s).length = s.length ∧
    ∀ (i : Nat) (c : Char), s[i]? = some c →
      ∃ c1, (ToCDB s)[i]? = some c1 ∧
        (c.toNat = 12288 → c1.toNat = 32) ∧
        (65281 ≤ c.toNat ∧ c.toNat ≤ 65374 →
          c1.toNat = c.toNat - 65248 ∧ 33 ≤ c1.toNat ∧ c1.toNat ≤ 126) ∧
        (c.toNat ≠ 12288 ∧ ¬ (65281 ≤ c.toNat ∧ c.toNat ≤ 65374) → c1 = c) := by
  refine ⟨by simp [ToCDB], ?_⟩
  intro i c hc
  refine ⟨ToCDBRune c, ?_, ToCDBRune_spec c⟩
  simp [ToCDB, List.getElem?_map, hc]

theorem enrichTransaction_Description (uc : Char → Char) (tx : Transaction) :
    (enrichTransaction uc tx).Description = tx.Description := by
  rw [enrichTransaction_eq]

/-- C17: after `CategorizeTransactions` every transaction of the statements is
the input transaction at its place, enriched: its `Description` is kept, its
`NormalizedDescription` is `ToCDB` of it and its `Category` is
`DetectDetailedCategory (GetCleanDescription (ToCDB Description))`; every
transaction in a bucket is one of these and has the same two fields.  One
statement with "APE1234 STARBUCKS" and "PAYPAL*SHOP" gives an ApplePay bucket
of one transaction of category Food and a PayPal bucket of one transaction of
category Other. -/
theorem CategorizeTransactions_derived_fields (unicodeUpper : Char → Char)
    (statements : List Statement) :
    allTransactions (CategorizeTransactions unicodeUpper statements).1 =
      (allTransactions statements).map (enrichTransaction unicodeUpper) ∧
    (∀ tx, (enrichTransaction unicodeUpper tx).Description = tx.Description ∧
      (enrichTransaction unicodeUpper tx).NormalizedDescription = ToCDB tx.Description ∧
      (enrichTransaction unicodeUpper tx).Category =
        DetectDetailedCategory unicodeUpper (GetCleanDescription (ToCDB tx.Description))) ∧
    (∀ t ∈ allTransactions (CategorizeTransactions unicodeUpper statements).1,
      t.NormalizedDescription = ToCDB t.Description ∧
      t.Category =
        DetectDetailedCategory unicodeUpper (GetCleanDescription (ToCDB t.Description))) ∧
    (∀ t ∈ allBuckets (CategorizeTransactions unicodeUpper statements).2,
      t ∈ allTransactions (CategorizeTransactions unicodeUpper statements).1 ∧
      t.NormalizedDescription = ToCDB t.Description ∧
      t.Category =
        DetectDetailedCategory unicodeUpper (GetCleanDescription (ToCDB t.Description))) ∧
    (CategorizeTransactions unicodeUpper endToEndStatements).2.ApplePay.map
        (fun t => t.Category) = [CategoryFood] ∧
    (CategorizeTransactions unicodeUpper endToEndStatements).2.PayPal.map
        (fun t => t.Category) = [CategoryOther] := by
  have hall : ∀ t ∈ allTransactions (CategorizeTransactions unicodeUpper statements).1,
      t.NormalizedDescription = ToCDB t.Description ∧
      t.Category =
        DetectDetailedCategory unicodeUpper (GetCleanDescription (ToCDB t.Description)) := by
    intro t ht
    rw [CategorizeTransactions_eq, allTransactions_map_enrich] at ht
    obtain ⟨tx, _, rfl⟩ := List.mem_map.mp ht
    rw [enrichTransaction_NormalizedDescription, enrichTransaction_Category,
      enrichTransaction_Description]
    exact ⟨rfl, rfl⟩
  refine ⟨?_, ?_, hall, ?_, rfl, rfl⟩
  · rw [CategorizeTransactions_eq, allTransactions_map_enrich]
  · intro tx
    exact ⟨enrichTransaction_Description unicodeUpper tx,
      enrichTransaction_NormalizedDescription unicodeUpper tx,
      enrichTransaction_Category unicodeUpper tx⟩
  · intro t ht
    have hperm := allBuckets_bucketsByPrefix
      ((allTransactions statements).map (enrichTransaction unicodeUpper))
    have ht2 : t ∈ allTransactions (CategorizeTransactions unicodeUpper statements).1 := by
      rw [CategorizeTransactions_eq] at ht ⊢
      rw [allTransactions_map_enrich]
      exact hperm.subset ht
    exact ⟨ht2, hall t ht2⟩

/-! ## The rows of the transactions table -/

theorem splitForeignFees_fees {V : Type} [LinearOrder V] [Zero V] [Add V] (L : Lib V)
    (txs : List Transaction) :
    (splitForeignFees L txs).foreignFeeTxs =
        txs.filter (fun tx => HasPrefix (ToCDB tx.Description) foreignFeePrefix) ∧
    (splitForeignFees L txs).foreignFeeTotal =
        ((txs.filter (fun tx => HasPrefix (ToCDB tx.Description) foreignFeePrefix)).map
          (feeAmount L)).foldl (fun a b => a + b) 0 := by
  have key : ∀ (acc : FeeSplit V),
      (txs.foldl
        (fun acc tx =>
          let normalizedDesc := ToCDB tx.Description
          if HasPrefix normalizedDesc foreignFeePrefix then
            { acc with
              foreignFeeTxs := acc.foreignFeeTxs ++ [tx]
              foreignFeeTotal := acc.foreignFeeTotal + feeAmount L tx }
          else
            { acc with regularTxs := acc.regularTxs ++ [tx] }) acc).foreignFeeTxs =
        acc.foreignFeeTxs ++
          txs.filter (fun tx => HasPrefix (ToCDB tx.Description) foreignFeePrefix) ∧
      (txs.foldl
        (fun acc tx =>
          let normalizedDesc := ToCDB tx.Description
          if HasPrefix normalizedDesc foreignFeePrefix then
            { acc with
              foreignFeeTxs := acc.foreignFeeTxs ++ [tx]
              foreignFeeTotal := acc.foreignFeeTotal + feeAmount L tx }
          else
            { acc with regularTxs := acc.regularTxs ++ [tx] }) acc).foreignFeeTotal =
        ((txs.filter (fun tx => HasPrefix (ToCDB tx.Description) foreignFeePrefix)).map
          (feeAmount L)).foldl (fun a b => a + b) acc.foreignFeeTotal := by
    induction txs with
    | nil => intro acc; simp
    | cons tx rest ih =>
      intro acc
      rw [List.foldl_cons]
      by_cases hf : HasPrefix (ToCDB tx.Description) foreignFeePrefix = true
      · obtain ⟨h1, h2⟩ := ih { acc with
          foreignFeeTxs := acc.foreignFeeTxs ++ [tx]
          foreignFeeTotal := acc.foreignFeeTotal + feeAmount L tx }
        simp only [hf, if_true, List.filter_cons, List.map_cons, List.foldl_cons,
          List.append_assoc, List.singleton_append] at h1 h2 ⊢
        exact ⟨h1, h2⟩
      · obtain ⟨h1, h2⟩ := ih { acc with regularTxs := acc.regularTxs ++ [tx] }
        simp only [hf, if_false, List.filter_cons, Bool.false_eq_true] at h1 h2 ⊢
        exact ⟨h1, h2⟩
  unfold splitForeignFees
  obtain ⟨h1, h2⟩ := key { regularTxs := [], foreignFeeTxs := [], foreignFeeTotal := 0 }
  rw [h1, h2]
  simp

theorem sortTransactions_perm {V : Type} [LinearOrder V] (L : Lib V) (sortBy : Int)
    (xs : List Transaction) : (sortTransactions L sortBy xs).Perm xs := by
  unfold sortTransactions
  split_ifs
  · exact sortSlice_perm _ _ _
  · exact sortSlice_perm _ _ _
  · exact sortSlice_perm _ _ _
  · exact sortSlice_perm _ _ _
  · exact List.Perm.refl _

/-- What `updateTransactionsTable` returns for a selected statement when every
printed amount has a decimal point: the model with the transactions table
rebuilt, whose rows are the rows of the shown transactions followed by the
rows of `foreignFeeRows`. -/
theorem updateTransactionsTable_rows {V : Type} [LinearOrder V] [Zero V] [Add V]
    (L : Lib V) (m : model) (stmt : Statement)
    (hidx : index? m.statements m.selectedStmtIdx = some stmt)
    (hdot : ∀ v, '.' ∈ L.Sprintf2f v) :
    ∃ txRows feeRows,
      updateTransactionsTable L m =
        some { m with
          transactionsTable :=
            ((m.transactionsTable.SetRows L []).SetColumns
              (txColumns (decide (m.categoryFilter = CategoryAll)))).SetRows L
                (txRows ++ feeRows) } ∧
      List.Forall₂
        (fun tx row => transactionRow L (decide (m.categoryFilter = CategoryAll)) tx = some row)
        (shownTransactions L m stmt) txRows ∧
      foreignFeeRows L m.categoryFilter (decide (m.categoryFilter = CategoryAll)) stmt
        (splitForeignFees L stmt.Transactions) = some feeRows ∧
      feeRows.length ≤ 1 := by
  have hlt := index?_lt m.statements m.selectedStmtIdx stmt hidx
  have hguard : ¬ (m.selectedStmtIdx ≥ (m.statements.length : Int)) := by omega
  obtain ⟨rows, hrows, hall⟩ := transactionRows_spec L (decide (m.categoryFilter = CategoryAll))
    (sortTransactions L m.sortBy
      (filterByCategory m.categoryFilter (splitForeignFees L stmt.Transactions).regularTxs)) hdot
  obtain ⟨feeRows, hfee, hfeelen⟩ := foreignFeeRows_spec L m.categoryFilter
    (decide (m.categoryFilter = CategoryAll)) stmt (splitForeignFees L stmt.Transactions) hdot
  refine ⟨rows, feeRows, ?_, ?_, hfee, hfeelen⟩
  · unfold updateTransactionsTable
    rw [if_neg hguard, hidx]
    simp only [hrows, hfee]
  · rw [splitForeignFees_regularTxs] at hall
    exact hall

theorem rows_SetRows {V : Type} (L : Lib V) (t : TableModel) (r : List (List (List Nat))) :
    (t.SetRows L r).rows = r := rfl

theorem shownTransactions_perm {V : Type} [LinearOrder V] (L : Lib V) (m : model)
    (stmt : Statement) :
    (shownTransactions L m stmt).Perm (displayedCandidates m.categoryFilter stmt) := by
  unfold shownTransactions displayedCandidates
  exact (sortTransactions_perm L m.sortBy _).filter _

theorem bytesLess_asymm (a b : List Nat) (h : bytesLess a b = true) : bytesLess b a = false := by
  induction a generalizing b with
  | nil =>
    cases b with
    | nil => simp [bytesLess] at h
    | cons y ys => simp [bytesLess]
  | cons x xs ih =>
    cases b with
    | nil => simp [bytesLess] at h
    | cons y ys =>
      unfold bytesLess at h ⊢
      by_cases h1 : x < y
      · have h2 : ¬ y < x := by omega
        simp [h1, h2]
      · by_cases h2 : y < x
        · simp [h1, h2] at h
        · simp only [h1, h2, if_false] at h ⊢
          exact ih ys h

theorem bytesLess_negtrans (a b c : List Nat) (h1 : bytesLess a b = false)
    (h2 : bytesLess b c = false) : bytesLess a c = false := by
  induction a generalizing b c with
  | nil =>
    cases c with
    | nil => simp [bytesLess]
    | cons z zs =>
      cases b with
      | nil => simp [bytesLess] at h2
      | cons y ys => simp [bytesLess] at h1
  | cons x xs ih =>
    cases c with
    | nil => simp [bytesLess]
    | cons z zs =>
      cases b with
      | nil => simp [bytesLess] at h2
      | cons y ys =>
        unfold bytesLess at h1 h2 ⊢
        by_cases hxy : x < y
        · simp [hxy] at h1
        · by_cases hyx : y < x
          · by_cases hyz : y < z
            · simp [hyz] at h2
            · have hxz : ¬ x < z := by omega
              have hzx : z < x := by omega
              simp [hxz, hzx]
          · have hxy2 : x = y := by omega
            simp only [hxy, hyx, if_false] at h1
            by_cases hyz : y < z
            · simp [hyz] at h2
            · by_cases hzy : z < y
              · have hxz : ¬ x < z := by omega
                have hzx : z < x := by omega
                simp [hxz, hzx]
              · simp only [hyz, hzy, if_false] at h2
                have hxz : ¬ x < z := by omega
                have hzx : ¬ z < x := by omega
                simp only [hxz, hzx, if_false]
                exact ih ys zs h1 h2

/-- Insertion by a `less` that is asymmetric and whose negation is transitive
keeps the reversed prefix in order. -/
theorem insertLess_pairwise_of {α : Type} (less : α → α → Bool)
    (hasymm : ∀ a b, less a b = true → less b a = false)
    (htrans : ∀ a b c, less a b = false → less b c = false → less a c = false)
    (x : α) (l : List α) (h : l.Pairwise (fun a b => less a b = false)) :
    (insertLess less x l).Pairwise (fun a b => less a b = false) := by
  induction l with
  | nil => simp [insertLess]
  | cons y ys ih =>
    rw [List.pairwise_cons] at h
    unfold insertLess
    by_cases hxy : less x y = true
    · rw [if_pos hxy, List.pairwise_cons]
      refine ⟨?_, ih h.2⟩
      intro z hz
      rcases List.mem_cons.mp ((insertLess_perm less x ys).subset hz) with hz1 | hz1
      · rw [hz1]; exact hasymm x y hxy
      · exact h.1 z hz1
    · rw [if_neg hxy, List.pairwise_cons]
      have hxy2 : less x y = false := by simpa using hxy
      refine ⟨?_, List.pairwise_cons.mpr h⟩
      intro z hz
      rcases List.mem_cons.mp hz with hz1 | hz1
      · rw [hz1]; exact hxy2
      · exact htrans x y z hxy2 (h.1 z hz1)

theorem insertionSort_pairwise_of {α : Type} (less : α → α → Bool)
    (hasymm : ∀ a b, less a b = true → less b a = false)
    (htrans : ∀ a b c, less a b = false → less b c = false → less a c = false)
    (xs : List α) : (insertionSort less xs).Pairwise (fun a b => less b a = false) := by
  have hfold : ∀ acc : List α, acc.Pairwise (fun a b => less a b = false) →
      (xs.foldl (fun sorted x => insertLess less x sorted) acc).Pairwise
        (fun a b => less a b = false) := by
    induction xs with
    | nil => intro acc h; exact h
    | cons x rest ih =>
      intro acc h
      rw [List.foldl_cons]
      exact ih _ (insertLess_pairwise_of less hasymm htrans x acc h)
  unfold insertionSort
  rw [List.pairwise_reverse]
  exact hfold [] List.Pairwise.nil

theorem sortSlice_pairwise_of {V : Type} (L : Lib V) (less : Transaction → Transaction → Bool)
    (hasymm : ∀ a b, less a b = true → less b a = false)
    (htrans : ∀ a b c, less a b = false → less b c = false → less a c = false)
    (xs : List Transaction) :
    (sortSlice L less xs).Pairwise (fun a b => less b a = false) := by
  obtain ⟨ys, _, heq, _⟩ := sortSlice_eq L less xs
  rw [heq]
  exact insertionSort_pairwise_of less hasymm htrans ys

/-- Sorting by a string field with Go's `<`: no element is followed by one with
a smaller field. -/
theorem sortSlice_stringLess {V : Type} (L : Lib V) (f : Transaction → List Char)
    (xs : List Transaction) :
    (sortSlice L (fun ti tj => stringLess (f ti) (f tj)) xs).Pairwise
      (fun a b => stringLess (f b) (f a) = false) :=
  sortSlice_pairwise_of L (fun ti tj => stringLess (f ti) (f tj))
    (fun _ _ h => bytesLess_asymm _ _ h)
    (fun _ _ _ h1 h2 => bytesLess_negtrans _ _ _ h1 h2) xs

/-! ## Rows of a statement whose amounts print with a decimal point -/

theorem formatAmountString_isSome_of {V : Type} (L : Lib V) (s : List Char)
    (h : printsDecimal L s) : ∃ r, formatAmountString L s = some r := by
  unfold formatAmountString
  simp only []
  split_ifs with herr
  · exact ⟨_, rfl⟩
  · exact formatAmount_isSome L _ (h (by simpa using herr))

theorem transactionRow_isSome_of {V : Type} (L : Lib V) (showCategoryColumn : Bool)
    (tx : Transaction) (h : rowPrints L tx) :
    ∃ r, transactionRow L showCategoryColumn tx = some r := by
  unfold transactionRow
  simp only []
  obtain ⟨a, ha⟩ := formatAmountString_isSome_of L
    (if tx.NtdAmount = [] then "0.00".toList else tx.NtdAmount) h.1
  obtain ⟨b, hb⟩ := truncate_isSome (GetCleanDescription tx.NormalizedDescription)
    (if showCategoryColumn then 28 else 38) (by split_ifs <;> norm_num)
  obtain ⟨c, hc⟩ := formatAmountString_isSome_of L
    (if tx.Amount = [] then "0.00".toList else tx.Amount) h.2
  obtain ⟨d, hd⟩ := truncate_isSome tx.TxnLoc 8 (by norm_num)
  rw [ha, hb, hc, hd]
  simp only []
  split_ifs <;> exact ⟨_, rfl⟩

theorem transactionRows_spec_of {V : Type} (L : Lib V) (showCategoryColumn : Bool)
    (txs : List Transaction)
    (h : ∀ tx ∈ txs, tx.NormalizedDescription ≠ onlineBankingPayment → rowPrints L tx) :
    ∃ rows, transactionRows L showCategoryColumn txs = some rows ∧
      List.Forall₂ (fun tx row => transactionRow L showCategoryColumn tx = some row)
        (txs.filter (fun tx => decide (tx.NormalizedDescription ≠ onlineBankingPayment))) rows := by
  induction txs with
  | nil => exact ⟨[], rfl, by simp⟩
  | cons tx rest ih =>
    obtain ⟨rows, hrows, hall⟩ := ih (fun t ht => h t (List.mem_cons_of_mem tx ht))
    unfold transactionRows
    by_cases hskip : tx.NormalizedDescription = onlineBankingPayment
    · rw [if_pos hskip]
      refine ⟨rows, hrows, ?_⟩
      simpa [List.filter_cons, hskip] using hall
    · rw [if_neg hskip]
      obtain ⟨row, hrow⟩ := transactionRow_isSome_of L showCategoryColumn tx
        (h tx (List.mem_cons_self tx rest) hskip)
      rw [hrow, hrows]
      refine ⟨row :: rows, rfl, ?_⟩
      simp only [List.filter_cons, hskip, ne_eq, not_false_eq_true, decide_True, if_true]
      exact List.Forall₂.cons hrow hall

/-- What `updateTransactionsTable` returns for a selected statement when the
amounts it prints have a decimal point (the two amounts of every transaction
that gets a row and, when there is a fee row, the sum of the fees): the model
with the transactions table rebuilt, whose rows are the rows of the shown
transactions followed by the rows of `foreignFeeRows`. -/
theorem updateTransactionsTable_rows_of {V : Type} [LinearOrder V] [Zero V] [Add V]
    (L : Lib V) (m : model) (stmt : Statement)
    (hidx : index? m.statements m.selectedStmtIdx = some stmt)
    (hprint : ∀ tx ∈ displayedCandidates m.categoryFilter stmt, rowPrints L tx)
    (hfeeprint : 1 ≤ (feeTransactions stmt).length → m.categoryFilter = CategoryAll →
      '.' ∈ L.Sprintf2f (splitForeignFees L stmt.Transactions).foreignFeeTotal) :
    ∃ txRows feeRows,
      updateTransactionsTable L m =
        some { m with
          transactionsTable :=
            ((m.transactionsTable.SetRows L []).SetColumns
              (txColumns (decide (m.categoryFilter = CategoryAll)))).SetRows L
                (txRows ++ feeRows) } ∧
      List.Forall₂
        (fun tx row => transactionRow L (decide (m.categoryFilter = CategoryAll)) tx = some row)
        (shownTransactions L m stmt) txRows ∧
      foreignFeeRows L m.categoryFilter (decide (m.categoryFilter = CategoryAll)) stmt
        (splitForeignFees L stmt.Transactions) = some feeRows ∧
      feeRows.length ≤ 1 := by
  have hlt := index?_lt m.statements m.selectedStmtIdx stmt hidx
  have hguard : ¬ (m.selectedStmtIdx ≥ (m.statements.length : Int)) := by omega
  have hperm := shownTransactions_perm L m stmt
  obtain ⟨rows, hrows, hall⟩ := transactionRows_spec_of L
    (decide (m.categoryFilter = CategoryAll))
    (sortTransactions L m.sortBy
      (filterByCategory m.categoryFilter (splitForeignFees L stmt.Transactions).regularTxs))
    (by
      intro tx htx hne
      apply hprint tx
      apply hperm.subset
      unfold shownTransactions sortedCandidates
      rw [← splitForeignFees_regularTxs L]
      exact List.mem_filter.mpr ⟨htx, by simpa using hne⟩)
  have hfee : ∃ feeRows,
      foreignFeeRows L m.categoryFilter (decide (m.categoryFilter = CategoryAll)) stmt
        (splitForeignFees L stmt.Transactions) = some feeRows ∧ feeRows.length ≤ 1 := by
    unfold foreignFeeRows
    by_cases hcond : (splitForeignFees L stmt.Transactions).foreignFeeTxs.length > 0 ∧
        m.categoryFilter = CategoryAll
    · have hlen : 1 ≤ (feeTransactions stmt).length := by
        have h1 := (splitForeignFees_fees L stmt.Transactions).1
        unfold feeTransactions
        rw [← h1]
        exact hcond.1
      obtain ⟨total, ht⟩ := formatAmount_isSome L
        (splitForeignFees L stmt.Transactions).foreignFeeTotal (hfeeprint hlen hcond.2)
      rw [if_pos hcond]
      simp only [ht]
      split_ifs <;> exact ⟨_, rfl, by simp⟩
    · rw [if_neg hcond]
      exact ⟨[], rfl, by simp⟩
  obtain ⟨feeRows, hfee, hfeelen⟩ := hfee
  refine ⟨rows, feeRows, ?_, ?_, hfee, hfeelen⟩
  · unfold updateTransactionsTable
    rw [if_neg hguard, hidx]
    simp only [hrows, hfee]
  · rw [splitForeignFees_regularTxs] at hall
    exact hall

theorem feeAmount_eq_effectiveAmount {V : Type} [LinearOrder V] [Zero V] (L : Lib V)
    (tx : Transaction)
    (herr : (L.ParseFloat tx.NtdAmount).2 = false → (L.ParseFloat tx.NtdAmount).1 = 0) :
    feeAmount L tx = effectiveAmount L tx := by
  unfold feeAmount effectiveAmount
  simp only []
  by_cases h0 : (L.ParseFloat tx.NtdAmount).1 = 0
  · rw [if_pos h0, if_pos (Or.inr h0)]
  · have h1 : ¬ ((L.ParseFloat tx.NtdAmount).2 = false ∨ (L.ParseFloat tx.NtdAmount).1 = 0) := by
      rintro (h | h)
      · exact h0 (herr h)
      · exact h0 h
    rw [if_neg h0, if_neg h1]

/-- The transactions that get a row of their own are the transactions of the
statement that are no foreign fee, pass the category filter and are no online
banking payment, in statement order. -/
theorem displayedCandidates_eq_filter (categoryFilter : List Char) (stmt : Statement) :
    displayedCandidates categoryFilter stmt =
      stmt.Transactions.filter (fun tx =>
        !HasPrefix (ToCDB tx.Description) foreignFeePrefix &&
          (decide (categoryFilter = CategoryAll) || decide (tx.Category = categoryFilter)) &&
          decide (tx.NormalizedDescription ≠ onlineBankingPayment)) := by
  unfold displayedCandidates sortedCandidates filterByCategory
  by_cases hAll : categoryFilter = CategoryAll
  · rw [if_pos hAll, List.filter_filter]
    apply List.filter_congr
    intro tx _
    simp only [hAll, decide_True, Bool.true_or, Bool.and_true]
    exact Bool.and_comm _ _
  · rw [if_neg hAll, List.filter_filter, List.filter_filter]
    apply List.filter_congr
    intro tx _
    simp only [hAll, decide_False, Bool.false_or]
    generalize decide (tx.NormalizedDescription ≠ onlineBankingPayment) = b1
    generalize decide (tx.Category = categoryFilter) = b2
    generalize HasPrefix (ToCDB tx.Description) foreignFeePrefix = b3
    cases b1 <;> cases b2 <;> cases b3 <;> rfl

theorem hundredthsLib_dot : ∀ v, '.' ∈ hundredthsLib.Sprintf2f v := by
  intro v
  simp [hundredthsLib, printHundredths]

theorem hundredthsLib_err :
    ∀ s, (hundredthsLib.ParseFloat s).2 = false → (hundredthsLib.ParseFloat s).1 = 0 := by
  intro s
  simp only [hundredthsLib, parseHundredths]
  split
  · intro h
    simp at h
  · intro _
    rfl

/-- C12, as stated, fails for an NTD amount that does not parse because it
is out of range: for one fee with NTD amount "1e999" and foreign amount 30.00
`strconv.ParseFloat` reports an error and returns +Inf, which is not zero, so
the foreign amount does not replace it; the amount of the claim is 30.00, the
amount summed is +Inf, printed "+Inf" without a decimal point, and under the
filter All `updateTransactionsTable` panics in `formatAmount`.  The statement
is one that `CategorizeTransactions` leaves as it is. -/
theorem updateTransactionsTable_fee_range_counterexample :
    (CategorizeTransactions (fun c => c) [stmtFeeRange]).1 = [stmtFeeRange] ∧
    feeTransactions stmtFeeRange = [txFeeRange] ∧
    (nonFiniteLib.ParseFloat txFeeRange.NtdAmount).2 = false ∧
    effectiveAmount nonFiniteLib txFeeRange = ((3000 : Int) : WithTop Int) ∧
    feeAmount nonFiniteLib txFeeRange = ((⊤ : WithTop Int) : WithBot (WithTop Int)) ∧
    nonFiniteLib.Sprintf2f
        (splitForeignFees nonFiniteLib stmtFeeRange.Transactions).foreignFeeTotal =
      "+Inf".toList ∧
    updateTransactionsTable nonFiniteLib (filterModel CategoryAll stmtFeeRange) = none := by
  decide

/-- C12, amended: for a selected statement with `n ≥ 1` foreign-fee
transactions, none of which has an NTD amount that fails to parse with a value
other than zero, `updateTransactionsTable` returns a model whose rows are the
rows of the shown transactions, one for each in the same order, followed, when
the filter is All, by exactly one row, the last, labelled "Foreign TX Fee (n)"
and carrying in both amount cells the formatted sum of the effective amounts
of the fee transactions; when the filter is not All nothing follows.  The
shown transactions are a rearrangement of the transactions of the statement
that are no foreign fee, pass the category filter and are no online banking
payment, so no fee transaction has a row of its own and there are as many
other rows as such transactions.  In an enriched statement the fee
transactions are those whose normalized description starts with the marker.
The amounts printed, those of the shown transactions and, under All, the sum
of the fees, have a decimal point: none is NaN or ±Inf. -/
theorem updateTransactionsTable_foreign_fee_row {V : Type} [LinearOrder V] [Zero V] [Add V]
    (L : Lib V) (m : model) (stmt : Statement)
    (hidx : index? m.statements m.selectedStmtIdx = some stmt)
    (hprint : ∀ tx ∈ displayedCandidates m.categoryFilter stmt, rowPrints L tx)
    (hfeeprint : m.categoryFilter = CategoryAll →
      '.' ∈ L.Sprintf2f
        (((feeTransactions stmt).map (effectiveAmount L)).foldl (fun a b => a + b) 0))
    (herr : ∀ tx ∈ feeTransactions stmt,
      (L.ParseFloat tx.NtdAmount).2 = false → (L.ParseFloat tx.NtdAmount).1 = 0)
    (hn : 1 ≤ (feeTransactions stmt).length) :
    ∃ m1 txRows,
      updateTransactionsTable L m = some m1 ∧
      List.Forall₂
        (fun tx row => transactionRow L (decide (m.categoryFilter = CategoryAll)) tx = some row)
        (shownTransactions L m stmt) txRows ∧
      (shownTransactions L m stmt).Perm
        (stmt.Transactions.filter (fun tx =>
          !HasPrefix (ToCDB tx.Description) foreignFeePrefix &&
            (decide (m.categoryFilter = CategoryAll) || decide (tx.Category = m.categoryFilter)) &&
            decide (tx.NormalizedDescription ≠ onlineBankingPayment))) ∧
      (∀ t ∈ shownTransactions L m stmt, t ∉ feeTransactions stmt) ∧
      txRows.length =
        (stmt.Transactions.filter (fun tx =>
          !HasPrefix (ToCDB tx.Description) foreignFeePrefix &&
            (decide (m.categoryFilter = CategoryAll) || decide (tx.Category = m.categoryFilter)) &&
            decide (tx.NormalizedDescription ≠ onlineBankingPayment))).length ∧
      (m.categoryFilter = CategoryAll →
        ∃ feeDate total,
          formatAmount L
            (((feeTransactions stmt).map (effectiveAmount L)).foldl (fun a b => a + b) 0) =
              some total ∧
          m1.transactionsTable.rows = txRows ++
            [[utf8 feeDate, utf8 "Fee".toList, utf8 (rightPadAmount total 13),
              utf8 ("Foreign TX Fee (".toList ++ SprintfD (feeTransactions stmt).length ++
                ")".toList),
              utf8 (rightPadAmount total 13), utf8 "NTD".toList, []]]) ∧
      (m.categoryFilter ≠ CategoryAll → m1.transactionsTable.rows = txRows) ∧
      ((∀ tx ∈ stmt.Transactions, tx.NormalizedDescription = ToCDB tx.Description) →
        feeTransactions stmt =
          stmt.Transactions.filter
            (fun tx => HasPrefix tx.NormalizedDescription foreignFeePrefix)) := by
  obtain ⟨hfees, htotal⟩ := splitForeignFees_fees L stmt.Transactions
  have hmap : (feeTransactions stmt).map (feeAmount L) =
      (feeTransactions stmt).map (effectiveAmount L) :=
    List.map_congr_left (fun tx htx => feeAmount_eq_effectiveAmount L tx (herr tx htx))
  have hlen : (splitForeignFees L stmt.Transactions).foreignFeeTxs.length =
      (feeTransactions stmt).length := by rw [hfees]; rfl
  have htot : (splitForeignFees L stmt.Transactions).foreignFeeTotal =
      ((feeTransactions stmt).map (effectiveAmount L)).foldl (fun a b => a + b) 0 := by
    rw [htotal, ← hmap]; rfl
  obtain ⟨txRows, feeRows, hupd, hall, hfee, _⟩ :=
    updateTransactionsTable_rows_of L m stmt hidx hprint
      (fun _ hAll => by rw [htot]; exact hfeeprint hAll)
  have hperm : (shownTransactions L m stmt).Perm
      (stmt.Transactions.filter (fun tx =>
        !HasPrefix (ToCDB tx.Description) foreignFeePrefix &&
          (decide (m.categoryFilter = CategoryAll) || decide (tx.Category = m.categoryFilter)) &&
          decide (tx.NormalizedDescription ≠ onlineBankingPayment))) := by
    rw [← displayedCandidates_eq_filter]
    exact shownTransactions_perm L m stmt
  refine ⟨_, txRows, hupd, hall, hperm, ?_, ?_, ?_, ?_, ?_⟩
  · intro t ht hfeemem
    have h1 := (List.mem_filter.mp (hperm.subset ht)).2
    have h2 := (List.mem_filter.mp hfeemem).2
    rw [h2] at h1
    simp at h1
  · rw [← hperm.length_eq]
    exact hall.length_eq.symm
  · intro hAll
    obtain ⟨total, htotalfmt⟩ := formatAmount_isSome L
      (splitForeignFees L stmt.Transactions).foreignFeeTotal
      (by rw [htot]; exact hfeeprint hAll)
    have hpos : (splitForeignFees L stmt.Transactions).foreignFeeTxs.length > 0 ∧
        m.categoryFilter = CategoryAll := ⟨by omega, hAll⟩
    unfold foreignFeeRows at hfee
    rw [if_pos hpos] at hfee
    simp only [htotalfmt, hAll, decide_True, if_true, Option.some.injEq] at hfee
    rw [htot] at htotalfmt
    refine ⟨?feeDate, total, htotalfmt, ?_⟩
    case feeDate =>
      exact (match (splitForeignFees L stmt.Transactions).foreignFeeTxs with
        | first :: _ => if first.TxnDate ≠ [] then first.TxnDate else stmt.StmtDate
        | [] => stmt.StmtDate)
    rw [rows_SetRows, ← hfee, hlen]
  · intro hne
    have hneg : ¬ ((splitForeignFees L stmt.Transactions).foreignFeeTxs.length > 0 ∧
        m.categoryFilter = CategoryAll) := fun h => hne h.2
    unfold foreignFeeRows at hfee
    rw [if_neg hneg] at hfee
    simp only [Option.some.injEq] at hfee
    rw [rows_SetRows, ← hfee, List.append_nil]
  · intro henr
    unfold feeTransactions
    apply List.filter_congr
    intro tx htx
    rw [henr tx htx]

/-- C12, amended, at the input of the claim: two fees of 30.00 and 20.00 give,
under the filter All, one row of amount 50.00 labelled "Foreign TX Fee (2)";
under the filter Food there is no row.  With a coffee shop purchase, a ride
and two payments beside one fee, the rows under All are those of the purchase,
the ride and the transaction that starts like a payment, then the fee row. -/
theorem updateTransactionsTable_foreign_fee_row_witness :
    (CategorizeTransactions (fun c => c) [stmtTwoFees]).1 = [stmtTwoFees] ∧
    1 ≤ (feeTransactions stmtTwoFees).length ∧
    (∃ m1, updateTransactionsTable hundredthsLib (filterModel CategoryAll stmtTwoFees) =
      some m1) ∧
    (updateTransactionsTable hundredthsLib (filterModel CategoryAll stmtTwoFees)).map
        (fun m => m.transactionsTable.rows) =
      some [[utf8 "2024/01/15".toList, utf8 "Fee".toList, utf8 "        50.00".toList,
             utf8 "Foreign TX Fee (2)".toList, utf8 "        50.00".toList, utf8 "NTD".toList,
             []]] ∧
    (updateTransactionsTable hundredthsLib (filterModel CategoryFood stmtTwoFees)).map
        (fun m => m.transactionsTable.rows) = some [] ∧
    (updateTransactionsTable hundredthsLib (filterModel CategoryAll stmtMixed)).map
        (fun m => (m.transactionsTable.rows.map some).take 3) =
      some [transactionRow hundredthsLib true txRide,
            transactionRow hundredthsLib true txCoffee,
            transactionRow hundredthsLib true txPaymentLonger] ∧
    (updateTransactionsTable hundredthsLib (filterModel CategoryAll stmtMixed)).map
        (fun m => m.transactionsTable.rows.drop 3) =
      some [[utf8 "2024/01/05".toList, utf8 "Fee".toList, utf8 "         3.00".toList,
             utf8 "Foreign TX Fee (1)".toList, utf8 "         3.00".toList, utf8 "NTD".toList,
             []]] := by
  refine ⟨by decide, by decide, ?_, by decide, by decide, by decide, by decide⟩
  obtain ⟨m1, _, h, _⟩ :=
    updateTransactionsTable_foreign_fee_row hundredthsLib (filterModel CategoryAll stmtTwoFees)
      stmtTwoFees rfl
      (fun tx _ => ⟨fun _ => hundredthsLib_dot _, fun _ => hundredthsLib_dot _⟩)
      (fun _ => hundredthsLib_dot _) (fun tx _ => hundredthsLib_err _) (by decide)
  exact ⟨m1, h⟩

theorem displayedCandidates_enriched (categoryFilter : List Char) (stmt : Statement)
    (henr : ∀ tx ∈ stmt.Transactions, tx.NormalizedDescription = ToCDB tx.Description) :
    displayedCandidates categoryFilter stmt =
      stmt.Transactions.filter (fun tx =>
        !HasPrefix tx.NormalizedDescription foreignFeePrefix &&
          (decide (categoryFilter = CategoryAll) || decide (tx.Category = categoryFilter)) &&
          decide (tx.NormalizedDescription ≠ onlineBankingPayment)) := by
  unfold displayedCandidates sortedCandidates filterByCategory
  by_cases hAll : categoryFilter = CategoryAll
  · rw [if_pos hAll, List.filter_filter]
    apply List.filter_congr
    intro tx htx
    rw [henr tx htx]
    simp only [hAll, decide_True, Bool.true_or, Bool.and_true]
    exact Bool.and_comm _ _
  · rw [if_neg hAll, List.filter_filter, List.filter_filter]
    apply List.filter_congr
    intro tx htx
    rw [henr tx htx]
    simp only [hAll, decide_False, Bool.false_or]
    generalize decide (ToCDB tx.Description ≠ onlineBankingPayment) = b1
    generalize decide (tx.Category = categoryFilter) = b2
    generalize HasPrefix (ToCDB tx.Description) foreignFeePrefix = b3
    cases b1 <;> cases b2 <;> cases b3 <;> rfl

/-- C18: for an enriched selected statement and every filter,
`updateTransactionsTable` returns a model whose rows are the rows of the shown
transactions, one row for each in the same order, followed by the synthetic
rows; the shown transactions are a rearrangement of the statement's
transactions that are no foreign fee, whose `Category` is the filter (any
category when the filter is All) and whose normalized description is not the
online banking payment marker.  Every printed amount has a decimal point. -/
theorem updateTransactionsTable_rows_one_to_one {V : Type} [LinearOrder V] [Zero V] [Add V]
    (L : Lib V) (m : model) (stmt : Statement)
    (hidx : index? m.statements m.selectedStmtIdx = some stmt)
    (hdot : ∀ v, '.' ∈ L.Sprintf2f v)
    (henr : ∀ tx ∈ stmt.Transactions, tx.NormalizedDescription = ToCDB tx.Description) :
    ∃ m1 shown txRows feeRows,
      updateTransactionsTable L m = some m1 ∧
      m1.transactionsTable.rows = txRows ++ feeRows ∧
      foreignFeeRows L m.categoryFilter (decide (m.categoryFilter = CategoryAll)) stmt
        (splitForeignFees L stmt.Transactions) = some feeRows ∧
      List.Forall₂
        (fun tx row => transactionRow L (decide (m.categoryFilter = CategoryAll)) tx = some row)
        shown txRows ∧
      shown.Perm
        (stmt.Transactions.filter (fun tx =>
          !HasPrefix tx.NormalizedDescription foreignFeePrefix &&
            (decide (m.categoryFilter = CategoryAll) || decide (tx.Category = m.categoryFilter)) &&
            decide (tx.NormalizedDescription ≠ onlineBankingPayment))) := by
  obtain ⟨txRows, feeRows, hupd, hall, hfee, _⟩ := updateTransactionsTable_rows L m stmt hidx hdot
  refine ⟨_, shownTransactions L m stmt, txRows, feeRows, hupd, rfl, hfee, hall, ?_⟩
  rw [← displayedCandidates_enriched m.categoryFilter stmt henr]
  exact shownTransactions_perm L m stmt

/-- C18, at an input: of a coffee shop purchase, a ride, an online banking
payment, a transaction that starts like one, and a fee, the filter Food shows
the coffee shop purchase alone. -/
theorem updateTransactionsTable_rows_one_to_one_witness :
    (CategorizeTransactions (fun c => c) [stmtMixed]).1 = [stmtMixed] ∧
    (∃ (m1 : model) (shown : List Transaction),
      updateTransactionsTable hundredthsLib (sortModel sortByDate CategoryFood stmtMixed) =
        some m1 ∧
      shown.Perm [txCoffee]) ∧
    (updateTransactionsTable hundredthsLib (sortModel sortByDate CategoryFood stmtMixed)).map
        (fun m => m.transactionsTable.rows.map some) =
      some [transactionRow hundredthsLib false txCoffee] := by
  refine ⟨by decide, ?_, by decide⟩
  obtain ⟨m1, shown, _, _, h1, _, _, _, h5⟩ :=
    updateTransactionsTable_rows_one_to_one hundredthsLib
      (sortModel sortByDate CategoryFood stmtMixed) stmtMixed rfl hundredthsLib_dot (by decide)
  exact ⟨m1, shown, h1, h5⟩

/-- C19: for every selected statement, sort mode and filter,
`updateTransactionsTable` returns a model whose rows are the rows of the shown
transactions followed by the synthetic rows; no shown transaction has the
normalized description "網路銀行繳款", and every transaction of the sorted slice
whose normalized description is another string, also one that starts with or
contains the marker, is shown as often as it stands in the slice.  Every
printed amount has a decimal point. -/
theorem updateTransactionsTable_drops_online_banking_payment {V : Type} [LinearOrder V]
    [Zero V] [Add V] (L : Lib V) (m : model) (stmt : Statement)
    (hidx : index? m.statements m.selectedStmtIdx = some stmt)
    (hdot : ∀ v, '.' ∈ L.Sprintf2f v) :
    ∃ m1 shown txRows feeRows,
      updateTransactionsTable L m = some m1 ∧
      m1.transactionsTable.rows = txRows ++ feeRows ∧
      foreignFeeRows L m.categoryFilter (decide (m.categoryFilter = CategoryAll)) stmt
        (splitForeignFees L stmt.Transactions) = some feeRows ∧
      List.Forall₂
        (fun tx row => transactionRow L (decide (m.categoryFilter = CategoryAll)) tx = some row)
        shown txRows ∧
      (∀ t ∈ shown, t.NormalizedDescription ≠ "網路銀行繳款".toList) ∧
      (∀ t : Transaction, t.NormalizedDescription ≠ "網路銀行繳款".toList →
        shown.count t = (sortedCandidates m.categoryFilter stmt).count t) := by
  obtain ⟨txRows, feeRows, hupd, hall, hfee, _⟩ := updateTransactionsTable_rows L m stmt hidx hdot
  refine ⟨_, shownTransactions L m stmt, txRows, feeRows, hupd, rfl, hfee, hall, ?_, ?_⟩
  · intro t ht
    have h1 := (shownTransactions_perm L m stmt).subset ht
    unfold displayedCandidates at h1
    have h2 := (List.mem_filter.mp h1).2
    simpa [onlineBankingPayment] using h2
  · intro t ht
    rw [(shownTransactions_perm L m stmt).count_eq]
    unfold displayedCandidates
    apply List.count_filter
    simpa [onlineBankingPayment] using ht

/-- C19, at an input: under the filter All the online banking payment has no
row and the transaction whose description goes on after the marker has one. -/
theorem updateTransactionsTable_drops_online_banking_payment_witness :
    (∃ (m1 : model) (shown : List Transaction),
      updateTransactionsTable hundredthsLib (sortModel sortByDate CategoryAll stmtMixed) =
        some m1 ∧
      txPayment ∉ shown ∧ shown.count txPaymentLonger = 1) ∧
    ((updateTransactionsTable hundredthsLib (sortModel sortByDate CategoryAll stmtMixed)).map
        (fun m => m.transactionsTable.rows.map some)).map (fun rows => rows.take 3) =
      some [transactionRow hundredthsLib true txRide,
            transactionRow hundredthsLib true txCoffee,
            transactionRow hundredthsLib true txPaymentLonger] ∧
    (updateTransactionsTable hundredthsLib (sortModel sortByDate CategoryAll stmtMixed)).map
        (fun m => m.transactionsTable.rows.length) = some 4 := by
  refine ⟨?_, by decide, by decide⟩
  obtain ⟨m1, shown, _, _, h1, _, _, _, h5, h6⟩ :=
    updateTransactionsTable_drops_online_banking_payment hundredthsLib
      (sortModel sortByDate CategoryAll stmtMixed) stmtMixed rfl hundredthsLib_dot
  refine ⟨m1, shown, h1, ?_, ?_⟩
  · intro hmem
    exact h5 txPayment hmem rfl
  · rw [h6 txPaymentLonger (by decide)]
    decide

/-- C20: in sort mode Date, Location or Category, `updateTransactionsTable`
returns a model whose rows are the rows of the shown transactions, one for
each in the same order, followed by the synthetic rows; the shown transactions
are a rearrangement of the filtered transactions, and none is followed by one
whose date string (location string, category string) is smaller in Go's
byte-wise lexicographic order.  Every printed amount has a decimal point. -/
theorem updateTransactionsTable_string_order {V : Type} [LinearOrder V] [Zero V] [Add V]
    (L : Lib V) (m : model) (stmt : Statement)
    (hidx : index? m.statements m.selectedStmtIdx = some stmt)
    (hdot : ∀ v, '.' ∈ L.Sprintf2f v) :
    ∃ m1 shown txRows feeRows,
      updateTransactionsTable L m = some m1 ∧
      m1.transactionsTable.rows = txRows ++ feeRows ∧
      foreignFeeRows L m.categoryFilter (decide (m.categoryFilter = CategoryAll)) stmt
        (splitForeignFees L stmt.Transactions) = some feeRows ∧
      List.Forall₂
        (fun tx row => transactionRow L (decide (m.categoryFilter = CategoryAll)) tx = some row)
        shown txRows ∧
      shown.Perm (displayedCandidates m.categoryFilter stmt) ∧
      (m.sortBy = sortByDate →
        shown.Pairwise (fun a b => stringLess b.TxnDate a.TxnDate = false)) ∧
      (m.sortBy = sortByLocation →
        shown.Pairwise (fun a b => stringLess b.TxnLoc a.TxnLoc = false)) ∧
      (m.sortBy = sortByCategory →
        shown.Pairwise (fun a b => stringLess b.Category a.Category = false)) := by
  obtain ⟨txRows, feeRows, hupd, hall, hfee, _⟩ := updateTransactionsTable_rows L m stmt hidx hdot
  refine ⟨_, shownTransactions L m stmt, txRows, feeRows, hupd, rfl, hfee, hall,
    shownTransactions_perm L m stmt, ?_, ?_, ?_⟩
  · intro hs
    unfold shownTransactions
    have e : sortTransactions L m.sortBy (sortedCandidates m.categoryFilter stmt) =
        sortSlice L (fun ti tj => stringLess ti.TxnDate tj.TxnDate)
          (sortedCandidates m.categoryFilter stmt) := by rw [hs]; rfl
    rw [e]
    exact (sortSlice_stringLess L (fun t => t.TxnDate) _).filter _
  · intro hs
    unfold shownTransactions
    have e : sortTransactions L m.sortBy (sortedCandidates m.categoryFilter stmt) =
        sortSlice L (fun ti tj => stringLess ti.TxnLoc tj.TxnLoc)
          (sortedCandidates m.categoryFilter stmt) := by rw [hs]; rfl
    rw [e]
    exact (sortSlice_stringLess L (fun t => t.TxnLoc) _).filter _
  · intro hs
    unfold shownTransactions
    have e : sortTransactions L m.sortBy (sortedCandidates m.categoryFilter stmt) =
        sortSlice L (fun ti tj => stringLess ti.Category tj.Category)
          (sortedCandidates m.categoryFilter stmt) := by rw [hs]; rfl
    rw [e]
    exact (sortSlice_stringLess L (fun t => t.Category) _).filter _

/-- C20, at an input: the coffee shop purchase (2024/01/03, TW, Food), the
ride (2024/01/02, IT, Transport) and the third transaction (2024/01/04, US,
Other) are shown by date as ride, coffee, third; by location as ride, coffee,
third; by category as coffee, third, ride. -/
theorem updateTransactionsTable_string_order_witness :
    (∃ (m1 : model) (shown : List Transaction),
      updateTransactionsTable hundredthsLib (sortModel sortByDate CategoryAll stmtMixed) =
        some m1 ∧
      shown.Pairwise (fun a b => stringLess b.TxnDate a.TxnDate = false)) ∧
    ((updateTransactionsTable hundredthsLib (sortModel sortByDate CategoryAll stmtMixed)).map
        (fun m => m.transactionsTable.rows.map some)).map (fun rows => rows.take 3) =
      some [transactionRow hundredthsLib true txRide,
            transactionRow hundredthsLib true txCoffee,
            transactionRow hundredthsLib true txPaymentLonger] ∧
    ((updateTransactionsTable hundredthsLib (sortModel sortByLocation CategoryAll stmtMixed)).map
        (fun m => m.transactionsTable.rows.map some)).map (fun rows => rows.take 3) =
      some [transactionRow hundredthsLib true txRide,
            transactionRow hundredthsLib true txCoffee,
            transactionRow hundredthsLib true txPaymentLonger] ∧
    ((updateTransactionsTable hundredthsLib (sortModel sortByCategory CategoryAll stmtMixed)).map
        (fun m => m.transactionsTable.rows.map some)).map (fun rows => rows.take 3) =
      some [transactionRow hundredthsLib true txCoffee,
            transactionRow hundredthsLib true txPaymentLonger,
            transactionRow hundredthsLib true txRide] := by
  refine ⟨?_, by decide, by decide, by decide⟩
  obtain ⟨m1, shown, _, _, h1, _, _, _, _, h6, _⟩ :=
    updateTransactionsTable_string_order hundredthsLib
      (sortModel sortByDate CategoryAll stmtMixed) stmtMixed rfl hundredthsLib_dot
  exact ⟨m1, shown, h1, h6 rfl⟩

/-! ## The order by amount -/

theorem index?_isSome {α : Type} (xs : List α) (i : Int) (h0 : 0 ≤ i) (h1 : i < xs.length) :
    ∃ x, index? xs i = some x := by
  unfold index?
  rw [if_neg (by omega)]
  have hlt : i.toNat < xs.length := by omega
  exact ⟨xs[i.toNat], List.getElem?_eq_getElem hlt⟩

/-- `updateTransactionsTable` on a selected statement changes the transactions
table alone. -/
theorem updateTransactionsTable_frame {V : Type} [LinearOrder V] [Zero V] [Add V]
    (L : Lib V) (m : model) (h0 : 0 ≤ m.selectedStmtIdx)
    (h1 : m.selectedStmtIdx < m.statements.length) (hdot : ∀ v, '.' ∈ L.Sprintf2f v) :
    ∃ m1, updateTransactionsTable L m = some m1 ∧
      m1.statements = m.statements ∧ m1.categorized = m.categorized ∧
      m1.currentView = m.currentView ∧ m1.selectedStmtIdx = m.selectedStmtIdx ∧
      m1.sortBy = m.sortBy ∧ m1.categoryFilter = m.categoryFilter ∧
      m1.statementsTable = m.statementsTable ∧ m1.focusedTable = m.focusedTable ∧
      m1.width = m.width ∧ m1.height = m.height ∧ m1.ready = m.ready := by
  obtain ⟨stmt, hidx⟩ := index?_isSome m.statements m.selectedStmtIdx h0 h1
  obtain ⟨txRows, feeRows, hupd, _⟩ := updateTransactionsTable_rows L m stmt hidx hdot
  exact ⟨_, hupd, rfl, rfl, rfl, rfl, rfl, rfl, rfl, rfl, rfl, rfl, rfl⟩

theorem TableModel.Update_keyDown {V : Type} (L : Lib V) (t : TableModel)
    (hf : t.focus = true) : t.Update L keyDown = t.MoveDown 1 := by
  unfold TableModel.Update keyDown
  rw [if_neg (by rw [hf]; decide)]
  simp only []
  rw [if_neg (by decide), if_pos (by decide)]

theorem TableModel.Update_keyUp {V : Type} (L : Lib V) (t : TableModel)
    (hf : t.focus = true) : t.Update L keyUp = t.MoveUp 1 := by
  unfold TableModel.Update keyUp
  rw [if_neg (by rw [hf]; decide)]
  simp only []
  rw [if_pos (by decide)]

theorem iterate_keyDown {V : Type} (L : Lib V) (k : Nat) (t : TableModel)
    (hf : t.focus = true) (h0 : 0 ≤ t.cursor)
    (h1 : t.cursor + k ≤ (t.rows.length : Int) - 1) :
    Nat.iterate (fun t => t.Update L keyDown) k t = { t with cursor := t.cursor + k } := by
  induction k generalizing t with
  | zero => simp
  | succ k ih =>
    rw [Function.iterate_succ_apply, TableModel.Update_keyDown L t hf]
    have hMD : t.MoveDown 1 = { t with cursor := t.cursor + 1 } := by
      unfold TableModel.MoveDown clamp
      rw [max_eq_left (by omega), min_eq_left (by push_cast at h1; omega)]
    rw [hMD, ih { t with cursor := t.cursor + 1 } hf (by simp only []; omega)
      (by simp only []; push_cast at h1 ⊢; omega)]
    simp only [TableModel.mk.injEq, true_and, and_true]
    push_cast
    omega

theorem iterate_keyUp {V : Type} (L : Lib V) (k : Nat) (t : TableModel)
    (hf : t.focus = true) (h0 : (k : Int) ≤ t.cursor)
    (h1 : t.cursor ≤ (t.rows.length : Int) - 1) :
    Nat.iterate (fun t => t.Update L keyUp) k t = { t with cursor := t.cursor - k } := by
  induction k generalizing t with
  | zero => simp
  | succ k ih =>
    rw [Function.iterate_succ_apply, TableModel.Update_keyUp L t hf]
    have hMU : t.MoveUp 1 = { t with cursor := t.cursor - 1 } := by
      unfold TableModel.MoveUp clamp
      rw [max_eq_left (by push_cast at h0; omega), min_eq_left (by omega)]
    rw [hMU, ih { t with cursor := t.cursor - 1 } hf (by simp only []; push_cast at h0; omega)
      (by simp only []; omega)]
    simp only [TableModel.mk.injEq, true_and, and_true]
    push_cast
    omega

/-! ## Wrap-around navigation -/

theorem Update_up_statements {V : Type} [LinearOrder V] [Zero V] [Add V] (L : Lib V) (m : model)
    (k : List Char) (hk : k = "up".toList ∨ k = "k".toList)
    (hview : m.currentView = statementsView) (hf : m.focusedTable = 0)
    (hc : m.statementsTable.cursor = 0) :
    Update L m (Msg.KeyMsg k) =
      moveStatements L m
        (repeatUpdate L ((m.statements.length : Int) - 1) keyDown m.statementsTable) := by
  rcases hk with rfl | rfl
  · show updateKey L m "up".toList = _
    unfold updateKey
    simp only [
    (eq_false (by decide) : ("up".toList = "ctrl+c".toList ∨ "up".toList = "q".toList) = False),
    (eq_false (by decide) : ("up".toList = "tab".toList) = False),
    (eq_false (by decide) : ("up".toList = "left".toList ∨ "up".toList = "h".toList) = False),
    (eq_false (by decide) : ("up".toList = "right".toList ∨ "up".toList = "l".toList) = False),
    (eq_false (by decide) : ("up".toList = "s".toList) = False),
    (eq_false (by decide) : ("up".toList = "1".toList) = False),
    (eq_false (by decide) : ("up".toList = "2".toList) = False),
    (eq_false (by decide) : ("up".toList = "3".toList) = False),
    (eq_false (by decide) : ("up".toList = "4".toList) = False),
    (eq_false (by decide) : ("up".toList = "5".toList) = False),
    (eq_false (by decide) : ("up".toList = "6".toList) = False),
    (eq_false (by decide) : ("up".toList = "7".toList) = False),
    (eq_true (by decide) : ("up".toList = "up".toList ∨ "up".toList = "k".toList) = True),
    if_false, if_true, true_or, or_true, hview, hf, hc]
  · show updateKey L m "k".toList = _
    unfold updateKey
    simp only [
    (eq_false (by decide) : ("k".toList = "ctrl+c".toList ∨ "k".toList = "q".toList) = False),
    (eq_false (by decide) : ("k".toList = "tab".toList) = False),
    (eq_false (by decide) : ("k".toList = "left".toList ∨ "k".toList = "h".toList) = False),
    (eq_false (by decide) : ("k".toList = "right".toList ∨ "k".toList = "l".toList) = False),
    (eq_false (by decide) : ("k".toList = "s".toList) = False),
    (eq_false (by decide) : ("k".toList = "1".toList) = False),
    (eq_false (by decide) : ("k".toList = "2".toList) = False),
    (eq_false (by decide) : ("k".toList = "3".toList) = False),
    (eq_false (by decide) : ("k".toList = "4".toList) = False),
    (eq_false (by decide) : ("k".toList = "5".toList) = False),
    (eq_false (by decide) : ("k".toList = "6".toList) = False),
    (eq_false (by decide) : ("k".toList = "7".toList) = False),
    (eq_true (by decide) : ("k".toList = "up".toList ∨ "k".toList = "k".toList) = True),
    if_false, if_true, true_or, or_true, hview, hf, hc]

theorem Update_down_statements {V : Type} [LinearOrder V] [Zero V] [Add V] (L : Lib V) (m : model)
    (k : List Char) (hk : k = "down".toList ∨ k = "j".toList)
    (hview : m.currentView = statementsView) (hf : m.focusedTable = 0)
    (hc : m.statementsTable.cursor = (m.statements.length : Int) - 1) :
    Update L m (Msg.KeyMsg k) =
      moveStatements L m
        (repeatUpdate L ((m.statements.length : Int) - 1) keyUp m.statementsTable) := by
  rcases hk with rfl | rfl
  · show updateKey L m "down".toList = _
    unfold updateKey
    simp only [
    (eq_false (by decide) : ("down".toList = "ctrl+c".toList ∨ "down".toList = "q".toList) = False),
    (eq_false (by decide) : ("down".toList = "tab".toList) = False),
    (eq_false (by decide) : ("down".toList = "left".toList ∨ "down".toList = "h".toList) = False),
    (eq_false (by decide) : ("down".toList = "right".toList ∨ "down".toList = "l".toList) = False),
    (eq_false (by decide) : ("down".toList = "s".toList) = False),
    (eq_false (by decide) : ("down".toList = "1".toList) = False),
    (eq_false (by decide) : ("down".toList = "2".toList) = False),
    (eq_false (by decide) : ("down".toList = "3".toList) = False),
    (eq_false (by decide) : ("down".toList = "4".toList) = False),
    (eq_false (by decide) : ("down".toList = "5".toList) = False),
    (eq_false (by decide) : ("down".toList = "6".toList) = False),
    (eq_false (by decide) : ("down".toList = "7".toList) = False),
    (eq_false (by decide) : ("down".toList = "up".toList ∨ "down".toList = "k".toList) = False),
    (eq_true (by decide) : ("down".toList = "down".toList ∨ "down".toList = "j".toList) = True),
    if_false, if_true, true_or, or_true, hview, hf, hc]
  · show updateKey L m "j".toList = _
    unfold updateKey
    simp only [
    (eq_false (by decide) : ("j".toList = "ctrl+c".toList ∨ "j".toList = "q".toList) = False),
    (eq_false (by decide) : ("j".toList = "tab".toList) = False),
    (eq_false (by decide) : ("j".toList = "left".toList ∨ "j".toList = "h".toList) = False),
    (eq_false (by decide) : ("j".toList = "right".toList ∨ "j".toList = "l".toList) = False),
    (eq_false (by decide) : ("j".toList = "s".toList) = False),
    (eq_false (by decide) : ("j".toList = "1".toList) = False),
    (eq_false (by decide) : ("j".toList = "2".toList) = False),
    (eq_false (by decide) : ("j".toList = "3".toList) = False),
    (eq_false (by decide) : ("j".toList = "4".toList) = False),
    (eq_false (by decide) : ("j".toList = "5".toList) = False),
    (eq_false (by decide) : ("j".toList = "6".toList) = False),
    (eq_false (by decide) : ("j".toList = "7".toList) = False),
    (eq_false (by decide) : ("j".toList = "up".toList ∨ "j".toList = "k".toList) = False),
    (eq_true (by decide) : ("j".toList = "down".toList ∨ "j".toList = "j".toList) = True),
    if_false, if_true, true_or, or_true, hview, hf, hc]

theorem Update_up_transactions {V : Type} [LinearOrder V] [Zero V] [Add V] (L : Lib V) (m : model)
    (k : List Char) (hk : k = "up".toList ∨ k = "k".toList)
    (hview : m.currentView = statementsView) (hf : m.focusedTable = 1)
    (hc : m.transactionsTable.cursor = 0) (hn : 1 ≤ m.transactionsTable.rows.length) :
    Update L m (Msg.KeyMsg k) =
      some ({ m with
        transactionsTable :=
          repeatUpdate L ((m.transactionsTable.rows.length : Int) - 1) keyDown
            m.transactionsTable }, Cmd.Nil) := by
  rcases hk with rfl | rfl
  · show updateKey L m "up".toList = _
    unfold updateKey
    simp only [
    (eq_false (by decide) : ("up".toList = "ctrl+c".toList ∨ "up".toList = "q".toList) = False),
    (eq_false (by decide) : ("up".toList = "tab".toList) = False),
    (eq_false (by decide) : ("up".toList = "left".toList ∨ "up".toList = "h".toList) = False),
    (eq_false (by decide) : ("up".toList = "right".toList ∨ "up".toList = "l".toList) = False),
    (eq_false (by decide) : ("up".toList = "s".toList) = False),
    (eq_false (by decide) : ("up".toList = "1".toList) = False),
    (eq_false (by decide) : ("up".toList = "2".toList) = False),
    (eq_false (by decide) : ("up".toList = "3".toList) = False),
    (eq_false (by decide) : ("up".toList = "4".toList) = False),
    (eq_false (by decide) : ("up".toList = "5".toList) = False),
    (eq_false (by decide) : ("up".toList = "6".toList) = False),
    (eq_false (by decide) : ("up".toList = "7".toList) = False),
    (eq_true (by decide) : ("up".toList = "up".toList ∨ "up".toList = "k".toList) = True),
    if_false, if_true, true_or, or_true, hview, hf, hc, (by decide : ¬ ((1 : Int) = 0)),
      (by omega : (m.transactionsTable.rows.length : Int) > 0)]
  · show updateKey L m "k".toList = _
    unfold updateKey
    simp only [
    (eq_false (by decide) : ("k".toList = "ctrl+c".toList ∨ "k".toList = "q".toList) = False),
    (eq_false (by decide) : ("k".toList = "tab".toList) = False),
    (eq_false (by decide) : ("k".toList = "left".toList ∨ "k".toList = "h".toList) = False),
    (eq_false (by decide) : ("k".toList = "right".toList ∨ "k".toList = "l".toList) = False),
    (eq_false (by decide) : ("k".toList = "s".toList) = False),
    (eq_false (by decide) : ("k".toList = "1".toList) = False),
    (eq_false (by decide) : ("k".toList = "2".toList) = False),
    (eq_false (by decide) : ("k".toList = "3".toList) = False),
    (eq_false (by decide) : ("k".toList = "4".toList) = False),
    (eq_false (by decide) : ("k".toList = "5".toList) = False),
    (eq_false (by decide) : ("k".toList = "6".toList) = False),
    (eq_false (by decide) : ("k".toList = "7".toList) = False),
    (eq_true (by decide) : ("k".toList = "up".toList ∨ "k".toList = "k".toList) = True),
    if_false, if_true, true_or, or_true, hview, hf, hc, (by decide : ¬ ((1 : Int) = 0)),
      (by omega : (m.transactionsTable.rows.length : Int) > 0)]

theorem Update_down_transactions {V : Type} [LinearOrder V] [Zero V] [Add V] (L : Lib V) (m : model)
    (k : List Char) (hk : k = "down".toList ∨ k = "j".toList)
    (hview : m.currentView = statementsView) (hf : m.focusedTable = 1)
    (hc : m.transactionsTable.cursor = (m.transactionsTable.rows.length : Int) - 1)
    (hn : 1 ≤ m.transactionsTable.rows.length) :
    Update L m (Msg.KeyMsg k) =
      some ({ m with
        transactionsTable :=
          repeatUpdate L ((m.transactionsTable.rows.length : Int) - 1) keyUp
            m.transactionsTable }, Cmd.Nil) := by
  rcases hk with rfl | rfl
  · show updateKey L m "down".toList = _
    unfold updateKey
    simp only [
    (eq_false (by decide) : ("down".toList = "ctrl+c".toList ∨ "down".toList = "q".toList) = False),
    (eq_false (by decide) : ("down".toList = "tab".toList) = False),
    (eq_false (by decide) : ("down".toList = "left".toList ∨ "down".toList = "h".toList) = False),
    (eq_false (by decide) : ("down".toList = "right".toList ∨ "down".toList = "l".toList) = False),
    (eq_false (by decide) : ("down".toList = "s".toList) = False),
    (eq_false (by decide) : ("down".toList = "1".toList) = False),
    (eq_false (by decide) : ("down".toList = "2".toList) = False),
    (eq_false (by decide) : ("down".toList = "3".toList) = False),
    (eq_false (by decide) : ("down".toList = "4".toList) = False),
    (eq_false (by decide) : ("down".toList = "5".toList) = False),
    (eq_false (by decide) : ("down".toList = "6".toList) = False),
    (eq_false (by decide) : ("down".toList = "7".toList) = False),
    (eq_false (by decide) : ("down".toList = "up".toList ∨ "down".toList = "k".toList) = False),
    (eq_true (by decide) : ("down".toList = "down".toList ∨ "down".toList = "j".toList) = True),
    if_false, if_true, true_or, or_true, hview, hf, hc, (by decide : ¬ ((1 : Int) = 0)),
      (by omega : (m.transactionsTable.rows.length : Int) > 0), and_self]
  · show updateKey L m "j".toList = _
    unfold updateKey
    simp only [
    (eq_false (by decide) : ("j".toList = "ctrl+c".toList ∨ "j".toList = "q".toList) = False),
    (eq_false (by decide) : ("j".toList = "tab".toList) = False),
    (eq_false (by decide) : ("j".toList = "left".toList ∨ "j".toList = "h".toList) = False),
    (eq_false (by decide) : ("j".toList = "right".toList ∨ "j".toList = "l".toList) = False),
    (eq_false (by decide) : ("j".toList = "s".toList) = False),
    (eq_false (by decide) : ("j".toList = "1".toList) = False),
    (eq_false (by decide) : ("j".toList = "2".toList) = False),
    (eq_false (by decide) : ("j".toList = "3".toList) = False),
    (eq_false (by decide) : ("j".toList = "4".toList) = False),
    (eq_false (by decide) : ("j".toList = "5".toList) = False),
    (eq_false (by decide) : ("j".toList = "6".toList) = False),
    (eq_false (by decide) : ("j".toList = "7".toList) = False),
    (eq_false (by decide) : ("j".toList = "up".toList ∨ "j".toList = "k".toList) = False),
    (eq_true (by decide) : ("j".toList = "down".toList ∨ "j".toList = "j".toList) = True),
    if_false, if_true, true_or, or_true, hview, hf, hc, (by decide : ¬ ((1 : Int) = 0)),
      (by omega : (m.transactionsTable.rows.length : Int) > 0), and_self]

/-- C13: in the statements view, for the focused panel with `N ≥ 1` rows, an
"up" (or "k") key with the cursor on row 0 leaves the cursor on row `N - 1`,
and a "down" (or "j") key with the cursor on row `N - 1` leaves it on row 0;
for the statements panel, which has one row for each statement,
`selectedStmtIdx` is the same row afterwards.  Every printed amount has a
decimal point. -/
theorem Update_wrap_around {V : Type} [LinearOrder V] [Zero V] [Add V] (L : Lib V)
    (m : model) (hview : m.currentView = statementsView)
    (hdot : ∀ v, '.' ∈ L.Sprintf2f v) :
    (m.focusedTable = 0 → m.statementsTable.focus = true →
      m.statementsTable.rows.length = m.statements.length → 1 ≤ m.statements.length →
      (m.statementsTable.cursor = 0 →
        ∀ k, k = "up".toList ∨ k = "k".toList →
          ∃ m1 c, Update L m (Msg.KeyMsg k) = some (m1, c) ∧
            m1.statementsTable.cursor = (m.statementsTable.rows.length : Int) - 1 ∧
            m1.selectedStmtIdx = (m.statementsTable.rows.length : Int) - 1) ∧
      (m.statementsTable.cursor = (m.statementsTable.rows.length : Int) - 1 →
        ∀ k, k = "down".toList ∨ k = "j".toList →
          ∃ m1 c, Update L m (Msg.KeyMsg k) = some (m1, c) ∧
            m1.statementsTable.cursor = 0 ∧ m1.selectedStmtIdx = 0)) ∧
    (m.focusedTable = 1 → m.transactionsTable.focus = true →
      1 ≤ m.transactionsTable.rows.length →
      (m.transactionsTable.cursor = 0 →
        ∀ k, k = "up".toList ∨ k = "k".toList →
          ∃ m1 c, Update L m (Msg.KeyMsg k) = some (m1, c) ∧
            m1.transactionsTable.cursor = (m.transactionsTable.rows.length : Int) - 1) ∧
      (m.transactionsTable.cursor = (m.transactionsTable.rows.length : Int) - 1 →
        ∀ k, k = "down".toList ∨ k = "j".toList →
          ∃ m1 c, Update L m (Msg.KeyMsg k) = some (m1, c) ∧
            m1.transactionsTable.cursor = 0)) := by
  constructor
  · intro hf hfocus hrows hN
    have htoNat : (((m.statements.length : Int) - 1).toNat : Int) =
        (m.statements.length : Int) - 1 := by omega
    constructor
    · intro hc k hk
      rw [Update_up_statements L m k hk hview hf hc]
      unfold moveStatements repeatUpdate
      rw [iterate_keyDown L _ m.statementsTable hfocus (by omega) (by rw [hrows]; omega)]
      obtain ⟨m1, h1, _, _, _, hsel, _, _, htab, _⟩ := updateTransactionsTable_frame L
        { m with
          statementsTable :=
            { m.statementsTable with
              cursor := m.statementsTable.cursor + ((m.statements.length : Int) - 1).toNat }
          selectedStmtIdx :=
            m.statementsTable.cursor + ((m.statements.length : Int) - 1).toNat }
        (by simp only []; omega) (by simp only []; omega) hdot
      rw [h1]
      refine ⟨m1, Cmd.Nil, rfl, ?_, ?_⟩
      · rw [htab]
        simp only []
        omega
      · rw [hsel]
        simp only []
        omega
    · intro hc k hk
      rw [hrows] at hc
      rw [Update_down_statements L m k hk hview hf hc]
      unfold moveStatements repeatUpdate
      rw [iterate_keyUp L _ m.statementsTable hfocus (by omega) (by rw [hrows]; omega)]
      obtain ⟨m1, h1, _, _, _, hsel, _, _, htab, _⟩ := updateTransactionsTable_frame L
        { m with
          statementsTable :=
            { m.statementsTable with
              cursor := m.statementsTable.cursor - ((m.statements.length : Int) - 1).toNat }
          selectedStmtIdx :=
            m.statementsTable.cursor - ((m.statements.length : Int) - 1).toNat }
        (by simp only []; omega) (by simp only []; omega) hdot
      rw [h1]
      refine ⟨m1, Cmd.Nil, rfl, ?_, ?_⟩
      · rw [htab]
        simp only []
        omega
      · rw [hsel]
        simp only []
        omega
  · intro hf hfocus hN
    have htoNat : (((m.transactionsTable.rows.length : Int) - 1).toNat : Int) =
        (m.transactionsTable.rows.length : Int) - 1 := by omega
    constructor
    · intro hc k hk
      rw [Update_up_transactions L m k hk hview hf hc hN]
      unfold repeatUpdate
      rw [iterate_keyDown L _ m.transactionsTable hfocus (by omega) (by omega)]
      refine ⟨_, Cmd.Nil, rfl, ?_⟩
      simp only []
      omega
    · intro hc k hk
      rw [Update_down_transactions L m k hk hview hf hc hN]
      unfold repeatUpdate
      rw [iterate_keyUp L _ m.transactionsTable hfocus (by omega) (by omega)]
      refine ⟨_, Cmd.Nil, rfl, ?_⟩
      simp only []
      omega

/-- C13, at inputs: with three rows, "up" on row 0 of the statements panel
leaves the cursor and the selected statement on row 2, "down" on row 2 leaves
them on row 0, and likewise for the cursor of the transactions panel. -/
theorem Update_wrap_around_witness :
    (∃ m1 c, Update hundredthsLib (statementsPanelModel 0) (Msg.KeyMsg "up".toList) =
        some (m1, c) ∧
      m1.statementsTable.cursor = 2 ∧ m1.selectedStmtIdx = 2) ∧
    (Update hundredthsLib (statementsPanelModel 2) (Msg.KeyMsg "down".toList)).map
        (fun r => (r.1.statementsTable.cursor, r.1.selectedStmtIdx)) = some (0, 0) ∧
    (Update hundredthsLib (transactionsPanelModel 0) (Msg.KeyMsg "up".toList)).map
        (fun r => r.1.transactionsTable.cursor) = some 2 ∧
    (Update hundredthsLib (transactionsPanelModel 2) (Msg.KeyMsg "down".toList)).map
        (fun r => r.1.transactionsTable.cursor) = some 0 := by
  refine ⟨?_, by decide, by decide, by decide⟩
  obtain ⟨m1, c, h1, h2, h3⟩ :=
    ((Update_wrap_around hundredthsLib (statementsPanelModel 0) rfl hundredthsLib_dot).1
      rfl rfl rfl (by decide)).1 rfl "up".toList (Or.inl rfl)
  exact ⟨m1, c, h1, h2, h3⟩

/-! ## Frame of the enrichment, truncation -/

/-- C25: `CategorizeTransactions` changes nothing but the three derived
fields: there are as many statements afterwards, the statement at each place
is the one before with its transactions replaced, and it has as many
transactions, each at its place equal to the one before in every field other
than `NormalizedDescription`, `ApplePayCardLast4` and `Category`. -/
theorem CategorizeTransactions_frame (unicodeUpper : Char → Char)
    (statements : List Statement) :
    (CategorizeTransactions unicodeUpper statements).1.length = statements.length ∧
    ∀ (i : Nat) (stmt : Statement), statements[i]? = some stmt →
      ∃ stmt1, (CategorizeTransactions unicodeUpper statements).1[i]? = some stmt1 ∧
        { stmt1 with Transactions := stmt.Transactions } = stmt ∧
        stmt1.Transactions.length = stmt.Transactions.length ∧
        ∀ (j : Nat) (tx : Transaction), stmt.Transactions[j]? = some tx →
          ∃ tx1, stmt1.Transactions[j]? = some tx1 ∧
            { tx1 with
              NormalizedDescription := tx.NormalizedDescription
              ApplePayCardLast4 := tx.ApplePayCardLast4
              Category := tx.Category } = tx := by
  rw [CategorizeTransactions_eq]
  refine ⟨by simp, ?_⟩
  intro i stmt hi
  refine ⟨enrichStatement unicodeUpper stmt, by simp [List.getElem?_map, hi], rfl,
    by simp [enrichStatement], ?_⟩
  intro j tx hj
  refine ⟨enrichTransaction unicodeUpper tx, by simp [enrichStatement, List.getElem?_map, hj], ?_⟩
  rw [enrichTransaction_eq]

theorem utf8_dots : utf8 "...".toList = [46, 46, 46] := by decide

/-- C26: for `maxLen ≥ 3`, `truncate s maxLen` is `s` when `s` has at most
`maxLen` bytes, and otherwise the first `maxLen - 3` bytes of `s` followed by
"..."; it returns, and the result has at most `maxLen` bytes.  For
`maxLen < 3` and an `s` of more than `maxLen` bytes the slice bound is negative
and `truncate` panics. -/
theorem truncate_spec (s : List Char) (maxLen : Int) :
    (3 ≤ maxLen →
      ((len s : Int) ≤ maxLen → truncate s maxLen = some (utf8 s)) ∧
      (maxLen < (len s : Int) →
        truncate s maxLen =
          some ((utf8 s).take (maxLen - 3).toNat ++ utf8 "...".toList) ∧
        (((utf8 s).take (maxLen - 3).toNat).length : Int) = maxLen - 3) ∧
      (∃ r, truncate s maxLen = some r ∧ (r.length : Int) ≤ maxLen)) ∧
    (maxLen < 3 → maxLen < (len s : Int) → maxLen - 3 < 0 ∧ truncate s maxLen = none) := by
  have hlen : len s = (utf8 s).length := rfl
  refine ⟨fun h3 => ?_, fun h3 hlong => ?_⟩
  · have hshort : (len s : Int) ≤ maxLen → truncate s maxLen = some (utf8 s) := by
      intro h
      unfold truncate
      rw [if_pos h]
    have hlong : maxLen < (len s : Int) →
        truncate s maxLen = some ((utf8 s).take (maxLen - 3).toNat ++ utf8 "...".toList) ∧
        (((utf8 s).take (maxLen - 3).toNat).length : Int) = maxLen - 3 := by
      intro h
      constructor
      · unfold truncate
        rw [if_neg (by omega), if_neg (by omega)]
      · rw [List.length_take]
        rw [hlen] at h
        omega
    refine ⟨hshort, hlong, ?_⟩
    by_cases h : (len s : Int) ≤ maxLen
    · exact ⟨_, hshort h, by rw [← hlen]; exact h⟩
    · obtain ⟨h1, h2⟩ := hlong (by omega)
      refine ⟨_, h1, ?_⟩
      rw [List.length_append, utf8_dots]
      push_cast
      rw [h2]
      simp
  · refine ⟨by omega, ?_⟩
    unfold truncate
    rw [if_neg (by omega), if_pos (by omega)]

/-! ## What a message changes -/

/-- Whatever `updateTransactionsTable` returns differs from the model in the
transactions table alone. -/
theorem updateTransactionsTable_some_frame {V : Type} [LinearOrder V] [Zero V] [Add V]
    (L : Lib V) (m m1 : model) (h : updateTransactionsTable L m = some m1) :
    m1.statements = m.statements ∧ m1.categorized = m.categorized ∧
    m1.currentView = m.currentView ∧ m1.selectedStmtIdx = m.selectedStmtIdx ∧
    m1.sortBy = m.sortBy ∧ m1.categoryFilter = m.categoryFilter ∧
    m1.statementsTable = m.statementsTable ∧ m1.focusedTable = m.focusedTable ∧
    m1.width = m.width ∧ m1.height = m.height ∧ m1.ready = m.ready := by
  unfold updateTransactionsTable at h
  split_ifs at h with hg
  · cases h
    exact ⟨rfl, rfl, rfl, rfl, rfl, rfl, rfl, rfl, rfl, rfl, rfl⟩
  · split at h
    · exact absurd h (by simp)
    · simp only [] at h
      split at h
      · cases h
        exact ⟨rfl, rfl, rfl, rfl, rfl, rfl, rfl, rfl, rfl, rfl, rfl⟩
      · exact absurd h (by simp)

theorem transactionRows_some {V : Type} (L : Lib V) (showCategoryColumn : Bool)
    (txs : List Transaction) (rows : List (List (List Nat)))
    (h : transactionRows L showCategoryColumn txs = some rows) :
    List.Forall₂ (fun tx row => transactionRow L showCategoryColumn tx = some row)
      (txs.filter (fun tx => decide (tx.NormalizedDescription ≠ onlineBankingPayment))) rows := by
  induction txs generalizing rows with
  | nil =>
    unfold transactionRows at h
    cases h
    simp
  | cons tx rest ih =>
    unfold transactionRows at h
    by_cases hskip : tx.NormalizedDescription = onlineBankingPayment
    · rw [if_pos hskip] at h
      simpa [List.filter_cons, hskip] using ih rows h
    · rw [if_neg hskip] at h
      cases hrow : transactionRow L showCategoryColumn tx with
      | none => rw [hrow] at h; exact absurd h (by simp)
      | some row =>
        cases hrest : transactionRows L showCategoryColumn rest with
        | none => rw [hrow, hrest] at h; exact absurd h (by simp)
        | some rs =>
          rw [hrow, hrest] at h
          cases h
          simp only [List.filter_cons, hskip, ne_eq, not_false_eq_true, decide_True, if_true]
          exact List.Forall₂.cons hrow (ih rs hrest)

/-- What `updateTransactionsTable` returns for a selected statement, when it
returns: the transactions table is rebuilt from the rows of the shown
transactions and the rows of `foreignFeeRows`. -/
theorem updateTransactionsTable_some_rows {V : Type} [LinearOrder V] [Zero V] [Add V]
    (L : Lib V) (m m1 : model) (stmt : Statement)
    (hidx : index? m.statements m.selectedStmtIdx = some stmt)
    (h : updateTransactionsTable L m = some m1) :
    ∃ txRows feeRows,
      m1 = { m with
        transactionsTable :=
          ((m.transactionsTable.SetRows L []).SetColumns
            (txColumns (decide (m.categoryFilter = CategoryAll)))).SetRows L
              (txRows ++ feeRows) } ∧
      List.Forall₂
        (fun tx row => transactionRow L (decide (m.categoryFilter = CategoryAll)) tx = some row)
        (shownTransactions L m stmt) txRows ∧
      foreignFeeRows L m.categoryFilter (decide (m.categoryFilter = CategoryAll)) stmt
        (splitForeignFees L stmt.Transactions) = some feeRows := by
  have hlt := index?_lt m.statements m.selectedStmtIdx stmt hidx
  have hguard : ¬ (m.selectedStmtIdx ≥ (m.statements.length : Int)) := by omega
  unfold updateTransactionsTable at h
  rw [if_neg hguard, hidx] at h
  simp only [] at h
  cases hrows : transactionRows L (decide (m.categoryFilter = CategoryAll))
      (sortTransactions L m.sortBy
        (filterByCategory m.categoryFilter (splitForeignFees L stmt.Transactions).regularTxs)) with
  | none => rw [hrows] at h; exact absurd h (by simp)
  | some rows =>
    cases hfee : foreignFeeRows L m.categoryFilter (decide (m.categoryFilter = CategoryAll)) stmt
        (splitForeignFees L stmt.Transactions) with
    | none => rw [hrows, hfee] at h; exact absurd h (by simp)
    | some feeRows =>
      rw [hrows, hfee] at h
      simp only [Option.some.injEq] at h
      refine ⟨rows, feeRows, h.symm, ?_, rfl⟩
      have := transactionRows_some L _ _ rows hrows
      rw [splitForeignFees_regularTxs] at this
      exact this

/-- A call of `updateTransactionsTable` that returns below the index guard
has selected a statement. -/
theorem updateTransactionsTable_some_index {V : Type} [LinearOrder V] [Zero V] [Add V]
    (L : Lib V) (m m1 : model) (h : updateTransactionsTable L m = some m1)
    (hguard : ¬ (m.selectedStmtIdx ≥ (m.statements.length : Int))) :
    ∃ stmt, index? m.statements m.selectedStmtIdx = some stmt := by
  unfold updateTransactionsTable at h
  rw [if_neg hguard] at h
  cases hidx : index? m.statements m.selectedStmtIdx with
  | none => rw [hidx] at h; exact absurd h (by simp)
  | some stmt => exact ⟨stmt, rfl⟩

/-! ## Sorting, paging and jumping keys -/

theorem Update_s_statements {V : Type} [LinearOrder V] [Zero V] [Add V] (L : Lib V) (m : model)
    (hview : m.currentView = statementsView) :
    Update L m (Msg.KeyMsg "s".toList) =
      (updateTransactionsTable L { m with sortBy := Int.tmod (m.sortBy + 1) 4 }).map
        (fun m => (m, Cmd.Nil)) := by
  show updateKey L m "s".toList = _
  unfold updateKey
  simp only [
    (eq_false (by decide) : ("s".toList = "ctrl+c".toList ∨ "s".toList = "q".toList) = False),
    (eq_false (by decide) : ("s".toList = "tab".toList) = False),
    (eq_false (by decide) : ("s".toList = "left".toList ∨ "s".toList = "h".toList) = False),
    (eq_false (by decide) : ("s".toList = "right".toList ∨ "s".toList = "l".toList) = False),
    (eq_true (by decide) : ("s".toList = "s".toList) = True),
    if_false, if_true, true_or, or_true, hview]

theorem Update_s_other {V : Type} [LinearOrder V] [Zero V] [Add V] (L : Lib V) (m : model)
    (hview : ¬ (m.currentView = statementsView)) :
    Update L m (Msg.KeyMsg "s".toList) =
      some (m, Cmd.Nil) := by
  show updateKey L m "s".toList = _
  unfold updateKey
  simp only [
    (eq_false (by decide) : ("s".toList = "ctrl+c".toList ∨ "s".toList = "q".toList) = False),
    (eq_false (by decide) : ("s".toList = "tab".toList) = False),
    (eq_false (by decide) : ("s".toList = "left".toList ∨ "s".toList = "h".toList) = False),
    (eq_false (by decide) : ("s".toList = "right".toList ∨ "s".toList = "l".toList) = False),
    (eq_true (by decide) : ("s".toList = "s".toList) = True),
    if_false, if_true, true_or, or_true, hview]

theorem Update_home_statements {V : Type} [LinearOrder V] [Zero V] [Add V] (L : Lib V) (m : model)
    (hview : m.currentView = statementsView) (hf : m.focusedTable = 0) :
    Update L m (Msg.KeyMsg "home".toList) =
      moveStatements L m (repeatUpdate L m.statementsTable.cursor keyUp m.statementsTable) := by
  show updateKey L m "home".toList = _
  unfold updateKey
  simp only [
    (eq_false (by decide) : ("home".toList = "ctrl+c".toList ∨ "home".toList = "q".toList) = False),
    (eq_false (by decide) : ("home".toList = "tab".toList) = False),
    (eq_false (by decide) : ("home".toList = "left".toList ∨ "home".toList = "h".toList) = False),
    (eq_false (by decide) : ("home".toList = "right".toList ∨ "home".toList = "l".toList) = False),
    (eq_false (by decide) : ("home".toList = "s".toList) = False),
    (eq_false (by decide) : ("home".toList = "1".toList) = False),
    (eq_false (by decide) : ("home".toList = "2".toList) = False),
    (eq_false (by decide) : ("home".toList = "3".toList) = False),
    (eq_false (by decide) : ("home".toList = "4".toList) = False),
    (eq_false (by decide) : ("home".toList = "5".toList) = False),
    (eq_false (by decide) : ("home".toList = "6".toList) = False),
    (eq_false (by decide) : ("home".toList = "7".toList) = False),
    (eq_false (by decide) : ("home".toList = "up".toList ∨ "home".toList = "k".toList) = False),
    (eq_false (by decide) : ("home".toList = "down".toList ∨ "home".toList = "j".toList) = False),
    (eq_true (by decide) : ("home".toList = "home".toList) = True),
    if_false, if_true, true_or, or_true, hview, hf]

theorem Update_home_transactions {V : Type} [LinearOrder V] [Zero V] [Add V] (L : Lib V) (m : model)
    (hview : m.currentView = statementsView) (hf : m.focusedTable = 1) :
    Update L m (Msg.KeyMsg "home".toList) =
      some ({ m with
        transactionsTable :=
          repeatUpdate L m.transactionsTable.cursor keyUp m.transactionsTable }, Cmd.Nil) := by
  show updateKey L m "home".toList = _
  unfold updateKey
  simp only [
    (eq_false (by decide) : ("home".toList = "ctrl+c".toList ∨ "home".toList = "q".toList) = False),
    (eq_false (by decide) : ("home".toList = "tab".toList) = False),
    (eq_false (by decide) : ("home".toList = "left".toList ∨ "home".toList = "h".toList) = False),
    (eq_false (by decide) : ("home".toList = "right".toList ∨ "home".toList = "l".toList) = False),
    (eq_false (by decide) : ("home".toList = "s".toList) = False),
    (eq_false (by decide) : ("home".toList = "1".toList) = False),
    (eq_false (by decide) : ("home".toList = "2".toList) = False),
    (eq_false (by decide) : ("home".toList = "3".toList) = False),
    (eq_false (by decide) : ("home".toList = "4".toList) = False),
    (eq_false (by decide) : ("home".toList = "5".toList) = False),
    (eq_false (by decide) : ("home".toList = "6".toList) = False),
    (eq_false (by decide) : ("home".toList = "7".toList) = False),
    (eq_false (by decide) : ("home".toList = "up".toList ∨ "home".toList = "k".toList) = False),
    (eq_false (by decide) : ("home".toList = "down".toList ∨ "home".toList = "j".toList) = False),
    (eq_true (by decide) : ("home".toList = "home".toList) = True),
    if_false, if_true, true_or, or_true, hview, hf, (by decide : ¬ ((1 : Int) = 0))]

theorem Update_end_statements {V : Type} [LinearOrder V] [Zero V] [Add V] (L : Lib V) (m : model)
    (hview : m.currentView = statementsView) (hf : m.focusedTable = 0) :
    Update L m (Msg.KeyMsg "end".toList) =
      moveStatements L m
        (repeatUpdate L ((m.statements.length : Int) - 1 - m.statementsTable.cursor) keyDown
          m.statementsTable) := by
  show updateKey L m "end".toList = _
  unfold updateKey
  simp only [
    (eq_false (by decide) : ("end".toList = "ctrl+c".toList ∨ "end".toList = "q".toList) = False),
    (eq_false (by decide) : ("end".toList = "tab".toList) = False),
    (eq_false (by decide) : ("end".toList = "left".toList ∨ "end".toList = "h".toList) = False),
    (eq_false (by decide) : ("end".toList = "right".toList ∨ "end".toList = "l".toList) = False),
    (eq_false (by decide) : ("end".toList = "s".toList) = False),
    (eq_false (by decide) : ("end".toList = "1".toList) = False),
    (eq_false (by decide) : ("end".toList = "2".toList) = False),
    (eq_false (by decide) : ("end".toList = "3".toList) = False),
    (eq_false (by decide) : ("end".toList = "4".toList) = False),
    (eq_false (by decide) : ("end".toList = "5".toList) = False),
    (eq_false (by decide) : ("end".toList = "6".toList) = False),
    (eq_false (by decide) : ("end".toList = "7".toList) = False),
    (eq_false (by decide) : ("end".toList = "up".toList ∨ "end".toList = "k".toList) = False),
    (eq_false (by decide) : ("end".toList = "down".toList ∨ "end".toList = "j".toList) = False),
    (eq_false (by decide) : ("end".toList = "home".toList) = False),
    (eq_true (by decide) : ("end".toList = "end".toList) = True),
    if_false, if_true, true_or, or_true, hview, hf]

theorem Update_end_transactions {V : Type} [LinearOrder V] [Zero V] [Add V] (L : Lib V) (m : model)
    (hview : m.currentView = statementsView) (hf : m.focusedTable = 1) :
    Update L m (Msg.KeyMsg "end".toList) =
      some ({ m with
        transactionsTable :=
          repeatUpdate L ((m.transactionsTable.rows.length : Int) - 1 - m.transactionsTable.cursor)
            keyDown m.transactionsTable }, Cmd.Nil) := by
  show updateKey L m "end".toList = _
  unfold updateKey
  simp only [
    (eq_false (by decide) : ("end".toList = "ctrl+c".toList ∨ "end".toList = "q".toList) = False),
    (eq_false (by decide) : ("end".toList = "tab".toList) = False),
    (eq_false (by decide) : ("end".toList = "left".toList ∨ "end".toList = "h".toList) = False),
    (eq_false (by decide) : ("end".toList = "right".toList ∨ "end".toList = "l".toList) = False),
    (eq_false (by decide) : ("end".toList = "s".toList) = False),
    (eq_false (by decide) : ("end".toList = "1".toList) = False),
    (eq_false (by decide) : ("end".toList = "2".toList) = False),
    (eq_false (by decide) : ("end".toList = "3".toList) = False),
    (eq_false (by decide) : ("end".toList = "4".toList) = False),
    (eq_false (by decide) : ("end".toList = "5".toList) = False),
    (eq_false (by decide) : ("end".toList = "6".toList) = False),
    (eq_false (by decide) : ("end".toList = "7".toList) = False),
    (eq_false (by decide) : ("end".toList = "up".toList ∨ "end".toList = "k".toList) = False),
    (eq_false (by decide) : ("end".toList = "down".toList ∨ "end".toList = "j".toList) = False),
    (eq_false (by decide) : ("end".toList = "home".toList) = False),
    (eq_true (by decide) : ("end".toList = "end".toList) = True),
    if_false, if_true, true_or, or_true, hview, hf, (by decide : ¬ ((1 : Int) = 0))]

theorem Update_pgup_statements {V : Type} [LinearOrder V] [Zero V] [Add V] (L : Lib V) (m : model)
    (hview : m.currentView = statementsView) (hf : m.focusedTable = 0) :
    Update L m (Msg.KeyMsg "pgup".toList) =
      moveStatements L m
        (repeatUpdate L (if m.statementsTable.cursor < 10 then m.statementsTable.cursor else 10)
          keyUp m.statementsTable) := by
  show updateKey L m "pgup".toList = _
  unfold updateKey
  simp only [
    (eq_false (by decide) : ("pgup".toList = "ctrl+c".toList ∨ "pgup".toList = "q".toList) = False),
    (eq_false (by decide) : ("pgup".toList = "tab".toList) = False),
    (eq_false (by decide) : ("pgup".toList = "left".toList ∨ "pgup".toList = "h".toList) = False),
    (eq_false (by decide) : ("pgup".toList = "right".toList ∨ "pgup".toList = "l".toList) = False),
    (eq_false (by decide) : ("pgup".toList = "s".toList) = False),
    (eq_false (by decide) : ("pgup".toList = "1".toList) = False),
    (eq_false (by decide) : ("pgup".toList = "2".toList) = False),
    (eq_false (by decide) : ("pgup".toList = "3".toList) = False),
    (eq_false (by decide) : ("pgup".toList = "4".toList) = False),
    (eq_false (by decide) : ("pgup".toList = "5".toList) = False),
    (eq_false (by decide) : ("pgup".toList = "6".toList) = False),
    (eq_false (by decide) : ("pgup".toList = "7".toList) = False),
    (eq_false (by decide) : ("pgup".toList = "up".toList ∨ "pgup".toList = "k".toList) = False),
    (eq_false (by decide) : ("pgup".toList = "down".toList ∨ "pgup".toList = "j".toList) = False),
    (eq_false (by decide) : ("pgup".toList = "home".toList) = False),
    (eq_false (by decide) : ("pgup".toList = "end".toList) = False),
    (eq_true (by decide) : ("pgup".toList = "pgup".toList) = True),
    if_false, if_true, true_or, or_true, hview, hf]

theorem Update_pgup_transactions {V : Type} [LinearOrder V] [Zero V] [Add V] (L : Lib V) (m : model)
    (hview : m.currentView = statementsView) (hf : m.focusedTable = 1) :
    Update L m (Msg.KeyMsg "pgup".toList) =
      some ({ m with
        transactionsTable :=
          repeatUpdate L
            (if m.transactionsTable.cursor < 10 then m.transactionsTable.cursor else 10)
            keyUp m.transactionsTable }, Cmd.Nil) := by
  show updateKey L m "pgup".toList = _
  unfold updateKey
  simp only [
    (eq_false (by decide) : ("pgup".toList = "ctrl+c".toList ∨ "pgup".toList = "q".toList) = False),
    (eq_false (by decide) : ("pgup".toList = "tab".toList) = False),
    (eq_false (by decide) : ("pgup".toList = "left".toList ∨ "pgup".toList = "h".toList) = False),
    (eq_false (by decide) : ("pgup".toList = "right".toList ∨ "pgup".toList = "l".toList) = False),
    (eq_false (by decide) : ("pgup".toList = "s".toList) = False),
    (eq_false (by decide) : ("pgup".toList = "1".toList) = False),
    (eq_false (by decide) : ("pgup".toList = "2".toList) = False),
    (eq_false (by decide) : ("pgup".toList = "3".toList) = False),
    (eq_false (by decide) : ("pgup".toList = "4".toList) = False),
    (eq_false (by decide) : ("pgup".toList = "5".toList) = False),
    (eq_false (by decide) : ("pgup".toList = "6".toList) = False),
    (eq_false (by decide) : ("pgup".toList = "7".toList) = False),
    (eq_false (by decide) : ("pgup".toList = "up".toList ∨ "pgup".toList = "k".toList) = False),
    (eq_false (by decide) : ("pgup".toList = "down".toList ∨ "pgup".toList = "j".toList) = False),
    (eq_false (by decide) : ("pgup".toList = "home".toList) = False),
    (eq_false (by decide) : ("pgup".toList = "end".toList) = False),
    (eq_true (by decide) : ("pgup".toList = "pgup".toList) = True),
    if_false, if_true, true_or, or_true, hview, hf, (by decide : ¬ ((1 : Int) = 0))]

theorem Update_pgdown_statements {V : Type} [LinearOrder V] [Zero V] [Add V] (L : Lib V) (m : model)
    (hview : m.currentView = statementsView) (hf : m.focusedTable = 0) :
    Update L m (Msg.KeyMsg "pgdown".toList) =
      moveStatements L m
        (repeatUpdate L
          (if (m.statements.length : Int) - 1 - m.statementsTable.cursor < 10 then
            (m.statements.length : Int) - 1 - m.statementsTable.cursor else 10)
          keyDown m.statementsTable) := by
  show updateKey L m "pgdown".toList = _
  unfold updateKey
  simp only [
    (eq_false (by decide) : ("pgdown".toList = "ctrl+c".toList ∨ "pgdown".toList = "q".toList) = False),
    (eq_false (by decide) : ("pgdown".toList = "tab".toList) = False),
    (eq_false (by decide) : ("pgdown".toList = "left".toList ∨ "pgdown".toList = "h".toList) = False),
    (eq_false (by decide) : ("pgdown".toList = "right".toList ∨ "pgdown".toList = "l".toList) = False),
    (eq_false (by decide) : ("pgdown".toList = "s".toList) = False),
    (eq_false (by decide) : ("pgdown".toList = "1".toList) = False),
    (eq_false (by decide) : ("pgdown".toList = "2".toList) = False),
    (eq_false (by decide) : ("pgdown".toList = "3".toList) = False),
    (eq_false (by decide) : ("pgdown".toList = "4".toList) = False),
    (eq_false (by decide) : ("pgdown".toList = "5".toList) = False),
    (eq_false (by decide) : ("pgdown".toList = "6".toList) = False),
    (eq_false (by decide) : ("pgdown".toList = "7".toList) = False),
    (eq_false (by decide) : ("pgdown".toList = "up".toList ∨ "pgdown".toList = "k".toList) = False),
    (eq_false (by decide) : ("pgdown".toList = "down".toList ∨ "pgdown".toList = "j".toList) = False),
    (eq_false (by decide) : ("pgdown".toList = "home".toList) = False),
    (eq_false (by decide) : ("pgdown".toList = "end".toList) = False),
    (eq_false (by decide) : ("pgdown".toList = "pgup".toList) = False),
    (eq_true (by decide) : ("pgdown".toList = "pgdown".toList) = True),
    if_false, if_true, true_or, or_true, hview, hf]

theorem Update_pgdown_transactions {V : Type} [LinearOrder V] [Zero V] [Add V] (L : Lib V) (m : model)
    (hview : m.currentView = statementsView) (hf : m.focusedTable = 1) :
    Update L m (Msg.KeyMsg "pgdown".toList) =
      some ({ m with
        transactionsTable :=
          repeatUpdate L
            (if (m.transactionsTable.rows.length : Int) - 1 - m.transactionsTable.cursor < 10 then
              (m.transactionsTable.rows.length : Int) - 1 - m.transactionsTable.cursor else 10)
            keyDown m.transactionsTable }, Cmd.Nil) := by
  show updateKey L m "pgdown".toList = _
  unfold updateKey
  simp only [
    (eq_false (by decide) : ("pgdown".toList = "ctrl+c".toList ∨ "pgdown".toList = "q".toList) = False),
    (eq_false (by decide) : ("pgdown".toList = "tab".toList) = False),
    (eq_false (by decide) : ("pgdown".toList = "left".toList ∨ "pgdown".toList = "h".toList) = False),
    (eq_false (by decide) : ("pgdown".toList = "right".toList ∨ "pgdown".toList = "l".toList) = False),
    (eq_false (by decide) : ("pgdown".toList = "s".toList) = False),
    (eq_false (by decide) : ("pgdown".toList = "1".toList) = False),
    (eq_false (by decide) : ("pgdown".toList = "2".toList) = False),
    (eq_false (by decide) : ("pgdown".toList = "3".toList) = False),
    (eq_false (by decide) : ("pgdown".toList = "4".toList) = False),
    (eq_false (by decide) : ("pgdown".toList = "5".toList) = False),
    (eq_false (by decide) : ("pgdown".toList = "6".toList) = False),
    (eq_false (by decide) : ("pgdown".toList = "7".toList) = False),
    (eq_false (by decide) : ("pgdown".toList = "up".toList ∨ "pgdown".toList = "k".toList) = False),
    (eq_false (by decide) : ("pgdown".toList = "down".toList ∨ "pgdown".toList = "j".toList) = False),
    (eq_false (by decide) : ("pgdown".toList = "home".toList) = False),
    (eq_false (by decide) : ("pgdown".toList = "end".toList) = False),
    (eq_false (by decide) : ("pgdown".toList = "pgup".toList) = False),
    (eq_true (by decide) : ("pgdown".toList = "pgdown".toList) = True),
    if_false, if_true, true_or, or_true, hview, hf, (by decide : ¬ ((1 : Int) = 0))]

/-! ## One message -/

theorem tableMoved_refl (t : TableModel) : tableMoved t t := ⟨rfl, Or.inl rfl⟩

theorem tableMoved_trans (t t1 t2 : TableModel) (h1 : tableMoved t t1)
    (h2 : tableMoved t1 t2) : tableMoved t t2 := by
  obtain ⟨hr1, hc1⟩ := h1
  obtain ⟨hr2, hc2⟩ := h2
  refine ⟨hr2.trans hr1, ?_⟩
  rcases hc2 with hc2 | ⟨x, hx⟩
  · rw [hc2]
    exact hc1
  · rw [hr1] at hx
    exact Or.inr ⟨x, hx⟩

theorem tableMoved_MoveUp (t : TableModel) (n : Int) : tableMoved t (t.MoveUp n) :=
  ⟨rfl, Or.inr ⟨_, rfl⟩⟩

theorem tableMoved_MoveDown (t : TableModel) (n : Int) : tableMoved t (t.MoveDown n) :=
  ⟨rfl, Or.inr ⟨_, rfl⟩⟩

/-- The widget's `Update` moves the selection of the table. -/
theorem tableMoved_Update {V : Type} (L : Lib V) (t : TableModel) (msg : Msg) :
    tableMoved t (t.Update L msg) := by
  unfold TableModel.Update
  split_ifs
  · exact tableMoved_refl t
  · cases msg with
    | WindowSizeMsg w h => exact tableMoved_refl t
    | Other => exact tableMoved_refl t
    | KeyMsg k =>
      simp only []
      unfold TableModel.GotoTop TableModel.GotoBottom
      split_ifs <;>
        first
        | with_reducible exact tableMoved_MoveUp t _
        | with_reducible exact tableMoved_MoveDown t _
        | with_reducible exact tableMoved_refl t

theorem tableMoved_repeatUpdate {V : Type} (L : Lib V) (n : Int) (msg : Msg) (t : TableModel) :
    tableMoved t (repeatUpdate L n msg t) := by
  unfold repeatUpdate
  induction n.toNat with
  | zero => exact tableMoved_refl t
  | succ k ih =>
    rw [Function.iterate_succ_apply']
    exact tableMoved_trans _ _ _ ih (tableMoved_Update L _ msg)

/-- A model returned as it is, with the statements, the sort mode, the rows and
cursor of the statements table and the selected statement of the model before. -/
theorem stepped_of_same {V : Type} [LinearOrder V] [Zero V] [Add V] (L : Lib V)
    (m m1 : model) (hs : m1.statements = m.statements) (hcz : m1.categorized = m.categorized)
    (hsort : m1.sortBy = m.sortBy) (hrows : m1.statementsTable.rows = m.statementsTable.rows)
    (hc : m1.statementsTable.cursor = m.statementsTable.cursor)
    (hsel : m1.selectedStmtIdx = m.selectedStmtIdx) : stepped L m m1 :=
  ⟨hs, hcz, Or.inl hsort, ⟨hrows, Or.inl hc⟩, Or.inl ⟨hc, hsel⟩⟩

/-- A rebuild of the transactions table that leaves the statements table and
the selected statement as they are. -/
theorem stepped_of_rebuild {V : Type} [LinearOrder V] [Zero V] [Add V] (L : Lib V)
    (m m0 m1 : model) (c : Cmd)
    (h : (updateTransactionsTable L m0).map (fun m => (m, Cmd.Nil)) = some (m1, c))
    (hs : m0.statements = m.statements) (hcz : m0.categorized = m.categorized)
    (hsort : m0.sortBy = m.sortBy ∨ m0.sortBy = Int.tmod (m.sortBy + 1) 4)
    (htab : m0.statementsTable = m.statementsTable)
    (hsel : m0.selectedStmtIdx = m.selectedStmtIdx) : stepped L m m1 := by
  cases hupd : updateTransactionsTable L m0 with
  | none => rw [hupd] at h; exact absurd h (by simp)
  | some m2 =>
    rw [hupd] at h
    simp only [Option.map_some', Option.some.injEq, Prod.mk.injEq] at h
    obtain ⟨rfl, _⟩ := h
    obtain ⟨h1, h2, _, h4, h5, _, h7, _⟩ := updateTransactionsTable_some_frame L m0 m2 hupd
    refine ⟨h1.trans hs, h2.trans hcz, ?_, ?_, Or.inl ⟨?_, h4.trans hsel⟩⟩
    · rw [h5]
      exact hsort
    · rw [h7, htab]
      exact tableMoved_refl _
    · rw [h7, htab]

/-- A navigation key on the statements table. -/
theorem stepped_moveStatements {V : Type} [LinearOrder V] [Zero V] [Add V] (L : Lib V)
    (m m1 : model) (c : Cmd) (t : TableModel) (ht : tableMoved m.statementsTable t)
    (h : moveStatements L m t = some (m1, c)) : stepped L m m1 := by
  unfold moveStatements at h
  cases hupd : updateTransactionsTable L
      { m with statementsTable := t, selectedStmtIdx := t.cursor } with
  | none => rw [hupd] at h; exact absurd h (by simp)
  | some m2 =>
    rw [hupd] at h
    simp only [Option.map_some', Option.some.injEq, Prod.mk.injEq] at h
    obtain ⟨rfl, _⟩ := h
    obtain ⟨h1, h2, _, h4, h5, _, h7, _⟩ := updateTransactionsTable_some_frame L _ m2 hupd
    have h7 : m2.statementsTable = t := h7
    have h4 : m2.selectedStmtIdx = t.cursor := h4
    refine ⟨h1, h2, Or.inl h5, ?_, Or.inr ⟨?_, ?_⟩⟩
    · rw [h7]
      exact ht
    · rw [h7, h4]
    · rw [h7]
      exact hupd

/-- The end of `Update`, below the key switch. -/
theorem stepped_updateTables {V : Type} [LinearOrder V] [Zero V] [Add V] (L : Lib V)
    (m m1 : model) (c : Cmd) (msg : Msg) (h : updateTables L m msg = some (m1, c)) :
    stepped L m m1 := by
  unfold updateTables at h
  simp only [] at h
  split_ifs at h with hview hf hc
  · exact stepped_moveStatements L m m1 c _ (tableMoved_Update L m.statementsTable msg) h
  · simp only [Option.some.injEq, Prod.mk.injEq] at h
    obtain ⟨rfl, _⟩ := h
    simp only [ne_eq, not_not] at hc
    exact ⟨rfl, rfl, Or.inl rfl, tableMoved_Update L m.statementsTable msg, Or.inl ⟨hc, rfl⟩⟩
  · simp only [Option.some.injEq, Prod.mk.injEq] at h
    obtain ⟨rfl, _⟩ := h
    exact stepped_of_same L m _ rfl rfl rfl rfl rfl rfl
  · simp only [Option.some.injEq, Prod.mk.injEq] at h
    obtain ⟨rfl, _⟩ := h
    exact stepped_of_same L m _ rfl rfl rfl rfl rfl rfl

/-- A filter key. -/
theorem stepped_setFilter {V : Type} [LinearOrder V] [Zero V] [Add V] (L : Lib V)
    (m m1 : model) (c : Cmd) (category : List Char)
    (h : setFilter L m category = some (m1, c)) : stepped L m m1 := by
  unfold setFilter at h
  split_ifs at h
  · exact stepped_of_rebuild L m _ m1 c h rfl rfl (Or.inl rfl) rfl rfl
  · simp only [Option.some.injEq, Prod.mk.injEq] at h
    obtain ⟨rfl, _⟩ := h
    exact stepped_of_same L m _ rfl rfl rfl rfl rfl rfl

/-- A model returned by the key switch without a rebuild. -/
theorem stepped_of_some {V : Type} [LinearOrder V] [Zero V] [Add V] (L : Lib V)
    (m m0 m1 : model) (c0 c : Cmd) (h : some (m0, c0) = some (m1, c))
    (hs : m0.statements = m.statements) (hcz : m0.categorized = m.categorized)
    (hsort : m0.sortBy = m.sortBy) (hrows : m0.statementsTable.rows = m.statementsTable.rows)
    (hc : m0.statementsTable.cursor = m.statementsTable.cursor)
    (hsel : m0.selectedStmtIdx = m.selectedStmtIdx) : stepped L m m1 := by
  simp only [Option.some.injEq, Prod.mk.injEq] at h
  obtain ⟨rfl, _⟩ := h
  exact stepped_of_same L m _ hs hcz hsort hrows hc hsel

/-- The case `tea.KeyMsg` of `Update`. -/
theorem stepped_updateKey {V : Type} [LinearOrder V] [Zero V] [Add V] (L : Lib V)
    (m m1 : model) (c : Cmd) (k : List Char) (h : updateKey L m k = some (m1, c)) :
    stepped L m m1 := by
  unfold updateKey at h
  by_cases c0 : k = "ctrl+c".toList ∨ k = "q".toList
  · rw [if_pos c0] at h
    exact stepped_of_some L m _ m1 _ c h rfl rfl rfl rfl rfl rfl
  rw [if_neg c0] at h
  by_cases c1 : k = "tab".toList
  · rw [if_pos c1] at h
    split_ifs at h
    all_goals exact stepped_of_some L m _ m1 _ c h rfl rfl rfl rfl rfl rfl
  rw [if_neg c1] at h
  by_cases c2 : k = "left".toList ∨ k = "h".toList
  · rw [if_pos c2] at h
    split_ifs at h
    all_goals
      first
      | exact stepped_updateTables L m m1 c _ h
      | exact stepped_of_some L m _ m1 _ c h rfl rfl rfl rfl rfl rfl
  rw [if_neg c2] at h
  by_cases c3 : k = "right".toList ∨ k = "l".toList
  · rw [if_pos c3] at h
    split_ifs at h
    all_goals
      first
      | exact stepped_updateTables L m m1 c _ h
      | exact stepped_of_some L m _ m1 _ c h rfl rfl rfl rfl rfl rfl
  rw [if_neg c3] at h
  by_cases c4 : k = "s".toList
  · rw [if_pos c4] at h
    split_ifs at h
    all_goals
      first
      | exact stepped_of_rebuild L m _ m1 c h rfl rfl (Or.inr rfl) rfl rfl
      | exact stepped_of_some L m _ m1 _ c h rfl rfl rfl rfl rfl rfl
  rw [if_neg c4] at h
  by_cases c5 : k = "1".toList
  · rw [if_pos c5] at h
    exact stepped_setFilter L m m1 c _ h
  rw [if_neg c5] at h
  by_cases c6 : k = "2".toList
  · rw [if_pos c6] at h
    exact stepped_setFilter L m m1 c _ h
  rw [if_neg c6] at h
  by_cases c7 : k = "3".toList
  · rw [if_pos c7] at h
    exact stepped_setFilter L m m1 c _ h
  rw [if_neg c7] at h
  by_cases c8 : k = "4".toList
  · rw [if_pos c8] at h
    exact stepped_setFilter L m m1 c _ h
  rw [if_neg c8] at h
  by_cases c9 : k = "5".toList
  · rw [if_pos c9] at h
    exact stepped_setFilter L m m1 c _ h
  rw [if_neg c9] at h
  by_cases c10 : k = "6".toList
  · rw [if_pos c10] at h
    exact stepped_setFilter L m m1 c _ h
  rw [if_neg c10] at h
  by_cases c11 : k = "7".toList
  · rw [if_pos c11] at h
    exact stepped_setFilter L m m1 c _ h
  rw [if_neg c11] at h
  by_cases c12 : k = "up".toList ∨ k = "k".toList
  · rw [if_pos c12] at h
    simp only [] at h
    split_ifs at h
    all_goals
      first
      | exact stepped_moveStatements L m m1 c _ (tableMoved_repeatUpdate L _ _ _) h
      | exact stepped_updateTables L m m1 c _ h
      | exact stepped_of_some L m _ m1 _ c h rfl rfl rfl rfl rfl rfl
  rw [if_neg c12] at h
  by_cases c13 : k = "down".toList ∨ k = "j".toList
  · rw [if_pos c13] at h
    simp only [] at h
    split_ifs at h
    all_goals
      first
      | exact stepped_moveStatements L m m1 c _ (tableMoved_repeatUpdate L _ _ _) h
      | exact stepped_updateTables L m m1 c _ h
      | exact stepped_of_some L m _ m1 _ c h rfl rfl rfl rfl rfl rfl
  rw [if_neg c13] at h
  by_cases c14 : k = "home".toList
  · rw [if_pos c14] at h
    split_ifs at h
    all_goals
      first
      | exact stepped_moveStatements L m m1 c _ (tableMoved_repeatUpdate L _ _ _) h
      | exact stepped_updateTables L m m1 c _ h
      | exact stepped_of_some L m _ m1 _ c h rfl rfl rfl rfl rfl rfl
  rw [if_neg c14] at h
  by_cases c15 : k = "end".toList
  · rw [if_pos c15] at h
    simp only [] at h
    split_ifs at h
    all_goals
      first
      | exact stepped_moveStatements L m m1 c _ (tableMoved_repeatUpdate L _ _ _) h
      | exact stepped_updateTables L m m1 c _ h
      | exact stepped_of_some L m _ m1 _ c h rfl rfl rfl rfl rfl rfl
  rw [if_neg c15] at h
  by_cases c16 : k = "pgup".toList
  · rw [if_pos c16] at h
    simp only [] at h
    split_ifs at h
    all_goals
      first
      | exact stepped_moveStatements L m m1 c _ (tableMoved_repeatUpdate L _ _ _) h
      | exact stepped_updateTables L m m1 c _ h
      | exact stepped_of_some L m _ m1 _ c h rfl rfl rfl rfl rfl rfl
  rw [if_neg c16] at h
  by_cases c17 : k = "pgdown".toList
  · rw [if_pos c17] at h
    simp only [] at h
    split_ifs at h
    all_goals
      first
      | exact stepped_moveStatements L m m1 c _ (tableMoved_repeatUpdate L _ _ _) h
      | exact stepped_updateTables L m m1 c _ h
      | exact stepped_of_some L m _ m1 _ c h rfl rfl rfl rfl rfl rfl
  rw [if_neg c17] at h
  exact stepped_updateTables L m m1 c _ h

/-- What `Update` returns is a step from the model. -/
theorem stepped_Update {V : Type} [LinearOrder V] [Zero V] [Add V] (L : Lib V)
    (m m1 : model) (c : Cmd) (msg : Msg) (h : Update L m msg = some (m1, c)) :
    stepped L m m1 := by
  cases msg with
  | WindowSizeMsg w ht => exact stepped_of_some L m _ m1 _ c h rfl rfl rfl rfl rfl rfl
  | KeyMsg k => exact stepped_updateKey L m m1 c k h
  | Other => exact stepped_updateTables L m m1 c _ h

/-! ## Reachable states -/

theorem statementRows_length {V : Type} (L : Lib V) (statements : List Statement)
    (rows : List (List (List Nat))) (h : statementRows L statements = some rows) :
    rows.length = statements.length := by
  induction statements generalizing rows with
  | nil =>
    unfold statementRows at h
    cases h
    rfl
  | cons stmt rest ih =>
    unfold statementRows at h
    cases hamt : formatAmountString L stmt.CurTotAmt with
    | none => rw [hamt] at h; exact absurd h (by simp)
    | some formattedAmt =>
      cases hrest : statementRows L rest with
      | none => rw [hamt, hrest] at h; exact absurd h (by simp)
      | some rs =>
        rw [hamt, hrest] at h
        cases h
        simp only [List.length_cons, ih rs hrest]

/-- The model `initialModel` returns: the statements are those given, the
statements table has one row for each, its cursor and the selected statement
are on the first row and the rows are sorted by date. -/
theorem initialModel_some {V : Type} [LinearOrder V] [Zero V] [Add V] (L : Lib V)
    (statements : List Statement) (categorized : CategorizedTransactions) (m : model)
    (h : initialModel L statements categorized = some m) :
    m.statements = statements ∧ m.statementsTable.rows.length = statements.length ∧
    m.statementsTable.cursor = 0 ∧ m.selectedStmtIdx = 0 ∧ m.sortBy = sortByDate := by
  unfold initialModel at h
  cases hrows : statementRows L statements with
  | none => rw [hrows] at h; exact absurd h (by simp)
  | some stmtRows =>
    rw [hrows] at h
    simp only [] at h
    have hlen := statementRows_length L statements stmtRows hrows
    split_ifs at h
    · obtain ⟨h1, _, _, h4, h5, _, h7, _⟩ := updateTransactionsTable_some_frame L _ m h
      rw [h1, h7, h4, h5]
      exact ⟨rfl, hlen, rfl, rfl, rfl⟩
    · cases h
      exact ⟨rfl, hlen, rfl, rfl, rfl⟩

theorem clamp_range (x : Int) (n : Nat) (hn : 1 ≤ n) :
    0 ≤ clamp x 0 ((n : Int) - 1) ∧ clamp x 0 ((n : Int) - 1) ≤ (n : Int) - 1 := by
  unfold clamp
  constructor
  · exact le_min (le_max_right _ _) (by omega)
  · exact min_le_right _ _

/-- One step keeps the statements table on the statements and the selected
statement on its cursor. -/
theorem stepped_selected {V : Type} [LinearOrder V] [Zero V] [Add V] (L : Lib V)
    (m m1 : model) (h : stepped L m m1) (hne : 1 ≤ m.statements.length)
    (hrows : m.statementsTable.rows.length = m.statements.length)
    (hc0 : 0 ≤ m.statementsTable.cursor)
    (hc1 : m.statementsTable.cursor ≤ (m.statements.length : Int) - 1)
    (hsel : m.selectedStmtIdx = m.statementsTable.cursor) :
    m1.statements = m.statements ∧
    m1.statementsTable.rows.length = m1.statements.length ∧
    0 ≤ m1.statementsTable.cursor ∧
    m1.statementsTable.cursor ≤ (m1.statements.length : Int) - 1 ∧
    m1.selectedStmtIdx = m1.statementsTable.cursor := by
  obtain ⟨hs, _, _, ⟨hr, hcur⟩, hcase⟩ := h
  have hrange : 0 ≤ m1.statementsTable.cursor ∧
      m1.statementsTable.cursor ≤ (m.statements.length : Int) - 1 := by
    rcases hcur with hcur | ⟨x, hx⟩
    · rw [hcur]
      exact ⟨hc0, hc1⟩
    · rw [hx, hrows]
      exact clamp_range x _ hne
  refine ⟨hs, by rw [hr, hs, hrows], hrange.1, by rw [hs]; exact hrange.2, ?_⟩
  rcases hcase with ⟨hsame, hselsame⟩ | ⟨hfollow, _⟩
  · rw [hselsame, hsame, hsel]
  · exact hfollow

/-- One step keeps the sort mode one of the four. -/
theorem stepped_sortBy {V : Type} [LinearOrder V] [Zero V] [Add V] (L : Lib V)
    (m m1 : model) (h : stepped L m m1)
    (hsort : m.sortBy = sortByDate ∨ m.sortBy = sortByAmount ∨ m.sortBy = sortByLocation ∨
      m.sortBy = sortByCategory) :
    m1.sortBy = sortByDate ∨ m1.sortBy = sortByAmount ∨ m1.sortBy = sortByLocation ∨
      m1.sortBy = sortByCategory := by
  obtain ⟨_, _, hstep, _⟩ := h
  rcases hstep with hstep | hstep
  · rw [hstep]
    exact hsort
  · rw [hstep]
    unfold sortByDate sortByAmount sortByLocation sortByCategory at *
    rcases hsort with h | h | h | h <;> rw [h] <;> decide

/-- One step keeps the selected index from being negative: a negative index
makes `updateTransactionsTable` panic. -/
theorem stepped_nonneg {V : Type} [LinearOrder V] [Zero V] [Add V] (L : Lib V)
    (m m1 : model) (h : stepped L m m1) (h0 : 0 ≤ m.selectedStmtIdx) :
    0 ≤ m1.selectedStmtIdx := by
  obtain ⟨_, _, _, _, hcase⟩ := h
  rcases hcase with ⟨_, hsame⟩ | ⟨hfollow, hupd⟩
  · rw [hsame]
    exact h0
  · by_cases hguard : m1.statementsTable.cursor ≥ (m.statements.length : Int)
    · rw [hfollow]
      omega
    · obtain ⟨stmt, hidx⟩ := updateTransactionsTable_some_index L _ m1 hupd hguard
      rw [hfollow]
      exact (index?_lt _ _ stmt hidx).1

theorem runUpdates_nonneg {V : Type} [LinearOrder V] [Zero V] [Add V] (L : Lib V)
    (msgs : List Msg) (m m1 : model) (h : runUpdates L m msgs = some m1)
    (h0 : 0 ≤ m.selectedStmtIdx) : 0 ≤ m1.selectedStmtIdx := by
  induction msgs generalizing m with
  | nil =>
    unfold runUpdates at h
    cases h
    exact h0
  | cons msg rest ih =>
    unfold runUpdates at h
    cases hupd : Update L m msg with
    | none => rw [hupd] at h; exact absurd h (by simp)
    | some r =>
      rw [hupd] at h
      simp only [] at h
      exact ih r.1 h (stepped_nonneg L m r.1 (stepped_Update L m r.1 r.2 msg hupd) h0)

theorem runUpdates_selected {V : Type} [LinearOrder V] [Zero V] [Add V] (L : Lib V)
    (msgs : List Msg) (m m1 : model) (h : runUpdates L m msgs = some m1)
    (hne : 1 ≤ m.statements.length)
    (hrows : m.statementsTable.rows.length = m.statements.length)
    (hc0 : 0 ≤ m.statementsTable.cursor)
    (hc1 : m.statementsTable.cursor ≤ (m.statements.length : Int) - 1)
    (hsel : m.selectedStmtIdx = m.statementsTable.cursor) :
    m1.statements = m.statements ∧
    m1.statementsTable.rows.length = m1.statements.length ∧
    0 ≤ m1.statementsTable.cursor ∧
    m1.statementsTable.cursor ≤ (m1.statements.length : Int) - 1 ∧
    m1.selectedStmtIdx = m1.statementsTable.cursor := by
  induction msgs generalizing m with
  | nil =>
    unfold runUpdates at h
    cases h
    exact ⟨rfl, hrows, hc0, hc1, hsel⟩
  | cons msg rest ih =>
    unfold runUpdates at h
    cases hupd : Update L m msg with
    | none => rw [hupd] at h; exact absurd h (by simp)
    | some r =>
      rw [hupd] at h
      simp only [] at h
      obtain ⟨hs, hr, h0, h1, hsl⟩ := stepped_selected L m r.1
        (stepped_Update L m r.1 r.2 msg hupd) hne hrows hc0 hc1 hsel
      obtain ⟨gs, gr, g0, g1, gsl⟩ := ih r.1 h (by rw [hs]; exact hne) hr h0 h1 hsl
      exact ⟨gs.trans hs, gr, g0, g1, gsl⟩

theorem runUpdates_sortBy {V : Type} [LinearOrder V] [Zero V] [Add V] (L : Lib V)
    (msgs : List Msg) (m m1 : model) (h : runUpdates L m msgs = some m1)
    (hsort : m.sortBy = sortByDate ∨ m.sortBy = sortByAmount ∨ m.sortBy = sortByLocation ∨
      m.sortBy = sortByCategory) :
    m1.sortBy = sortByDate ∨ m1.sortBy = sortByAmount ∨ m1.sortBy = sortByLocation ∨
      m1.sortBy = sortByCategory := by
  induction msgs generalizing m with
  | nil =>
    unfold runUpdates at h
    cases h
    exact hsort
  | cons msg rest ih =>
    unfold runUpdates at h
    cases hupd : Update L m msg with
    | none => rw [hupd] at h; exact absurd h (by simp)
    | some r =>
      rw [hupd] at h
      simp only [] at h
      exact ih r.1 h (stepped_sortBy L m r.1 (stepped_Update L m r.1 r.2 msg hupd) hsort)

/-- A state reached is the state after the messages of a model that
`initialModel` returned. -/
theorem reach_some {V : Type} [LinearOrder V] [Zero V] [Add V] (L : Lib V)
    (statements : List Statement) (categorized : CategorizedTransactions) (msgs : List Msg)
    (m : model) (h : reach L statements categorized msgs = some m) :
    ∃ m0, initialModel L statements categorized = some m0 ∧ runUpdates L m0 msgs = some m := by
  unfold reach at h
  cases hinit : initialModel L statements categorized with
  | none => rw [hinit] at h; exact absurd h (by simp)
  | some m0 =>
    rw [hinit] at h
    exact ⟨m0, rfl, h⟩

/-! ## Every message is handled -/

/-- `updateTransactionsTable` returns for every index that is not negative,
and changes the transactions table alone. -/
theorem updateTransactionsTable_returns {V : Type} [LinearOrder V] [Zero V] [Add V]
    (L : Lib V) (m : model) (h0 : 0 ≤ m.selectedStmtIdx) (hdot : ∀ v, '.' ∈ L.Sprintf2f v) :
    ∃ m1, updateTransactionsTable L m = some m1 ∧
      m1.statements = m.statements ∧ m1.currentView = m.currentView ∧
      m1.selectedStmtIdx = m.selectedStmtIdx ∧ m1.sortBy = m.sortBy ∧
      m1.categoryFilter = m.categoryFilter := by
  by_cases hg : m.selectedStmtIdx ≥ (m.statements.length : Int)
  · refine ⟨m, ?_, rfl, rfl, rfl, rfl, rfl⟩
    unfold updateTransactionsTable
    rw [if_pos hg]
  · obtain ⟨m1, h, hs, _, hv, hsel, hsort, hcat, _⟩ :=
      updateTransactionsTable_frame L m h0 (by omega) hdot
    exact ⟨m1, h, hs, hv, hsel, hsort, hcat⟩

theorem rebuild_returns {V : Type} [LinearOrder V] [Zero V] [Add V] (L : Lib V) (m0 : model)
    (h0 : 0 ≤ m0.selectedStmtIdx) (hdot : ∀ v, '.' ∈ L.Sprintf2f v) :
    ∃ m1 c, (updateTransactionsTable L m0).map (fun m => (m, Cmd.Nil)) = some (m1, c) := by
  obtain ⟨m1, h, _⟩ := updateTransactionsTable_returns L m0 h0 hdot
  rw [h]
  exact ⟨m1, Cmd.Nil, rfl⟩

theorem moveStatements_returns {V : Type} [LinearOrder V] [Zero V] [Add V] (L : Lib V)
    (m : model) (t : TableModel) (h0 : 0 ≤ t.cursor) (hdot : ∀ v, '.' ∈ L.Sprintf2f v) :
    ∃ m1 c, moveStatements L m t = some (m1, c) :=
  rebuild_returns L { m with statementsTable := t, selectedStmtIdx := t.cursor } h0 hdot

theorem setFilter_returns {V : Type} [LinearOrder V] [Zero V] [Add V] (L : Lib V)
    (m : model) (category : List Char) (h0 : 0 ≤ m.selectedStmtIdx)
    (hdot : ∀ v, '.' ∈ L.Sprintf2f v) : ∃ m1 c, setFilter L m category = some (m1, c) := by
  unfold setFilter
  split_ifs
  · exact rebuild_returns L { m with categoryFilter := category } h0 hdot
  · exact ⟨_, _, rfl⟩

/-- A table with a row, moved from a cursor that is not negative, has a
cursor that is not negative. -/
theorem tableMoved_nonneg (t t1 : TableModel) (h : tableMoved t t1) (h0 : 0 ≤ t.cursor)
    (hn : 1 ≤ t.rows.length) : 0 ≤ t1.cursor := by
  obtain ⟨_, hcur⟩ := h
  rcases hcur with hcur | ⟨x, hx⟩
  · rw [hcur]
    exact h0
  · rw [hx]
    exact (clamp_range x _ hn).1

theorem updateTables_returns {V : Type} [LinearOrder V] [Zero V] [Add V] (L : Lib V)
    (m : model) (msg : Msg) (hc : 0 ≤ m.statementsTable.cursor)
    (hn : 1 ≤ m.statementsTable.rows.length) (hdot : ∀ v, '.' ∈ L.Sprintf2f v) :
    ∃ m1 c, updateTables L m msg = some (m1, c) := by
  unfold updateTables
  simp only []
  split_ifs
  · exact moveStatements_returns L m _
      (tableMoved_nonneg _ _ (tableMoved_Update L m.statementsTable msg) hc hn) hdot
  · exact ⟨_, _, rfl⟩
  · exact ⟨_, _, rfl⟩
  · exact ⟨_, _, rfl⟩

/-- The case `tea.KeyMsg` of `Update` returns. -/
theorem updateKey_returns {V : Type} [LinearOrder V] [Zero V] [Add V] (L : Lib V)
    (m : model) (k : List Char) (h0 : 0 ≤ m.selectedStmtIdx)
    (hc : 0 ≤ m.statementsTable.cursor) (hn : 1 ≤ m.statementsTable.rows.length)
    (hdot : ∀ v, '.' ∈ L.Sprintf2f v) : ∃ m1 c, updateKey L m k = some (m1, c) := by
  unfold updateKey
  by_cases c0 : k = "ctrl+c".toList ∨ k = "q".toList
  · rw [if_pos c0]
    exact ⟨_, _, rfl⟩
  rw [if_neg c0]
  by_cases c1 : k = "tab".toList
  · rw [if_pos c1]
    split_ifs
    all_goals exact ⟨_, _, rfl⟩
  rw [if_neg c1]
  by_cases c2 : k = "left".toList ∨ k = "h".toList
  · rw [if_pos c2]
    split_ifs
    all_goals
      first
      | exact updateTables_returns L m _ hc hn hdot
      | exact ⟨_, _, rfl⟩
  rw [if_neg c2]
  by_cases c3 : k = "right".toList ∨ k = "l".toList
  · rw [if_pos c3]
    split_ifs
    all_goals
      first
      | exact updateTables_returns L m _ hc hn hdot
      | exact ⟨_, _, rfl⟩
  rw [if_neg c3]
  by_cases c4 : k = "s".toList
  · rw [if_pos c4]
    split_ifs
    all_goals
      first
      | exact rebuild_returns L _ h0 hdot
      | exact ⟨_, _, rfl⟩
  rw [if_neg c4]
  by_cases c5 : k = "1".toList
  · rw [if_pos c5]
    exact setFilter_returns L m _ h0 hdot
  rw [if_neg c5]
  by_cases c6 : k = "2".toList
  · rw [if_pos c6]
    exact setFilter_returns L m _ h0 hdot
  rw [if_neg c6]
  by_cases c7 : k = "3".toList
  · rw [if_pos c7]
    exact setFilter_returns L m _ h0 hdot
  rw [if_neg c7]
  by_cases c8 : k = "4".toList
  · rw [if_pos c8]
    exact setFilter_returns L m _ h0 hdot
  rw [if_neg c8]
  by_cases c9 : k = "5".toList
  · rw [if_pos c9]
    exact setFilter_returns L m _ h0 hdot
  rw [if_neg c9]
  by_cases c10 : k = "6".toList
  · rw [if_pos c10]
    exact setFilter_returns L m _ h0 hdot
  rw [if_neg c10]
  by_cases c11 : k = "7".toList
  · rw [if_pos c11]
    exact setFilter_returns L m _ h0 hdot
  rw [if_neg c11]
  by_cases c12 : k = "up".toList ∨ k = "k".toList
  · rw [if_pos c12]
    simp only []
    split_ifs
    all_goals
      first
      | exact moveStatements_returns L m _ (tableMoved_nonneg _ _ (tableMoved_repeatUpdate L _ _ _) hc hn) hdot
      | exact updateTables_returns L m _ hc hn hdot
      | exact ⟨_, _, rfl⟩
  rw [if_neg c12]
  by_cases c13 : k = "down".toList ∨ k = "j".toList
  · rw [if_pos c13]
    simp only []
    split_ifs
    all_goals
      first
      | exact moveStatements_returns L m _ (tableMoved_nonneg _ _ (tableMoved_repeatUpdate L _ _ _) hc hn) hdot
      | exact updateTables_returns L m _ hc hn hdot
      | exact ⟨_, _, rfl⟩
  rw [if_neg c13]
  by_cases c14 : k = "home".toList
  · rw [if_pos c14]
    split_ifs
    all_goals
      first
      | exact moveStatements_returns L m _ (tableMoved_nonneg _ _ (tableMoved_repeatUpdate L _ _ _) hc hn) hdot
      | exact updateTables_returns L m _ hc hn hdot
      | exact ⟨_, _, rfl⟩
  rw [if_neg c14]
  by_cases c15 : k = "end".toList
  · rw [if_pos c15]
    simp only []
    split_ifs
    all_goals
      first
      | exact moveStatements_returns L m _ (tableMoved_nonneg _ _ (tableMoved_repeatUpdate L _ _ _) hc hn) hdot
      | exact updateTables_returns L m _ hc hn hdot
      | exact ⟨_, _, rfl⟩
  rw [if_neg c15]
  by_cases c16 : k = "pgup".toList
  · rw [if_pos c16]
    simp only []
    split_ifs
    all_goals
      first
      | exact moveStatements_returns L m _ (tableMoved_nonneg _ _ (tableMoved_repeatUpdate L _ _ _) hc hn) hdot
      | exact updateTables_returns L m _ hc hn hdot
      | exact ⟨_, _, rfl⟩
  rw [if_neg c16]
  by_cases c17 : k = "pgdown".toList
  · rw [if_pos c17]
    simp only []
    split_ifs
    all_goals
      first
      | exact moveStatements_returns L m _ (tableMoved_nonneg _ _ (tableMoved_repeatUpdate L _ _ _) hc hn) hdot
      | exact updateTables_returns L m _ hc hn hdot
      | exact ⟨_, _, rfl⟩
  rw [if_neg c17]
  exact updateTables_returns L m _ hc hn hdot

/-- `Update` returns for every message when every printed amount has a decimal
point, the statements table has a row and neither its cursor nor the selected
index is negative. -/
theorem Update_returns {V : Type} [LinearOrder V] [Zero V] [Add V] (L : Lib V)
    (m : model) (msg : Msg) (h0 : 0 ≤ m.selectedStmtIdx)
    (hc : 0 ≤ m.statementsTable.cursor) (hn : 1 ≤ m.statementsTable.rows.length)
    (hdot : ∀ v, '.' ∈ L.Sprintf2f v) : ∃ m1 c, Update L m msg = some (m1, c) := by
  cases msg with
  | WindowSizeMsg w ht => exact ⟨_, _, rfl⟩
  | KeyMsg k => exact updateKey_returns L m k h0 hc hn hdot
  | Other => exact updateTables_returns L m _ hc hn hdot

theorem statementRows_returns {V : Type} (L : Lib V) (statements : List Statement)
    (hdot : ∀ v, '.' ∈ L.Sprintf2f v) : ∃ rows, statementRows L statements = some rows := by
  induction statements with
  | nil => exact ⟨[], rfl⟩
  | cons stmt rest ih =>
    obtain ⟨rows, hrows⟩ := ih
    obtain ⟨amt, hamt⟩ := formatAmountString_isSome L stmt.CurTotAmt hdot
    unfold statementRows
    rw [hamt, hrows]
    exact ⟨_, rfl⟩

theorem initialModel_returns {V : Type} [LinearOrder V] [Zero V] [Add V] (L : Lib V)
    (statements : List Statement) (categorized : CategorizedTransactions)
    (hdot : ∀ v, '.' ∈ L.Sprintf2f v) : ∃ m, initialModel L statements categorized = some m := by
  obtain ⟨rows, hrows⟩ := statementRows_returns L statements hdot
  unfold initialModel
  rw [hrows]
  simp only []
  split_ifs
  · obtain ⟨m1, h, _⟩ := updateTransactionsTable_returns L
      { statements := statements
        categorized := categorized
        currentView := summaryView
        selectedStmtIdx := 0
        sortBy := sortByDate
        categoryFilter := CategoryAll
        statementsTable :=
          { cols := stmtColumns, rows := rows, cursor := 0, focus := true, height := 10 }
        transactionsTable :=
          { cols := txColumns true, rows := [], cursor := 0, focus := false, height := 10 }
        focusedTable := 0
        width := 0
        height := 0
        ready := false } (le_refl _) hdot
    exact ⟨m1, h⟩
  · exact ⟨_, rfl⟩

theorem runUpdates_returns {V : Type} [LinearOrder V] [Zero V] [Add V] (L : Lib V)
    (msgs : List Msg) (m : model) (hdot : ∀ v, '.' ∈ L.Sprintf2f v)
    (hne : 1 ≤ m.statements.length)
    (hrows : m.statementsTable.rows.length = m.statements.length)
    (hc0 : 0 ≤ m.statementsTable.cursor)
    (hc1 : m.statementsTable.cursor ≤ (m.statements.length : Int) - 1)
    (hsel : m.selectedStmtIdx = m.statementsTable.cursor) :
    ∃ m1, runUpdates L m msgs = some m1 := by
  induction msgs generalizing m with
  | nil => exact ⟨m, rfl⟩
  | cons msg rest ih =>
    obtain ⟨m1, c, hupd⟩ := Update_returns L m msg (by rw [hsel]; exact hc0) hc0
      (by rw [hrows]; exact hne) hdot
    obtain ⟨hs, hr, h0, h1, hsl⟩ := stepped_selected L m m1
      (stepped_Update L m m1 c msg hupd) hne hrows hc0 hc1 hsel
    obtain ⟨m2, h2⟩ := ih m1 (by rw [hs]; exact hne) hr h0 h1 hsl
    refine ⟨m2, ?_⟩
    unfold runUpdates
    rw [hupd]
    exact h2

/-- The program started on at least one statement handles every sequence of
messages when every printed amount has a decimal point. -/
theorem reach_returns {V : Type} [LinearOrder V] [Zero V] [Add V] (L : Lib V)
    (statements : List Statement) (categorized : CategorizedTransactions) (msgs : List Msg)
    (hne : 1 ≤ statements.length) (hdot : ∀ v, '.' ∈ L.Sprintf2f v) :
    ∃ m, reach L statements categorized msgs = some m := by
  obtain ⟨m0, hinit⟩ := initialModel_returns L statements categorized hdot
  obtain ⟨hs, hrows, hc, hsel, _⟩ := initialModel_some L statements categorized m0 hinit
  obtain ⟨m1, h1⟩ := runUpdates_returns L msgs m0 hdot (by rw [hs]; exact hne)
    (by rw [hrows, hs]) (by rw [hc]) (by rw [hc, hs]; omega) (by rw [hsel, hc])
  refine ⟨m1, ?_⟩
  unfold reach
  rw [hinit]
  exact h1

/-! ## The focused panel -/

theorem focus_Update {V : Type} (L : Lib V) (t : TableModel) (msg : Msg) :
    (t.Update L msg).focus = t.focus := by
  unfold TableModel.Update
  split_ifs
  · rfl
  · cases msg with
    | WindowSizeMsg w h => rfl
    | Other => rfl
    | KeyMsg k =>
      simp only []
      split_ifs <;> rfl

theorem focus_repeatUpdate {V : Type} (L : Lib V) (n : Int) (msg : Msg) (t : TableModel) :
    (repeatUpdate L n msg t).focus = t.focus := by
  unfold repeatUpdate
  induction n.toNat with
  | zero => rfl
  | succ k ih =>
    rw [Function.iterate_succ_apply', focus_Update]
    exact ih

/-- Whatever `updateTransactionsTable` returns has the focused panel and the
focus of the two tables of the model. -/
theorem updateTransactionsTable_some_focus {V : Type} [LinearOrder V] [Zero V] [Add V]
    (L : Lib V) (m m1 : model) (h : updateTransactionsTable L m = some m1) :
    m1.focusedTable = m.focusedTable ∧ m1.statementsTable = m.statementsTable ∧
    m1.transactionsTable.focus = m.transactionsTable.focus := by
  unfold updateTransactionsTable at h
  split_ifs at h with hg
  · cases h
    exact ⟨rfl, rfl, rfl⟩
  · split at h
    · exact absurd h (by simp)
    · simp only [] at h
      split at h
      · cases h
        exact ⟨rfl, rfl, rfl⟩
      · exact absurd h (by simp)

theorem focusAgrees_of_some (m0 m1 : model) (c0 c : Cmd) (h : some (m0, c0) = some (m1, c))
    (hinv : focusAgrees m0) : focusAgrees m1 := by
  simp only [Option.some.injEq, Prod.mk.injEq] at h
  obtain ⟨rfl, _⟩ := h
  exact hinv

theorem focusAgrees_of_rebuild {V : Type} [LinearOrder V] [Zero V] [Add V] (L : Lib V)
    (m0 m1 : model) (c : Cmd)
    (h : (updateTransactionsTable L m0).map (fun m => (m, Cmd.Nil)) = some (m1, c))
    (hinv : focusAgrees m0) : focusAgrees m1 := by
  cases hupd : updateTransactionsTable L m0 with
  | none => rw [hupd] at h; exact absurd h (by simp)
  | some m2 =>
    rw [hupd] at h
    simp only [Option.map_some', Option.some.injEq, Prod.mk.injEq] at h
    obtain ⟨rfl, _⟩ := h
    obtain ⟨h1, h2, h3⟩ := updateTransactionsTable_some_focus L m0 m2 hupd
    unfold focusAgrees at hinv ⊢
    rw [h1, h2, h3]
    exact hinv

/-- A model with another transactions table of the same focus. -/
theorem focusAgrees_transactions (m : model) (t : TableModel)
    (ht : t.focus = m.transactionsTable.focus) (hinv : focusAgrees m) :
    focusAgrees { m with transactionsTable := t } := by
  unfold focusAgrees at hinv ⊢
  simp only []
  rw [ht]
  exact hinv

/-- A model with another statements table of the same focus. -/
theorem focusAgrees_statements (m : model) (t : TableModel) (idx : Int)
    (ht : t.focus = m.statementsTable.focus) (hinv : focusAgrees m) :
    focusAgrees { m with statementsTable := t, selectedStmtIdx := idx } := by
  unfold focusAgrees at hinv ⊢
  simp only []
  rw [ht]
  exact hinv

theorem focusAgrees_moveStatements {V : Type} [LinearOrder V] [Zero V] [Add V] (L : Lib V)
    (m m1 : model) (c : Cmd) (t : TableModel) (ht : t.focus = m.statementsTable.focus)
    (h : moveStatements L m t = some (m1, c)) (hinv : focusAgrees m) : focusAgrees m1 :=
  focusAgrees_of_rebuild L _ m1 c h (focusAgrees_statements m t t.cursor ht hinv)

theorem focusAgrees_updateTables {V : Type} [LinearOrder V] [Zero V] [Add V] (L : Lib V)
    (m m1 : model) (c : Cmd) (msg : Msg) (h : updateTables L m msg = some (m1, c))
    (hinv : focusAgrees m) : focusAgrees m1 := by
  unfold updateTables at h
  simp only [] at h
  split_ifs at h
  · exact focusAgrees_moveStatements L m m1 c _ (focus_Update L _ msg) h hinv
  · exact focusAgrees_of_some _ m1 _ c h
      (focusAgrees_statements m _ m.selectedStmtIdx (focus_Update L _ msg) hinv)
  · exact focusAgrees_of_some _ m1 _ c h
      (focusAgrees_transactions m _ (focus_Update L _ msg) hinv)
  · exact focusAgrees_of_some _ m1 _ c h hinv

theorem focusAgrees_setFilter {V : Type} [LinearOrder V] [Zero V] [Add V] (L : Lib V)
    (m m1 : model) (c : Cmd) (category : List Char)
    (h : setFilter L m category = some (m1, c)) (hinv : focusAgrees m) : focusAgrees m1 := by
  unfold setFilter at h
  split_ifs at h
  · exact focusAgrees_of_rebuild L _ m1 c h hinv
  · exact focusAgrees_of_some _ m1 _ c h hinv

/-- The case `tea.KeyMsg` of `Update` keeps the focus on the focused panel. -/
theorem focusAgrees_updateKey {V : Type} [LinearOrder V] [Zero V] [Add V] (L : Lib V)
    (m m1 : model) (c : Cmd) (k : List Char) (h : updateKey L m k = some (m1, c))
    (hinv : focusAgrees m) : focusAgrees m1 := by
  unfold updateKey at h
  by_cases c0 : k = "ctrl+c".toList ∨ k = "q".toList
  · rw [if_pos c0] at h
    exact focusAgrees_of_some _ m1 _ c h hinv
  rw [if_neg c0] at h
  by_cases c1 : k = "tab".toList
  · rw [if_pos c1] at h
    split_ifs at h
    all_goals
      first
      | exact focusAgrees_of_some _ m1 _ c h hinv
      | exact focusAgrees_of_some _ m1 _ c h ⟨Or.inl rfl, fun _ => rfl, fun h1 => absurd h1 (by decide : ¬ ((0 : Int) = 1))⟩
  rw [if_neg c1] at h
  by_cases c2 : k = "left".toList ∨ k = "h".toList
  · rw [if_pos c2] at h
    split_ifs at h
    all_goals
      first
      | exact focusAgrees_updateTables L m m1 c _ h hinv
      | exact focusAgrees_of_some _ m1 _ c h ⟨Or.inl rfl, fun _ => rfl, fun h1 => absurd h1 (by decide : ¬ ((0 : Int) = 1))⟩
  rw [if_neg c2] at h
  by_cases c3 : k = "right".toList ∨ k = "l".toList
  · rw [if_pos c3] at h
    split_ifs at h
    all_goals
      first
      | exact focusAgrees_updateTables L m m1 c _ h hinv
      | exact focusAgrees_of_some _ m1 _ c h ⟨Or.inr rfl, fun h0 => absurd h0 (by decide : ¬ ((1 : Int) = 0)), fun _ => rfl⟩
  rw [if_neg c3] at h
  by_cases c4 : k = "s".toList
  · rw [if_pos c4] at h
    split_ifs at h
    all_goals
      first
      | exact focusAgrees_of_rebuild L _ m1 c h hinv
      | exact focusAgrees_of_some _ m1 _ c h hinv
  rw [if_neg c4] at h
  by_cases c5 : k = "1".toList
  · rw [if_pos c5] at h
    exact focusAgrees_setFilter L m m1 c _ h hinv
  rw [if_neg c5] at h
  by_cases c6 : k = "2".toList
  · rw [if_pos c6] at h
    exact focusAgrees_setFilter L m m1 c _ h hinv
  rw [if_neg c6] at h
  by_cases c7 : k = "3".toList
  · rw [if_pos c7] at h
    exact focusAgrees_setFilter L m m1 c _ h hinv
  rw [if_neg c7] at h
  by_cases c8 : k = "4".toList
  · rw [if_pos c8] at h
    exact focusAgrees_setFilter L m m1 c _ h hinv
  rw [if_neg c8] at h
  by_cases c9 : k = "5".toList
  · rw [if_pos c9] at h
    exact focusAgrees_setFilter L m m1 c _ h hinv
  rw [if_neg c9] at h
  by_cases c10 : k = "6".toList
  · rw [if_pos c10] at h
    exact focusAgrees_setFilter L m m1 c _ h hinv
  rw [if_neg c10] at h
  by_cases c11 : k = "7".toList
  · rw [if_pos c11] at h
    exact focusAgrees_setFilter L m m1 c _ h hinv
  rw [if_neg c11] at h
  by_cases c12 : k = "up".toList ∨ k = "k".toList
  · rw [if_pos c12] at h
    simp only [] at h
    split_ifs at h
    all_goals
      first
      | exact focusAgrees_moveStatements L m m1 c _ (focus_repeatUpdate L _ _ _) h hinv
      | exact focusAgrees_updateTables L m m1 c _ h hinv
      | exact focusAgrees_of_some _ m1 _ c h (focusAgrees_transactions m _ (focus_repeatUpdate L _ _ _) hinv)
      | exact focusAgrees_of_some _ m1 _ c h hinv
  rw [if_neg c12] at h
  by_cases c13 : k = "down".toList ∨ k = "j".toList
  · rw [if_pos c13] at h
    simp only [] at h
    split_ifs at h
    all_goals
      first
      | exact focusAgrees_moveStatements L m m1 c _ (focus_repeatUpdate L _ _ _) h hinv
      | exact focusAgrees_updateTables L m m1 c _ h hinv
      | exact focusAgrees_of_some _ m1 _ c h (focusAgrees_transactions m _ (focus_repeatUpdate L _ _ _) hinv)
  rw [if_neg c13] at h
  by_cases c14 : k = "home".toList
  · rw [if_pos c14] at h
    split_ifs at h
    all_goals
      first
      | exact focusAgrees_moveStatements L m m1 c _ (focus_repeatUpdate L _ _ _) h hinv
      | exact focusAgrees_updateTables L m m1 c _ h hinv
      | exact focusAgrees_of_some _ m1 _ c h (focusAgrees_transactions m _ (focus_repeatUpdate L _ _ _) hinv)
  rw [if_neg c14] at h
  by_cases c15 : k = "end".toList
  · rw [if_pos c15] at h
    simp only [] at h
    split_ifs at h
    all_goals
      first
      | exact focusAgrees_moveStatements L m m1 c _ (focus_repeatUpdate L _ _ _) h hinv
      | exact focusAgrees_updateTables L m m1 c _ h hinv
      | exact focusAgrees_of_some _ m1 _ c h (focusAgrees_transactions m _ (focus_repeatUpdate L _ _ _) hinv)
  rw [if_neg c15] at h
  by_cases c16 : k = "pgup".toList
  · rw [if_pos c16] at h
    simp only [] at h
    split_ifs at h
    all_goals
      first
      | exact focusAgrees_moveStatements L m m1 c _ (focus_repeatUpdate L _ _ _) h hinv
      | exact focusAgrees_updateTables L m m1 c _ h hinv
      | exact focusAgrees_of_some _ m1 _ c h (focusAgrees_transactions m _ (focus_repeatUpdate L _ _ _) hinv)
  rw [if_neg c16] at h
  by_cases c17 : k = "pgdown".toList
  · rw [if_pos c17] at h
    simp only [] at h
    split_ifs at h
    all_goals
      first
      | exact focusAgrees_moveStatements L m m1 c _ (focus_repeatUpdate L _ _ _) h hinv
      | exact focusAgrees_updateTables L m m1 c _ h hinv
      | exact focusAgrees_of_some _ m1 _ c h (focusAgrees_transactions m _ (focus_repeatUpdate L _ _ _) hinv)
  rw [if_neg c17] at h
  exact focusAgrees_updateTables L m m1 c _ h hinv

theorem focusAgrees_Update {V : Type} [LinearOrder V] [Zero V] [Add V] (L : Lib V)
    (m m1 : model) (c : Cmd) (msg : Msg) (h : Update L m msg = some (m1, c))
    (hinv : focusAgrees m) : focusAgrees m1 := by
  cases msg with
  | WindowSizeMsg w ht => exact focusAgrees_of_some _ m1 _ c h hinv
  | KeyMsg k => exact focusAgrees_updateKey L m m1 c k h hinv
  | Other => exact focusAgrees_updateTables L m m1 c _ h hinv

theorem focusAgrees_runUpdates {V : Type} [LinearOrder V] [Zero V] [Add V] (L : Lib V)
    (msgs : List Msg) (m m1 : model) (h : runUpdates L m msgs = some m1)
    (hinv : focusAgrees m) : focusAgrees m1 := by
  induction msgs generalizing m with
  | nil =>
    unfold runUpdates at h
    cases h
    exact hinv
  | cons msg rest ih =>
    unfold runUpdates at h
    cases hupd : Update L m msg with
    | none => rw [hupd] at h; exact absurd h (by simp)
    | some r =>
      rw [hupd] at h
      simp only [] at h
      exact ih r.1 h (focusAgrees_Update L m r.1 r.2 msg hupd hinv)

theorem focusAgrees_initialModel {V : Type} [LinearOrder V] [Zero V] [Add V] (L : Lib V)
    (statements : List Statement) (categorized : CategorizedTransactions) (m : model)
    (h : initialModel L statements categorized = some m) : focusAgrees m := by
  unfold initialModel at h
  cases hrows : statementRows L statements with
  | none => rw [hrows] at h; exact absurd h (by simp)
  | some stmtRows =>
    rw [hrows] at h
    simp only [] at h
    split_ifs at h
    · obtain ⟨h1, h2, _⟩ := updateTransactionsTable_some_focus L _ m h
      unfold focusAgrees
      rw [h1, h2]
      exact ⟨Or.inl rfl, fun _ => rfl, fun h1 => absurd h1 (by decide : ¬ ((0 : Int) = 1))⟩
    · cases h
      exact ⟨Or.inl rfl, fun _ => rfl, fun h1 => absurd h1 (by decide : ¬ ((0 : Int) = 1))⟩

/-- In every state reached the focused panel is one of the two and its table
has the widget's focus. -/
theorem focusAgrees_reach {V : Type} [LinearOrder V] [Zero V] [Add V] (L : Lib V)
    (statements : List Statement) (categorized : CategorizedTransactions) (msgs : List Msg)
    (m : model) (h : reach L statements categorized msgs = some m) : focusAgrees m := by
  obtain ⟨m0, hinit, hrun⟩ := reach_some L statements categorized msgs m h
  exact focusAgrees_runUpdates L msgs m0 m hrun
    (focusAgrees_initialModel L statements categorized m0 hinit)

/-! ## The sort key -/

/-- One "s" key in the statements view. -/
theorem Update_s_step {V : Type} [LinearOrder V] [Zero V] [Add V] (L : Lib V) (m : model)
    (hview : m.currentView = statementsView) (h0 : 0 ≤ m.selectedStmtIdx)
    (hdot : ∀ v, '.' ∈ L.Sprintf2f v) :
    ∃ m1, Update L m (Msg.KeyMsg "s".toList) = some (m1, Cmd.Nil) ∧
      m1.sortBy = Int.tmod (m.sortBy + 1) 4 ∧ m1.currentView = statementsView ∧
      m1.selectedStmtIdx = m.selectedStmtIdx ∧ m1.categoryFilter = m.categoryFilter ∧
      m1.statements = m.statements := by
  obtain ⟨m1, h, hs, hv, hsel, hsort, hcat⟩ := updateTransactionsTable_returns L
    { m with sortBy := Int.tmod (m.sortBy + 1) 4 } h0 hdot
  rw [Update_s_statements L m hview, h]
  exact ⟨m1, rfl, hsort, hv.trans hview, hsel, hcat, hs⟩

/-- C21: in the statements view, with a selected index that is not negative
and one of the four sort modes, an "s" key returns a model whose `sortBy` is
the next mode in the order Date, Amount, Location, Category, Date, so again
one of the four, and whose `categoryFilter` and `selectedStmtIdx` are
unchanged; four "s" keys return a model with the `sortBy`, `categoryFilter`
and `selectedStmtIdx` of the start.  In any other view an "s" key returns the
model unchanged.  In every state reached from `initialModel` the selected
index is not negative and the `sortBy` is one of the four modes.  Every
printed amount has a decimal point. -/
theorem Update_sort_cycle {V : Type} [LinearOrder V] [Zero V] [Add V] (L : Lib V)
    (m : model) (hdot : ∀ v, '.' ∈ L.Sprintf2f v) (h0 : 0 ≤ m.selectedStmtIdx)
    (hsort : m.sortBy = sortByDate ∨ m.sortBy = sortByAmount ∨ m.sortBy = sortByLocation ∨
      m.sortBy = sortByCategory) :
    (m.currentView = statementsView →
      (∃ m1, Update L m (key "s") = some (m1, Cmd.Nil) ∧
        (m.sortBy = sortByDate → m1.sortBy = sortByAmount) ∧
        (m.sortBy = sortByAmount → m1.sortBy = sortByLocation) ∧
        (m.sortBy = sortByLocation → m1.sortBy = sortByCategory) ∧
        (m.sortBy = sortByCategory → m1.sortBy = sortByDate) ∧
        (m1.sortBy = sortByDate ∨ m1.sortBy = sortByAmount ∨ m1.sortBy = sortByLocation ∨
          m1.sortBy = sortByCategory) ∧
        m1.categoryFilter = m.categoryFilter ∧ m1.selectedStmtIdx = m.selectedStmtIdx) ∧
      (∃ m4, runUpdates L m [key "s", key "s", key "s", key "s"] = some m4 ∧
        m4.sortBy = m.sortBy ∧ m4.categoryFilter = m.categoryFilter ∧
        m4.selectedStmtIdx = m.selectedStmtIdx)) ∧
    (m.currentView ≠ statementsView → Update L m (key "s") = some (m, Cmd.Nil)) ∧
    (∀ statements categorized msgs m1, reach L statements categorized msgs = some m1 →
      0 ≤ m1.selectedStmtIdx ∧
      (m1.sortBy = sortByDate ∨ m1.sortBy = sortByAmount ∨ m1.sortBy = sortByLocation ∨
        m1.sortBy = sortByCategory)) := by
  refine ⟨?_, ?_, ?_⟩
  case refine_3 =>
    intro statements categorized msgs m1 h
    obtain ⟨m0, hinit, hrun⟩ := reach_some L statements categorized msgs m1 h
    obtain ⟨_, _, _, hsel, hdate⟩ := initialModel_some L statements categorized m0 hinit
    exact ⟨runUpdates_nonneg L msgs m0 m1 hrun (by rw [hsel]),
      runUpdates_sortBy L msgs m0 m1 hrun (Or.inl hdate)⟩
  all_goals unfold sortByDate sortByAmount sortByLocation sortByCategory at *
  · intro hview
    obtain ⟨m1, h1, hs1, hv1, hi1, hc1, _⟩ := Update_s_step L m hview h0 hdot
    obtain ⟨m2, h2, hs2, hv2, hi2, hc2, _⟩ := Update_s_step L m1 hv1 (by omega) hdot
    obtain ⟨m3, h3, hs3, hv3, hi3, hc3, _⟩ := Update_s_step L m2 hv2 (by omega) hdot
    obtain ⟨m4, h4, hs4, _, hi4, hc4, _⟩ := Update_s_step L m3 hv3 (by omega) hdot
    constructor
    · refine ⟨m1, h1, ?_, ?_, ?_, ?_, ?_, hc1, hi1⟩
      · intro h; rw [hs1, h]; decide
      · intro h; rw [hs1, h]; decide
      · intro h; rw [hs1, h]; decide
      · intro h; rw [hs1, h]; decide
      · rw [hs1]
        rcases hsort with h | h | h | h <;> rw [h] <;> decide
    · refine ⟨m4, ?_, ?_, by rw [hc4, hc3, hc2, hc1], by rw [hi4, hi3, hi2, hi1]⟩
      · show runUpdates L m [Msg.KeyMsg "s".toList, Msg.KeyMsg "s".toList,
          Msg.KeyMsg "s".toList, Msg.KeyMsg "s".toList] = some m4
        simp only [runUpdates, h1, h2, h3, h4]
      · rw [hs4, hs3, hs2, hs1]
        rcases hsort with h | h | h | h <;> rw [h] <;> decide
  · intro hview
    exact Update_s_other L m hview

/-- C21, at inputs: in the statements view with the second of three statements
selected and the rows sorted by date, an "s" key sorts by amount and keeps the
filter and the selected statement; one to four "s" keys sort by amount, by
location, by category and by date again; in the summary view an "s" key
returns the model unchanged. -/
theorem Update_sort_cycle_witness :
    (∃ m1, Update hundredthsLib (statementsPanelModel 1) (key "s") = some (m1, Cmd.Nil) ∧
      m1.sortBy = sortByAmount ∧ m1.categoryFilter = CategoryAll ∧ m1.selectedStmtIdx = 1) ∧
    ([[key "s"], [key "s", key "s"], [key "s", key "s", key "s"],
        [key "s", key "s", key "s", key "s"]].map (fun msgs =>
          (runUpdates hundredthsLib (statementsPanelModel 1) msgs).map (fun m => m.sortBy)) =
      [some sortByAmount, some sortByLocation, some sortByCategory, some sortByDate]) ∧
    Update hundredthsLib (sortModel sortByAmount CategoryFood stmtMixed) (key "s") =
      some (sortModel sortByAmount CategoryFood stmtMixed, Cmd.Nil) := by
  refine ⟨?_, by decide, by decide⟩
  obtain ⟨m1, h, hdate, _, _, _, _, hcat, hsel⟩ :=
    ((Update_sort_cycle hundredthsLib (statementsPanelModel 1) hundredthsLib_dot
      (by decide) (Or.inl rfl)).1 rfl).1
  exact ⟨m1, h, hdate rfl, hcat, hsel⟩

/-- C24: for a list of at least one statement, every sequence of messages
reaches a state from `initialModel` when every printed amount has a decimal
point, and in every state reached the statements are those given,
`selectedStmtIdx` is at least 0 and at most the number of statements less one
and is the cursor of the statements table; so the test of the index guard of
`updateTransactionsTable` is false and the index selects a statement. -/
theorem reach_selectedStmtIdx_in_range {V : Type} [LinearOrder V] [Zero V] [Add V]
    (L : Lib V) (statements : List Statement) (categorized : CategorizedTransactions)
    (msgs : List Msg) (hne : 1 ≤ statements.length) :
    ((∀ v, '.' ∈ L.Sprintf2f v) → ∃ m, reach L statements categorized msgs = some m) ∧
    ∀ m, reach L statements categorized msgs = some m →
      m.statements = statements ∧
      0 ≤ m.selectedStmtIdx ∧ m.selectedStmtIdx ≤ (statements.length : Int) - 1 ∧
      m.selectedStmtIdx = m.statementsTable.cursor ∧
      ¬ (m.selectedStmtIdx ≥ (m.statements.length : Int)) ∧
      ∃ stmt, index? m.statements m.selectedStmtIdx = some stmt := by
  refine ⟨fun hdot => reach_returns L statements categorized msgs hne hdot, ?_⟩
  intro m h
  obtain ⟨m0, hinit, hrun⟩ := reach_some L statements categorized msgs m h
  obtain ⟨hs, hrows, hc, hsel, _⟩ := initialModel_some L statements categorized m0 hinit
  obtain ⟨gs, _, g0, g1, gsel⟩ := runUpdates_selected L msgs m0 m hrun
    (by rw [hs]; exact hne) (by rw [hrows, hs]) (by rw [hc]) (by rw [hc, hs]; omega)
    (by rw [hsel, hc])
  rw [gs, hs] at g1
  have hidx := index?_isSome m.statements m.selectedStmtIdx (by rw [gsel]; exact g0)
    (by rw [gsel, gs, hs]; omega)
  refine ⟨gs.trans hs, by rw [gsel]; exact g0, by rw [gsel]; exact g1, gsel, ?_, hidx⟩
  rw [gsel, gs, hs]
  omega

/-- C24, at an input: on three statements, after "tab", "down" three times, a
resize, "end", "pgup" and "up" the selected statement and the cursor of the
statements table are both on row 2 of rows 0 to 2. -/
theorem reach_selectedStmtIdx_in_range_witness :
    (∃ m, reach hundredthsLib threeStatements {}
        [key "tab", key "down", key "down", key "down", Msg.WindowSizeMsg 80 24, key "end",
          key "pgup", key "up"] = some m ∧
      0 ≤ m.selectedStmtIdx ∧ m.selectedStmtIdx ≤ 2 ∧
      m.selectedStmtIdx = m.statementsTable.cursor) ∧
    (reach hundredthsLib threeStatements {}
        [key "tab", key "down", key "down", key "down", Msg.WindowSizeMsg 80 24, key "end",
          key "pgup", key "up"]).map
      (fun m => (m.selectedStmtIdx, m.statementsTable.cursor)) = some (2, 2) := by
  refine ⟨?_, by decide⟩
  have hthm := reach_selectedStmtIdx_in_range hundredthsLib threeStatements {}
    [key "tab", key "down", key "down", key "down", Msg.WindowSizeMsg 80 24, key "end",
      key "pgup", key "up"] (by decide)
  obtain ⟨m, hm⟩ := hthm.1 hundredthsLib_dot
  obtain ⟨_, h0, h1, h2, _⟩ := hthm.2 m hm
  exact ⟨m, hm, h0, h1, h2⟩

/-! ## The transactions cursor after a move in the statements panel -/

theorem clamp_le (x : Int) (n : Int) : clamp x 0 (n - 1) ≤ n - 1 := by
  unfold clamp
  exact min_le_right _ _

/-- C22, refuted: on three statements, with the table widget that clamps the
cursor in `SetRows`, "tab" and "down" move the cursor of the statements panel
from row 0 to row 1 and leave the cursor of the transactions panel at -1, on no
row; with the widget that leaves the cursor in `SetRows`, after "tab", "right",
"down", "down", "left" the statements panel is focused with its cursor on row 0
and the transactions cursor is on row 2, and a "down" that moves the statements
cursor to row 1 leaves the transactions cursor at 2, where the new list has
two rows. -/
theorem transactions_cursor_not_reset :
    (reach hundredthsLib threeStatements {} [key "tab"]).map
        (fun m => (m.currentView, m.focusedTable, m.statementsTable.cursor)) =
      some (statementsView, 0, 0) ∧
    (reach hundredthsLib threeStatements {} [key "tab", key "down"]).map
        (fun m => (m.currentView, m.focusedTable, m.statementsTable.cursor,
          m.transactionsTable.cursor, m.transactionsTable.rows.length)) =
      some (statementsView, 0, 1, -1, 2) ∧
    (reach keepCursorLib threeStatements {}
        [key "tab", key "right", key "down", key "down", key "left"]).map
        (fun m => (m.currentView, m.focusedTable, m.statementsTable.cursor,
          m.transactionsTable.cursor, m.transactionsTable.rows.length)) =
      some (statementsView, 0, 0, 2, 4) ∧
    (reach keepCursorLib threeStatements {}
        [key "tab", key "right", key "down", key "down", key "left", key "down"]).map
        (fun m => (m.currentView, m.focusedTable, m.statementsTable.cursor,
          m.transactionsTable.cursor, m.transactionsTable.rows.length)) =
      some (statementsView, 0, 1, 2, 2) := by
  refine ⟨by decide, by decide, by decide, by decide⟩

/-- C22, as the program has it: on a model whose statements table has one row
for each statement, `Update` returns for every message when every printed
amount has a decimal point, there is a statement and neither the cursor of the
statements table nor the selected index is negative; and when the model
returned has the cursor of the statements table on another row, it has
`selectedStmtIdx` on the new row and the rows of its transactions table are
those `updateTransactionsTable` builds for the statement on that row, the rows
of the shown transactions followed by the rows of `foreignFeeRows`; the cursor
of the transactions table is what the widget's `SetRows` leaves of the cursor
before, first with no rows and then with the new rows. -/
theorem Update_statements_cursor_moved {V : Type} [LinearOrder V] [Zero V] [Add V]
    (L : Lib V) (m : model) (msg : Msg)
    (hrows : m.statementsTable.rows.length = m.statements.length) :
    ((∀ v, '.' ∈ L.Sprintf2f v) → 1 ≤ m.statements.length → 0 ≤ m.statementsTable.cursor →
      0 ≤ m.selectedStmtIdx → ∃ m1 c, Update L m msg = some (m1, c)) ∧
    ∀ m1 c, Update L m msg = some (m1, c) →
      m1.statementsTable.cursor ≠ m.statementsTable.cursor →
      m1.selectedStmtIdx = m1.statementsTable.cursor ∧
      ∃ stmt txRows feeRows,
        index? m1.statements m1.selectedStmtIdx = some stmt ∧
        m1.transactionsTable.rows = txRows ++ feeRows ∧
        List.Forall₂
          (fun tx row =>
            transactionRow L (decide (m1.categoryFilter = CategoryAll)) tx = some row)
          (shownTransactions L m1 stmt) txRows ∧
        foreignFeeRows L m1.categoryFilter (decide (m1.categoryFilter = CategoryAll)) stmt
          (splitForeignFees L stmt.Transactions) = some feeRows ∧
        m1.transactionsTable.cursor =
          L.SetRowsCursor (L.SetRowsCursor m.transactionsTable.cursor 0)
            (txRows ++ feeRows).length := by
  refine ⟨fun hdot hne hc0 hsel0 =>
    Update_returns L m msg hsel0 hc0 (by rw [hrows]; exact hne) hdot, ?_⟩
  intro m1 c h hmoved
  obtain ⟨_, _, _, ⟨_, hcur⟩, hcase⟩ := stepped_Update L m m1 c msg h
  rcases hcase with ⟨hsame, _⟩ | ⟨hfollow, hupd⟩
  · exact absurd hsame hmoved
  · refine ⟨hfollow, ?_⟩
    rcases hcur with hcur | ⟨x, hx⟩
    · exact absurd hcur hmoved
    · have hle := clamp_le x (m.statementsTable.rows.length : Int)
      rw [← hx, hrows] at hle
      obtain ⟨stmt, hidx⟩ := updateTransactionsTable_some_index L _ m1 hupd
        (by simp only []; omega)
      obtain ⟨txRows, feeRows, heq, hall, hfee⟩ :=
        updateTransactionsTable_some_rows L _ m1 stmt hidx hupd
      obtain ⟨hs, _, _, hsel, hsort, hcat, _⟩ :=
        updateTransactionsTable_some_frame L _ m1 hupd
      have hs : m1.statements = m.statements := hs
      have hsort : m1.sortBy = m.sortBy := hsort
      have hcat : m1.categoryFilter = m.categoryFilter := hcat
      have hidx : index? m.statements m1.statementsTable.cursor = some stmt := hidx
      have htab := congrArg (fun x : model => x.transactionsTable) heq
      simp only [] at htab
      refine ⟨stmt, txRows, feeRows, ?_, ?_, ?_, ?_, ?_⟩
      · rw [hs, hfollow]
        exact hidx
      · rw [htab]
        rfl
      · have hshown : shownTransactions L m1 stmt =
            shownTransactions L
              { m with
                statementsTable := m1.statementsTable
                selectedStmtIdx := m1.statementsTable.cursor } stmt := by
          unfold shownTransactions
          rw [hsort, hcat]
        rw [hshown, hcat]
        exact hall
      · rw [hcat]
        exact hfee
      · rw [htab]
        rfl

/-- C22 as the program has it, at an input: on three statements with the
statements panel focused on row 0, a "down" key returns a model with the
statements cursor and the selected statement on row 1; the cursor of the
transactions table is what `SetRows` leaves of the cursor before, -1 with the
widget that clamps. -/
theorem Update_statements_cursor_moved_witness :
    ∃ m1 c, Update hundredthsLib (statementsPanelModel 0) (key "down") = some (m1, c) ∧
      m1.statementsTable.cursor = 1 ∧ m1.selectedStmtIdx = m1.statementsTable.cursor ∧
      m1.transactionsTable.cursor =
        hundredthsLib.SetRowsCursor
          (hundredthsLib.SetRowsCursor (statementsPanelModel 0).transactionsTable.cursor 0)
          m1.transactionsTable.rows.length ∧
      m1.transactionsTable.cursor = -1 := by
  have hthm := Update_statements_cursor_moved hundredthsLib (statementsPanelModel 0)
    (key "down") rfl
  obtain ⟨m1, c, hr⟩ := hthm.1 hundredthsLib_dot (by decide) (by decide) (by decide)
  have hcur : m1.statementsTable.cursor = 1 := by
    have h := (by decide : (Update hundredthsLib (statementsPanelModel 0) (key "down")).map
      (fun r => r.1.statementsTable.cursor) = some 1)
    rw [hr] at h
    exact Option.some.inj h
  have htx : m1.transactionsTable.cursor = -1 := by
    have h := (by decide : (Update hundredthsLib (statementsPanelModel 0) (key "down")).map
      (fun r => r.1.transactionsTable.cursor) = some (-1))
    rw [hr] at h
    exact Option.some.inj h
  obtain ⟨hsel, stmt, txRows, feeRows, _, hrows, _, _, hc⟩ :=
    hthm.2 m1 c hr (by rw [hcur]; decide)
  refine ⟨m1, c, hr, hcur, hsel, ?_, htx⟩
  rw [hc, hrows]

theorem repeatUpdate_keyUp {V : Type} (L : Lib V) (n : Int) (t : TableModel)
    (hf : t.focus = true) (hn0 : 0 ≤ n) (hn : n ≤ t.cursor)
    (h1 : t.cursor ≤ (t.rows.length : Int) - 1) :
    repeatUpdate L n keyUp t = { t with cursor := t.cursor - n } := by
  unfold repeatUpdate
  rw [iterate_keyUp L n.toNat t hf (by omega) h1, Int.toNat_of_nonneg hn0]

theorem repeatUpdate_keyDown {V : Type} (L : Lib V) (n : Int) (t : TableModel)
    (hf : t.focus = true) (hn0 : 0 ≤ n) (h0 : 0 ≤ t.cursor)
    (h1 : t.cursor + n ≤ (t.rows.length : Int) - 1) :
    repeatUpdate L n keyDown t = { t with cursor := t.cursor + n } := by
  unfold repeatUpdate
  rw [iterate_keyDown L n.toNat t hf h0 (by omega), Int.toNat_of_nonneg hn0]

/-- A navigation key on the statements table that leaves its cursor on a row
of a statement returns a model with that table and that row selected. -/
theorem moveStatements_cursor {V : Type} [LinearOrder V] [Zero V] [Add V] (L : Lib V)
    (m : model) (t : TableModel) (h0 : 0 ≤ t.cursor) (h1 : t.cursor < m.statements.length)
    (hdot : ∀ v, '.' ∈ L.Sprintf2f v) :
    ∃ m1, moveStatements L m t = some (m1, Cmd.Nil) ∧ m1.statementsTable = t ∧
      m1.selectedStmtIdx = t.cursor := by
  obtain ⟨m1, h, _, _, _, hsel, _, _, htab, _⟩ := updateTransactionsTable_frame L
    { m with statementsTable := t, selectedStmtIdx := t.cursor } h0 h1 hdot
  unfold moveStatements
  rw [h]
  exact ⟨m1, rfl, htab, hsel⟩

/-- C23: in the statements view, for the focused panel with `N ≥ 1` rows and
the cursor on row `c`, "pgup" leaves the cursor on row `max (c - 10) 0`,
"pgdown" on row `min (c + 10) (N - 1)`, "home" on row 0 and "end" on row
`N - 1`, and the panel keeps its rows; for the statements panel, which has one
row for each statement, `selectedStmtIdx` is the same row afterwards.  In
every state reached from `initialModel` the focused panel is one of the two,
its table has the widget's focus, and with at least one statement the
statements table has one row for each statement and its cursor on a row.
Every printed amount has a decimal point. -/
theorem Update_page_home_end {V : Type} [LinearOrder V] [Zero V] [Add V] (L : Lib V)
    (m : model) (hview : m.currentView = statementsView)
    (hdot : ∀ v, '.' ∈ L.Sprintf2f v) :
    (m.focusedTable = 0 → m.statementsTable.focus = true →
      m.statementsTable.rows.length = m.statements.length →
      0 ≤ m.statementsTable.cursor →
      m.statementsTable.cursor ≤ (m.statementsTable.rows.length : Int) - 1 →
      (∃ m1 c, Update L m (Msg.KeyMsg "pgup".toList) = some (m1, c) ∧
        m1.statementsTable.rows = m.statementsTable.rows ∧
        m1.statementsTable.cursor = max (m.statementsTable.cursor - 10) 0 ∧
        m1.selectedStmtIdx = max (m.statementsTable.cursor - 10) 0) ∧
      (∃ m1 c, Update L m (Msg.KeyMsg "pgdown".toList) = some (m1, c) ∧
        m1.statementsTable.rows = m.statementsTable.rows ∧
        m1.statementsTable.cursor =
          min (m.statementsTable.cursor + 10) ((m.statementsTable.rows.length : Int) - 1) ∧
        m1.selectedStmtIdx =
          min (m.statementsTable.cursor + 10) ((m.statementsTable.rows.length : Int) - 1)) ∧
      (∃ m1 c, Update L m (Msg.KeyMsg "home".toList) = some (m1, c) ∧
        m1.statementsTable.rows = m.statementsTable.rows ∧
        m1.statementsTable.cursor = 0 ∧ m1.selectedStmtIdx = 0) ∧
      (∃ m1 c, Update L m (Msg.KeyMsg "end".toList) = some (m1, c) ∧
        m1.statementsTable.rows = m.statementsTable.rows ∧
        m1.statementsTable.cursor = (m.statementsTable.rows.length : Int) - 1 ∧
        m1.selectedStmtIdx = (m.statementsTable.rows.length : Int) - 1)) ∧
    (m.focusedTable = 1 → m.transactionsTable.focus = true →
      0 ≤ m.transactionsTable.cursor →
      m.transactionsTable.cursor ≤ (m.transactionsTable.rows.length : Int) - 1 →
      (∃ m1 c, Update L m (Msg.KeyMsg "pgup".toList) = some (m1, c) ∧
        m1.transactionsTable.rows = m.transactionsTable.rows ∧
        m1.transactionsTable.cursor = max (m.transactionsTable.cursor - 10) 0) ∧
      (∃ m1 c, Update L m (Msg.KeyMsg "pgdown".toList) = some (m1, c) ∧
        m1.transactionsTable.rows = m.transactionsTable.rows ∧
        m1.transactionsTable.cursor =
          min (m.transactionsTable.cursor + 10)
            ((m.transactionsTable.rows.length : Int) - 1)) ∧
      (∃ m1 c, Update L m (Msg.KeyMsg "home".toList) = some (m1, c) ∧
        m1.transactionsTable.rows = m.transactionsTable.rows ∧
        m1.transactionsTable.cursor = 0) ∧
      (∃ m1 c, Update L m (Msg.KeyMsg "end".toList) = some (m1, c) ∧
        m1.transactionsTable.rows = m.transactionsTable.rows ∧
        m1.transactionsTable.cursor = (m.transactionsTable.rows.length : Int) - 1)) ∧
    (∀ statements categorized msgs m1, reach L statements categorized msgs = some m1 →
      (m1.focusedTable = 0 ∨ m1.focusedTable = 1) ∧
      (m1.focusedTable = 0 → m1.statementsTable.focus = true) ∧
      (m1.focusedTable = 1 → m1.transactionsTable.focus = true) ∧
      (1 ≤ statements.length →
        m1.statementsTable.rows.length = m1.statements.length ∧
        0 ≤ m1.statementsTable.cursor ∧
        m1.statementsTable.cursor ≤ (m1.statementsTable.rows.length : Int) - 1)) := by
  refine ⟨?_, ?_, ?_⟩
  case refine_3 =>
    intro statements categorized msgs m1 h
    obtain ⟨hor, hstmt, htx⟩ := focusAgrees_reach L statements categorized msgs m1 h
    refine ⟨hor, hstmt, htx, fun hne => ?_⟩
    obtain ⟨m0, hinit, hrun⟩ := reach_some L statements categorized msgs m1 h
    obtain ⟨hs, hrows, hc, hsel, _⟩ := initialModel_some L statements categorized m0 hinit
    obtain ⟨_, gr, g0, g1, _⟩ := runUpdates_selected L msgs m0 m1 hrun
      (by rw [hs]; exact hne) (by rw [hrows, hs]) (by rw [hc]) (by rw [hc, hs]; omega)
      (by rw [hsel, hc])
    exact ⟨gr, g0, by rw [gr]; exact g1⟩
  · intro hf hfocus hrows hc0 hc1
    refine ⟨?_, ?_, ?_, ?_⟩
    · rw [Update_pgup_statements L m hview hf,
        repeatUpdate_keyUp L _ m.statementsTable hfocus (by split_ifs <;> omega)
          (by split_ifs <;> omega) hc1]
      obtain ⟨m1, h, htab, hsel⟩ := moveStatements_cursor L m
        { m.statementsTable with
          cursor := m.statementsTable.cursor -
            (if m.statementsTable.cursor < 10 then m.statementsTable.cursor else 10) }
        (by simp only []; split_ifs <;> omega) (by simp only []; split_ifs <;> omega) hdot
      refine ⟨m1, Cmd.Nil, h, by rw [htab], ?_, ?_⟩
      · rw [htab]
        simp only []
        split_ifs <;> omega
      · rw [hsel]
        simp only []
        split_ifs <;> omega
    · rw [Update_pgdown_statements L m hview hf,
        repeatUpdate_keyDown L _ m.statementsTable hfocus (by split_ifs <;> omega) hc0
          (by split_ifs <;> omega)]
      obtain ⟨m1, h, htab, hsel⟩ := moveStatements_cursor L m
        { m.statementsTable with
          cursor := m.statementsTable.cursor +
            (if (m.statements.length : Int) - 1 - m.statementsTable.cursor < 10 then
              (m.statements.length : Int) - 1 - m.statementsTable.cursor else 10) }
        (by simp only []; split_ifs <;> omega) (by simp only []; split_ifs <;> omega) hdot
      refine ⟨m1, Cmd.Nil, h, by rw [htab], ?_, ?_⟩
      · rw [htab]
        simp only []
        split_ifs <;> omega
      · rw [hsel]
        simp only []
        split_ifs <;> omega
    · rw [Update_home_statements L m hview hf,
        repeatUpdate_keyUp L _ m.statementsTable hfocus hc0 (le_refl _) hc1]
      obtain ⟨m1, h, htab, hsel⟩ := moveStatements_cursor L m
        { m.statementsTable with
          cursor := m.statementsTable.cursor - m.statementsTable.cursor }
        (by simp only []; omega) (by simp only []; omega) hdot
      refine ⟨m1, Cmd.Nil, h, by rw [htab], ?_, ?_⟩
      · rw [htab]
        simp only []
        omega
      · rw [hsel]
        simp only []
        omega
    · rw [Update_end_statements L m hview hf,
        repeatUpdate_keyDown L _ m.statementsTable hfocus (by omega) hc0 (by omega)]
      obtain ⟨m1, h, htab, hsel⟩ := moveStatements_cursor L m
        { m.statementsTable with
          cursor := m.statementsTable.cursor +
            ((m.statements.length : Int) - 1 - m.statementsTable.cursor) }
        (by simp only []; omega) (by simp only []; omega) hdot
      refine ⟨m1, Cmd.Nil, h, by rw [htab], ?_, ?_⟩
      · rw [htab]
        simp only []
        omega
      · rw [hsel]
        simp only []
        omega
  · intro hf hfocus hc0 hc1
    refine ⟨?_, ?_, ?_, ?_⟩
    · rw [Update_pgup_transactions L m hview hf,
        repeatUpdate_keyUp L _ m.transactionsTable hfocus (by split_ifs <;> omega)
          (by split_ifs <;> omega) hc1]
      refine ⟨_, Cmd.Nil, rfl, rfl, ?_⟩
      simp only []
      split_ifs <;> omega
    · rw [Update_pgdown_transactions L m hview hf,
        repeatUpdate_keyDown L _ m.transactionsTable hfocus (by split_ifs <;> omega) hc0
          (by split_ifs <;> omega)]
      refine ⟨_, Cmd.Nil, rfl, rfl, ?_⟩
      simp only []
      split_ifs <;> omega
    · rw [Update_home_transactions L m hview hf,
        repeatUpdate_keyUp L _ m.transactionsTable hfocus hc0 (le_refl _) hc1]
      refine ⟨_, Cmd.Nil, rfl, rfl, ?_⟩
      simp only []
      omega
    · rw [Update_end_transactions L m hview hf,
        repeatUpdate_keyDown L _ m.transactionsTable hfocus (by omega) hc0 (by omega)]
      refine ⟨_, Cmd.Nil, rfl, rfl, ?_⟩
      simp only []
      omega

/-- C23, at inputs: with thirteen rows, "pgup" on row 11 of the statements
panel leaves the cursor and the selected statement on row 1; on row 5, "pgup"
leaves them on row 0, "pgdown" on row 12, "home" on row 0 and "end" on row 12;
"pgdown" on row 1 leaves them on row 11; and likewise for the cursor of the
transactions panel. -/
theorem Update_page_home_end_witness :
    (∃ m1 c, Update hundredthsLib (longStatementsPanelModel 11) (Msg.KeyMsg "pgup".toList) =
        some (m1, c) ∧
      m1.statementsTable.cursor = 1 ∧ m1.selectedStmtIdx = 1) ∧
    ([key "pgup", key "pgdown", key "home", key "end"].map (fun msg =>
        (Update hundredthsLib (longStatementsPanelModel 5) msg).map
          (fun r => (r.1.statementsTable.cursor, r.1.selectedStmtIdx))) =
      [some (0, 0), some (12, 12), some (0, 0), some (12, 12)]) ∧
    (Update hundredthsLib (longStatementsPanelModel 1) (key "pgdown")).map
        (fun r => (r.1.statementsTable.cursor, r.1.selectedStmtIdx)) = some (11, 11) ∧
    ([key "pgup", key "pgdown", key "home", key "end"].map (fun msg =>
        (Update hundredthsLib (longTransactionsPanelModel 5) msg).map
          (fun r => r.1.transactionsTable.cursor)) =
      [some 0, some 12, some 0, some 12]) ∧
    (Update hundredthsLib (longTransactionsPanelModel 11) (key "pgup")).map
        (fun r => r.1.transactionsTable.cursor) = some 1 ∧
    (Update hundredthsLib (longTransactionsPanelModel 1) (key "pgdown")).map
        (fun r => r.1.transactionsTable.cursor) = some 11 := by
  refine ⟨?_, by decide, by decide, by decide, by decide, by decide⟩
  obtain ⟨m1, c, h1, _, h2, h3⟩ :=
    ((Update_page_home_end hundredthsLib (longStatementsPanelModel 11) rfl hundredthsLib_dot).1
      rfl rfl rfl (by decide) (by decide)).1
  exact ⟨m1, c, h1, h2.trans (by decide), h3.trans (by decide)⟩

end Statements
